import Mathlib

/-!
# kinect2_viewer: point-cloud projection, frame hand-off and depth tracking

A shallow embedding of `kinect2_viewer/src/viewer.cpp` (and of the functions it
shares with `viewerPointer.cpp`) together with theorems about it.  The two functions of
`viewerPointer.cpp` that differ from their namesakes, `createCloud` and `main`, are embedded
in the namespace `ViewerPointer`.

Conventions of the embedding.

* A C++ `float`/`double` value is an `FP`: NaN, a signed infinity, or a finite
  number held as an exact rational.  Signed zeros are not distinguished.
* How a finite result is narrowed to the 24 or 53 significant bits of the
  machine formats is a parameter, `Arith`: `Arith.ieee` rounds to nearest
  (ties to even) as the hardware does, `Arith.exact` keeps the exact rational.
* Unsigned 16-bit depth samples are natural numbers, reduced modulo `2 ^ 16` where
  they are read; 8-bit colour channels are natural numbers that are only copied.
* An access outside a buffer (undefined behaviour in C++) makes the embedded
  function return `none`.
* The quantities of the Kalman filter (`cv::KalmanFilter`, a 2-state, 1-measurement
  filter) are exact rationals in `kalman`; `kalmanF` is the same filter with `FP` quantities
  in the arithmetic `Arith`, and agrees with `kalman` in exact arithmetic.
* What the operating system, the clock, the detector and the synchronizer deliver (return
  values of `mkfifo` and `open`, clock readings, eye centres, frames) are inputs of the
  embedded functions; so are the key presses, the answers of `ros::ok()` and of
  `getCudaEnabledDeviceCount()`, and the string macros of `kinect2_definitions.h`.
* Threads are interleavings of steps: whole critical sections in `System`, single
  statements with an explicit mutex in `Machine`, where an image is a header that names a
  pixel buffer, as a `cv::Mat` is.
-/

namespace Kinect2Viewer

/-! ## Floating-point values -/

/-- Value of a C++ `float` or `double`. -/
inductive FP where
  | nan : FP
  | inf (negative : Bool) : FP
  | fin (q : ℚ) : FP
deriving DecidableEq

instance : Inhabited FP := ⟨FP.nan⟩

namespace FP

/-- The C++ `isnan`. -/
def isNaN : FP → Bool
  | nan => true
  | _ => false

/-- Unary minus. -/
def neg : FP → FP
  | nan => nan
  | inf s => inf (!s)
  | fin q => fin (-q)

/-- Exact product with the IEEE rules for NaN and infinities. -/
def mul : FP → FP → FP
  | nan, _ => nan
  | _, nan => nan
  | inf s, inf t => inf (xor s t)
  | inf s, fin q => if q = 0 then nan else inf (xor s (decide (q < 0)))
  | fin q, inf s => if q = 0 then nan else inf (xor s (decide (q < 0)))
  | fin a, fin b => fin (a * b)

/-- Exact difference with the IEEE rules for NaN and infinities. -/
def sub : FP → FP → FP
  | nan, _ => nan
  | _, nan => nan
  | inf s, inf t => if s = t then nan else inf s
  | inf s, fin _ => inf s
  | fin _, inf t => inf (!t)
  | fin a, fin b => fin (a - b)

/-- Exact quotient with the IEEE rules for NaN, infinities and division by zero. -/
def div : FP → FP → FP
  | nan, _ => nan
  | _, nan => nan
  | inf _, inf _ => nan
  | inf s, fin q => inf (xor s (decide (q < 0)))
  | fin _, inf _ => fin 0
  | fin a, fin b =>
    if b = 0 then (if a = 0 then nan else inf (decide (a < 0))) else fin (a / b)

/-- The C++ comparison `a <= b`: false as soon as one side is NaN. -/
def le : FP → FP → Bool
  | nan, _ => false
  | _, nan => false
  | inf s, inf t => s || !t
  | inf s, fin _ => s
  | fin _, inf t => !t
  | fin a, fin b => decide (a ≤ b)

/-- Apply a narrowing of finite values; NaN and infinities pass unchanged. -/
def narrow (f : ℚ → FP) : FP → FP
  | fin q => f q
  | x => x

end FP

/-- Number of halvings that bring `n` below 2: `⌊log₂ n⌋` for `0 < n ≤ 2 ^ fuel`. -/
def log2Fuel : Nat → Nat → Nat
  | 0, _ => 0
  | fuel + 1, n => if n < 2 then 0 else log2Fuel fuel (n / 2) + 1

/-- The integer `⌊log₂ (n / d)⌋` for positive `n` and `d`. -/
def floorLog2 (n d : Nat) : Int :=
  let ln := log2Fuel n n
  let ld := log2Fuel d d
  if d * 2 ^ ln ≤ n * 2 ^ ld then (ln : Int) - ld else (ln : Int) - ld - 1

/-- Round the positive rational `n / d` to the nearest binary floating-point number with
`p` significant bits and exponent range `emin .. emax`, ties to even; values that round
beyond the largest finite number become `+∞`, values below `2 ^ emin` are rounded on the
subnormal grid. -/
def roundPos (p : Nat) (emin emax : Int) (n d : Nat) : FP :=
  let e := max (floorLog2 n d) emin
  let k := e - ((p : Int) - 1)
  let N := if 0 ≤ k then n else n * 2 ^ (-k).toNat
  let D := if 0 ≤ k then d * 2 ^ k.toNat else d
  let m := N / D
  let rem := N % D
  let m1 :=
    if 2 * rem < D then m else if D < 2 * rem then m + 1 else if m % 2 = 0 then m else m + 1
  if 0 ≤ k then
    if 2 ^ (emax + 1).toNat ≤ m1 * 2 ^ k.toNat then FP.inf false
    else FP.fin (mkRat (m1 * 2 ^ k.toNat : Nat) 1)
  else FP.fin (mkRat m1 (2 ^ (-k).toNat))

/-- Round a rational to nearest, ties to even, in the format with `p` significant bits. -/
def roundNE (p : Nat) (emin emax : Int) (q : ℚ) : FP :=
  if q = 0 then FP.fin 0
  else if 0 < q then roundPos p emin emax q.num.natAbs q.den
  else (roundPos p emin emax q.num.natAbs q.den).neg

/-- How finite results are narrowed to the machine formats. -/
inductive Arith where
  | exact : Arith
  | ieee : Arith
deriving DecidableEq

namespace Arith

/-- Narrowing to `float` (binary32). -/
def toSingle : Arith → ℚ → FP
  | exact, q => FP.fin q
  | ieee, q => roundNE 24 (-126) 127 q

/-- Narrowing to `double` (binary64). -/
def toDouble : Arith → ℚ → FP
  | exact, q => FP.fin q
  | ieee, q => roundNE 53 (-1022) 1023 q

/-- Conversion of an unsigned integer to `float`. -/
def ofNat32 (A : Arith) (n : Nat) : FP := A.toSingle n

/-- Conversion of a `double` to `float`. -/
def single (A : Arith) (x : FP) : FP := x.narrow A.toSingle

/-- Product of two `float`s. -/
def mul32 (A : Arith) (a b : FP) : FP := (a.mul b).narrow A.toSingle

/-- Difference of two `float`s. -/
def sub32 (A : Arith) (a b : FP) : FP := (a.sub b).narrow A.toSingle

/-- Quotient of two `float`s. -/
def div32 (A : Arith) (a b : FP) : FP := (a.div b).narrow A.toSingle

/-- Quotient of two `double`s. -/
def div64 (A : Arith) (a b : FP) : FP := (a.div b).narrow A.toDouble

end Arith

/-! ## Images, camera matrix and point cloud -/

/-- A dense `cv::Mat` with `rows * cols` elements stored row by row. -/
structure Mat (α : Type) where
  rows : Nat
  cols : Nat
  data : List α
deriving DecidableEq

/-- Element `(r, c)` of a matrix, `none` outside its bounds. -/
def Mat.at? {α : Type} (m : Mat α) (r c : Nat) : Option α :=
  if r < m.rows ∧ c < m.cols then m.data[r * m.cols + c]? else none

/-- A `cv::Vec3b` colour pixel; `cv::Mat` colour images hold blue, green, red. -/
structure Vec3b where
  val0 : Nat
  val1 : Nat
  val2 : Nat
deriving DecidableEq, Inhabited

/-- The 3x3 `CV_64F` camera matrix, entries named by row and column. -/
structure CameraMatrix where
  k00 : FP
  k01 : FP
  k02 : FP
  k10 : FP
  k11 : FP
  k12 : FP
  k20 : FP
  k21 : FP
  k22 : FP
deriving DecidableEq

/-- A `pcl::PointXYZRGBA`; the four colour bytes are the bytes of its `rgba` word. -/
structure PointXYZRGBA where
  x : FP
  y : FP
  z : FP
  r : Nat
  g : Nat
  b : Nat
  a : Nat
deriving DecidableEq

/-! ## `Receiver::createLookup` and `Receiver::createCloud` -/

/-- The method `Receiver::createLookup(width, height)`: the pair `(lookupX, lookupY)` it
stores, computed from the stored colour camera matrix.  `fx` and `fy` are the reciprocals
of the focal lengths, computed in `double` and narrowed to `float`; each table entry is a
`float` difference times that reciprocal. -/
def createLookup (A : Arith) (cameraMatrixColor : CameraMatrix) (width height : Nat) :
    List FP × List FP :=
  let fx := A.single (A.div64 (FP.fin 1) cameraMatrixColor.k00)
  let fy := A.single (A.div64 (FP.fin 1) cameraMatrixColor.k11)
  let cx := A.single cameraMatrixColor.k02
  let cy := A.single cameraMatrixColor.k12
  let lookupY := (List.range height).map fun r => A.mul32 (A.sub32 (A.ofNat32 r) cy) fy
  let lookupX := (List.range width).map fun c => A.mul32 (A.sub32 (A.ofNat32 c) cx) fx
  (lookupX, lookupY)

/-- The `float depthValue = *itD / 1000.0f` of `createCloud` for a raw 16-bit sample. -/
def depthValue (A : Arith) (raw : Nat) : FP :=
  A.div32 (A.ofNat32 (raw % 65536)) (A.toSingle 1000)

/-- The `double` literal `0.001` that `createCloud` compares the depth with. -/
def depthThreshold (A : Arith) : FP := A.toDouble (1 / 1000)

/-- The test `isnan(depthValue) || depthValue <= 0.001` of `createCloud`. -/
def invalidDepth (A : Arith) (raw : Nat) : Bool :=
  (depthValue A raw).isNaN || (depthValue A raw).le (depthThreshold A)

/-- The point written for an invalid measurement: NaN coordinates and `rgba = 0`. -/
def badPoint : PointXYZRGBA :=
  { x := FP.nan, y := FP.nan, z := FP.nan, r := 0, g := 0, b := 0, a := 0 }

/-- The point written for a valid measurement: the depth as `z`, the two lookup entries
scaled by the depth as `x` and `y`, the colour pixel and full alpha. -/
def validPoint (A : Arith) (itX y : FP) (raw : Nat) (px : Vec3b) : PointXYZRGBA :=
  { z := depthValue A raw
    x := A.mul32 itX (depthValue A raw)
    y := A.mul32 y (depthValue A raw)
    b := px.val0
    g := px.val1
    r := px.val2
    a := 255 }

/-- Body of the inner loop of `createCloud` at row `r`, column `c`: the point stored at
`itP`.  Every field of the point is assigned on both paths, so the previous contents of
the point are not an input.  The lookup entry `*itX` and the colour pixel `*itC` are only
read for a valid measurement. -/
def cloudPoint (A : Arith) (lookupX : List FP) (y : FP) (depth : Mat Nat)
    (color : Mat Vec3b) (r c : Nat) : Option PointXYZRGBA := do
  let raw ← depth.at? r c
  if invalidDepth A raw then
    some badPoint
  else
    let itX ← lookupX[c]?
    let px ← color.at? r c
    some (validPoint A itX y raw px)

/-- One row of `createCloud`: `lookupY` is read at the row index, then the inner loop over
the columns writes the points `r * depth.cols + c` of the cloud in place.  The row pointers
`itP`, `itD`, `itC`, `itX` are formed at the start of the row and dereferenced only in the
inner loop. -/
def createCloudRow (A : Arith) (lookupX lookupY : List FP) (depth : Mat Nat)
    (color : Mat Vec3b) (points : List PointXYZRGBA) (r : Nat) :
    Option (List PointXYZRGBA) := do
  let y ← lookupY[r]?
  (List.range depth.cols).foldlM
    (fun pts c => do
      let p ← cloudPoint A lookupX y depth color r c
      if r * depth.cols + c < pts.length then some (pts.set (r * depth.cols + c) p) else none)
    points

/-- The method `Receiver::createCloud(depth, color, cloud)` of `viewer.cpp`: the points of
the cloud afterwards, or `none` when a buffer is accessed out of bounds.  The rows are
independent (the source runs them in an OpenMP parallel loop); here they run in order.
The copy in `viewerPointer.cpp` has one more statement, a print of `itP->z` after the inner
loop, which reads the point one past the row just written and writes nothing. -/
def createCloud (A : Arith) (lookupX lookupY : List FP) (depth : Mat Nat)
    (color : Mat Vec3b) (points : List PointXYZRGBA) : Option (List PointXYZRGBA) :=
  (List.range depth.rows).foldlM (createCloudRow A lookupX lookupY depth color) points

/-- The buffers handed to `createCloud` have matching dimensions: depth and colour frame
are dense `rows x cols` images, the lookup tables have `cols` and `rows` entries and the
cloud has `rows * cols` points. -/
structure MatchingDims (lookupX lookupY : List FP) (depth : Mat Nat) (color : Mat Vec3b)
    (points : List PointXYZRGBA) : Prop where
  depth_size : depth.data.length = depth.rows * depth.cols
  color_rows : color.rows = depth.rows
  color_cols : color.cols = depth.cols
  color_size : color.data.length = color.rows * color.cols
  lookupX_size : lookupX.length = depth.cols
  lookupY_size : lookupY.length = depth.rows
  points_size : points.length = depth.rows * depth.cols

/-- An invalid cloud point: NaN position and zero alpha. -/
def PointXYZRGBA.Invalid (p : PointXYZRGBA) : Prop :=
  p.x = FP.nan ∧ p.y = FP.nan ∧ p.z = FP.nan ∧ p.a = 0

/-! ## Shared frame state: `Receiver::callback` and the two consumers -/

/-- The enumeration `Receiver::Mode`. -/
inductive Mode where
  | IMAGE : Mode
  | CLOUD : Mode
  | BOTH : Mode
deriving DecidableEq

/-- The data members of `Receiver` that the callback, the consumer loops and the cloud
construction read and write. -/
structure Receiver where
  updateImage : Bool
  updateCloud : Bool
  save : Bool
  running : Bool
  frame : Nat
  mode : Mode
  color : Mat Vec3b
  depth : Mat Nat
  cameraMatrixColor : CameraMatrix
  cameraMatrixDepth : CameraMatrix
  lookupX : List FP
  lookupY : List FP
  cloud : List PointXYZRGBA
deriving DecidableEq

/-- The matrix `cv::Mat::zeros(3, 3, CV_64F)`. -/
def CameraMatrix.zeros : CameraMatrix :=
  ⟨FP.fin 0, FP.fin 0, FP.fin 0, FP.fin 0, FP.fin 0, FP.fin 0, FP.fin 0, FP.fin 0, FP.fin 0⟩

/-- The state the constructor `Receiver::Receiver` leaves: all flags false, frame counter
0, mode `CLOUD`, zero camera matrices, empty images, tables and cloud. -/
def Receiver.new : Receiver :=
  { updateImage := false
    updateCloud := false
    save := false
    running := false
    frame := 0
    mode := Mode.CLOUD
    color := ⟨0, 0, []⟩
    depth := ⟨0, 0, []⟩
    cameraMatrixColor := CameraMatrix.zeros
    cameraMatrixDepth := CameraMatrix.zeros
    lookupX := []
    lookupY := []
    cloud := [] }

/-- The method `Receiver::callback`: the camera matrices are overwritten with the ones
received, then, under the lock, the stored frame is replaced and both dirty flags are set.
The arguments `color` and `depth` are the function's local images at the point where the
lock is taken, that is after `readImage` and, for a 16-bit infrared input, after the
conversion to 8-bit BGR. -/
def Receiver.callback (s : Receiver) (color : Mat Vec3b) (depth : Mat Nat)
    (cameraInfoColor cameraInfoDepth : CameraMatrix) : Receiver :=
  { s with
    cameraMatrixColor := cameraInfoColor
    cameraMatrixDepth := cameraInfoDepth
    color := color
    depth := depth
    updateImage := true
    updateCloud := true }

/-- The critical section of `Receiver::imageViewer`: the local `color` and `depth` it
obtains, and the receiver afterwards. -/
def Receiver.imageViewerTake (s : Receiver) : (Mat Vec3b × Mat Nat) × Receiver :=
  ((s.color, s.depth), { s with updateImage := false })

/-- The critical section of `Receiver::cloudViewer` (the one at loop entry and the one in
the loop are the same code): the local `color` and `depth` it obtains, and the receiver
afterwards. -/
def Receiver.cloudViewerTake (s : Receiver) : (Mat Vec3b × Mat Nat) × Receiver :=
  ((s.color, s.depth), { s with updateCloud := false })

/-- Where `imageViewer` stands: before the test `if(updateImage)`, or past a successful
test and before its critical section. -/
inductive ImagePc where
  | test : ImagePc
  | locked : ImagePc
deriving DecidableEq

/-- Where `cloudViewer` stands: before the unconditional critical section at its entry,
before the test `if(updateCloud)` of its loop, or past a successful test and before the
critical section of the loop. -/
inductive CloudPc where
  | entry : CloudPc
  | test : CloudPc
  | locked : CloudPc
deriving DecidableEq

/-- A frame as a consumer obtained it, with its number in publication order (the frame
stored by the `n`-th callback has number `n`; 0 is the empty frame of the constructor). -/
structure Delivery where
  number : Nat
  color : Mat Vec3b
  depth : Mat Nat
deriving DecidableEq

/-- The receiver with the positions of the two consumers, the number of callbacks so far
and the frames each consumer has obtained, oldest first. -/
structure System where
  recv : Receiver
  published : Nat
  imagePc : ImagePc
  cloudPc : CloudPc
  imageLog : List Delivery
  cloudLog : List Delivery
deriving DecidableEq

/-- The atomic steps of the producer and of the two consumers: a whole call of `callback`;
for each consumer the unlocked test of its flag and its critical section as separate steps;
the critical section `cloudViewer` runs once before its loop. -/
inductive Event where
  | callback (color : Mat Vec3b) (depth : Mat Nat)
      (cameraInfoColor cameraInfoDepth : CameraMatrix) : Event
  | imageTest : Event
  | imageTake : Event
  | cloudEntry : Event
  | cloudTest : Event
  | cloudTake : Event
deriving DecidableEq

/-- The frame currently stored, as a consumer taking it now would obtain it. -/
def System.stored (s : System) : Delivery :=
  ⟨s.published, s.recv.color, s.recv.depth⟩

/-- One step of the system; a step that is not enabled where its thread stands leaves the
state unchanged. -/
def System.step (s : System) : Event → System
  | Event.callback color depth cameraInfoColor cameraInfoDepth =>
    { s with
      recv := s.recv.callback color depth cameraInfoColor cameraInfoDepth
      published := s.published + 1 }
  | Event.imageTest =>
    if s.imagePc = ImagePc.test ∧ s.recv.updateImage = true then
      { s with imagePc := ImagePc.locked }
    else s
  | Event.imageTake =>
    if s.imagePc = ImagePc.locked then
      { s with
        recv := s.recv.imageViewerTake.2
        imagePc := ImagePc.test
        imageLog := s.imageLog ++
          [⟨s.published, s.recv.imageViewerTake.1.1, s.recv.imageViewerTake.1.2⟩] }
    else s
  | Event.cloudEntry =>
    if s.cloudPc = CloudPc.entry then
      { s with
        recv := s.recv.cloudViewerTake.2
        cloudPc := CloudPc.test
        cloudLog := s.cloudLog ++
          [⟨s.published, s.recv.cloudViewerTake.1.1, s.recv.cloudViewerTake.1.2⟩] }
    else s
  | Event.cloudTest =>
    if s.cloudPc = CloudPc.test ∧ s.recv.updateCloud = true then
      { s with cloudPc := CloudPc.locked }
    else s
  | Event.cloudTake =>
    if s.cloudPc = CloudPc.locked then
      { s with
        recv := s.recv.cloudViewerTake.2
        cloudPc := CloudPc.test
        cloudLog := s.cloudLog ++
          [⟨s.published, s.recv.cloudViewerTake.1.1, s.recv.cloudViewerTake.1.2⟩] }
    else s

/-- An interleaving: the steps taken one after the other. -/
def System.run (s : System) (events : List Event) : System :=
  events.foldl System.step s

/-- The system when the threads start: nothing published, nothing obtained. -/
def System.init (r : Receiver) : System :=
  { recv := r
    published := 0
    imagePc := ImagePc.test
    cloudPc := CloudPc.entry
    imageLog := []
    cloudLog := [] }

/-- What holds of one consumer's log in every state: its numbers increase strictly and
none exceeds the number of the stored frame; they are all below it while the consumer's
flag is set. -/
structure LogInv (published : Nat) (flag : Bool) (log : List Delivery) : Prop where
  sorted : (log.map Delivery.number).Pairwise (· < ·)
  le : ∀ d ∈ log, d.number ≤ published
  lt : flag = true → ∀ d ∈ log, d.number < published

/-- Invariant of the system relating flags, positions and logs. -/
structure SystemInv (s : System) : Prop where
  image : LogInv s.published s.recv.updateImage s.imageLog
  cloud : LogInv s.published s.recv.updateCloud s.cloudLog
  imageLocked : s.imagePc = ImagePc.locked → s.recv.updateImage = true
  cloudLocked : s.cloudPc = CloudPc.locked → s.recv.updateCloud = true
  cloudEntry : s.cloudPc = CloudPc.entry → s.cloudLog = []

/-! ## Depth tracker: `cv::KalmanFilter KF(2, 1, 0)` and `Receiver::kalman` -/

/-- A 2x1 column (state, gain). -/
structure Vec2 where
  x0 : ℚ
  x1 : ℚ
deriving DecidableEq

/-- A 1x2 row (measurement matrix). -/
structure Mat12 where
  m00 : ℚ
  m01 : ℚ
deriving DecidableEq

/-- A 2x2 matrix. -/
structure Mat22 where
  m00 : ℚ
  m01 : ℚ
  m10 : ℚ
  m11 : ℚ
deriving DecidableEq

namespace Mat22

/-- Matrix product. -/
def mul (a b : Mat22) : Mat22 :=
  { m00 := a.m00 * b.m00 + a.m01 * b.m10
    m01 := a.m00 * b.m01 + a.m01 * b.m11
    m10 := a.m10 * b.m00 + a.m11 * b.m10
    m11 := a.m10 * b.m01 + a.m11 * b.m11 }

/-- Transpose. -/
def transpose (a : Mat22) : Mat22 :=
  { m00 := a.m00, m01 := a.m10, m10 := a.m01, m11 := a.m11 }

/-- Entrywise sum. -/
def add (a b : Mat22) : Mat22 :=
  { m00 := a.m00 + b.m00, m01 := a.m01 + b.m01, m10 := a.m10 + b.m10, m11 := a.m11 + b.m11 }

/-- Entrywise difference. -/
def sub (a b : Mat22) : Mat22 :=
  { m00 := a.m00 - b.m00, m01 := a.m01 - b.m01, m10 := a.m10 - b.m10, m11 := a.m11 - b.m11 }

/-- Every entry multiplied by a scalar (`M *= s`). -/
def scale (a : Mat22) (s : ℚ) : Mat22 :=
  { m00 := a.m00 * s, m01 := a.m01 * s, m10 := a.m10 * s, m11 := a.m11 * s }

/-- Matrix times column. -/
def mulVec (a : Mat22) (v : Vec2) : Vec2 :=
  { x0 := a.m00 * v.x0 + a.m01 * v.x1, x1 := a.m10 * v.x0 + a.m11 * v.x1 }

/-- The result of `cv::setIdentity(M, s)`. -/
def identity (s : ℚ) : Mat22 :=
  { m00 := s, m01 := 0, m10 := 0, m11 := s }

end Mat22

/-- Row times 2x2 matrix. -/
def Mat12.mulMat (h : Mat12) (a : Mat22) : Mat12 :=
  { m00 := h.m00 * a.m00 + h.m01 * a.m10, m01 := h.m00 * a.m01 + h.m01 * a.m11 }

/-- Row times the transpose of a row (a 1x1 matrix). -/
def Mat12.mulTranspose (a b : Mat12) : ℚ := a.m00 * b.m00 + a.m01 * b.m01

/-- Row times column (a 1x1 matrix). -/
def Mat12.mulVec (h : Mat12) (v : Vec2) : ℚ := h.m00 * v.x0 + h.m01 * v.x1

/-- Column times row (a 2x2 matrix). -/
def Vec2.mulRow (g : Vec2) (t : Mat12) : Mat22 :=
  { m00 := g.x0 * t.m00, m01 := g.x0 * t.m01, m10 := g.x1 * t.m00, m11 := g.x1 * t.m01 }

/-- The fields of `cv::KalmanFilter` for 2 dynamic parameters, 1 measurement parameter and
no control input. -/
structure KalmanFilter where
  statePre : Vec2
  statePost : Vec2
  transitionMatrix : Mat22
  processNoiseCov : Mat22
  measurementMatrix : Mat12
  measurementNoiseCov : ℚ
  errorCovPre : Mat22
  errorCovPost : Mat22
  gain : Vec2
deriving DecidableEq

/-- The global `const float Qt = 1500.0`. -/
def Qt : ℚ := 1500

/-- The global `const float Rt = 30`. -/
def Rt : ℚ := 30

/-- Modelled from the spec: the constructor `KalmanFilter KF(2, 1, 0)` is OpenCV library
code outside the repository.  The tracker state is a position/velocity pair with error
covariance, process-noise and measurement-noise parameters; the constructor zeroes the
state, the error covariances, the gain and the measurement matrix and sets the transition
matrix and the two noise covariances to the identity. -/
def KalmanFilter.init : KalmanFilter :=
  { statePre := ⟨0, 0⟩
    statePost := ⟨0, 0⟩
    transitionMatrix := Mat22.identity 1
    processNoiseCov := Mat22.identity 1
    measurementMatrix := ⟨0, 0⟩
    measurementNoiseCov := 1
    errorCovPre := ⟨0, 0, 0, 0⟩
    errorCovPost := ⟨0, 0, 0, 0⟩
    gain := ⟨0, 0⟩ }

/-- The filter set-up of `main`: `setIdentity` on the measurement matrix, process noise
`Qt * I`, measurement noise `Rt`, a-posteriori error covariance `I`, and the prior
position `KF.statePost.at<float>(0) = 650`. -/
def mainKF : KalmanFilter :=
  { KalmanFilter.init with
    measurementMatrix := ⟨1, 0⟩
    processNoiseCov := Mat22.identity Qt
    measurementNoiseCov := Rt
    errorCovPost := Mat22.identity 1
    statePost := { KalmanFilter.init.statePost with x0 := 650 } }

/-- Modelled from the spec: `cv::KalmanFilter::predict` is OpenCV library code outside the
repository.  It advances the state with the transition matrix, `x' = A x`, propagates the
error covariance with the process noise, `P' = A P Aᵀ + Q`, copies both to the
a-posteriori fields and returns the a-priori estimate `statePre`. -/
def KalmanFilter.predict (KF : KalmanFilter) : KalmanFilter :=
  let statePre := KF.transitionMatrix.mulVec KF.statePost
  let temp1 := KF.transitionMatrix.mul KF.errorCovPost
  let errorCovPre := (temp1.mul KF.transitionMatrix.transpose).add KF.processNoiseCov
  { KF with
    statePre := statePre
    errorCovPre := errorCovPre
    statePost := statePre
    errorCovPost := errorCovPre }

/-- Modelled from the spec: `cv::KalmanFilter::correct` is OpenCV library code outside the
repository.  It applies the standard Kalman gain update for the scalar measurement:
`K = P' Hᵀ (H P' Hᵀ + R)⁻¹`, `x = x' + K (z - H x')`, `P = P' - K H P'`, and returns the
a-posteriori estimate `statePost`.  The 1x1 system is solved with a pseudo-inverse, which
gives 0 for a zero innovation variance, as rational division by zero does. -/
def KalmanFilter.correct (KF : KalmanFilter) (measurement : ℚ) : KalmanFilter :=
  let temp2 := KF.measurementMatrix.mulMat KF.errorCovPre
  let temp3 := temp2.mulTranspose KF.measurementMatrix + KF.measurementNoiseCov
  let temp4 : Mat12 := ⟨temp2.m00 / temp3, temp2.m01 / temp3⟩
  let gain : Vec2 := ⟨temp4.m00, temp4.m01⟩
  let temp5 := measurement - KF.measurementMatrix.mulVec KF.statePre
  { KF with
    gain := gain
    statePost := ⟨KF.statePre.x0 + gain.x0 * temp5, KF.statePre.x1 + gain.x1 * temp5⟩
    errorCovPost := KF.errorCovPre.sub (gain.mulRow temp2) }

/-- The three values `kalman` hands to `talker`. -/
structure Telemetry where
  rosobs : ℚ
  rospred : ℚ
  rosupd : ℚ
deriving DecidableEq

/-- The two assignments `kalman` makes ahead of the prediction: the process-noise covariance
`Qt * [[q11, q12], [q21, q22]]` and the transition matrix `[[1, deltaT], [0, 1]]`. -/
def kalmanModel (deltaT : ℚ) (KF : KalmanFilter) : KalmanFilter :=
  let q11 := deltaT ^ 4 / 4
  let q12 := deltaT ^ 3 / 2
  let q21 := deltaT ^ 3 / 2
  let q22 := deltaT ^ 2
  let KF1 := { KF with processNoiseCov := (Mat22.mk q11 q12 q21 q22).scale Qt }
  { KF1 with transitionMatrix := ⟨1, deltaT, 0, 1⟩ }

/-- The method `Receiver::kalman(deltaT, measurement)`: the global filter `KF` afterwards
and the values passed to `talker`.  `measurement` is the single entry of the 1x1 matrix the
caller builds from `rosdepth`.  The quantities are exact rationals here; `kalmanF` is the
method with `float` quantities in the machine arithmetic. -/
def kalman (deltaT : ℚ) (measurement : ℚ) (KF : KalmanFilter) : KalmanFilter × Telemetry :=
  let KF1 := (kalmanModel deltaT KF).predict
  let prediction := KF1.statePre
  let KF2 := KF1.correct measurement
  let update := KF2.statePost
  (KF2, { rosobs := measurement, rospred := prediction.x0, rosupd := update.x0 })

/-- A filter state the program can be in: the set-up of `main`, then any number of calls
of `kalman`. -/
inductive Reachable : KalmanFilter → Prop
  | main : Reachable mainKF
  | kalman (deltaT measurement : ℚ) (KF : KalmanFilter) :
      Reachable KF → Reachable (kalman deltaT measurement KF).1

/-- Symmetric positive semidefinite 2x2 matrix. -/
def Mat22.PosSemidef (P : Mat22) : Prop :=
  P.m01 = P.m10 ∧ 0 ≤ P.m00 ∧ 0 ≤ P.m11 ∧ P.m01 * P.m10 ≤ P.m00 * P.m11

/-- What every reachable filter state satisfies: position-only measurement, measurement
noise `Rt`, symmetric positive semidefinite a-posteriori error covariance. -/
structure TrackerInv (KF : KalmanFilter) : Prop where
  measurement : KF.measurementMatrix = ⟨1, 0⟩
  noise : KF.measurementNoiseCov = Rt
  psd : KF.errorCovPost.PosSemidef

/-! ## Order on floating-point values and `createLookup` as a method -/

/-- The C++ comparison `a < b`: false as soon as one side is NaN. -/
def FP.lt : FP → FP → Bool
  | FP.nan, _ => false
  | _, FP.nan => false
  | FP.inf s, FP.inf t => s && !t
  | FP.inf s, FP.fin _ => s
  | FP.fin _, FP.inf t => !t
  | FP.fin a, FP.fin b => decide (a < b)

/-- The method `Receiver::createLookup(width, height)` as a change of the receiver: both
tables are replaced by the ones computed from the stored colour camera matrix. -/
def Receiver.createLookup (A : Arith) (s : Receiver) (width height : Nat) : Receiver :=
  { s with
    lookupY := (Kinect2Viewer.createLookup A s.cameraMatrixColor width height).2
    lookupX := (Kinect2Viewer.createLookup A s.cameraMatrixColor width height).1 }

/-! ## Start-up: `Receiver::start` up to the consumer loop -/

/-- What happens while `start` waits: the synchronizer delivers a frame set (`callback`), or
the loop `while(!updateImage || !updateCloud)` evaluates its condition and, when the
condition holds, reads `ros::ok()` with the given answer. -/
inductive StartEvent where
  | callback (color : Mat Vec3b) (depth : Mat Nat)
      (cameraInfoColor cameraInfoDepth : CameraMatrix) : StartEvent
  | test (rosOk : Bool) : StartEvent
deriving DecidableEq

/-- How far `start` got: still in the start-up wait when the events ended, returned from the
wait because `ros::ok()` failed, or past the wait with the cloud allocated and the lookup
tables built, at the point where the consumer loop of the mode is entered. -/
inductive StartResult where
  | waiting (s : Receiver) : StartResult
  | returned (s : Receiver) : StartResult
  | entered (s : Receiver) : StartResult
deriving DecidableEq

/-- The first two assignments of `start`. -/
def Receiver.startBegin (s : Receiver) (mode : Mode) : Receiver :=
  { s with mode := mode, running := true }

/-- The statements of `start` between the wait and the consumer loop: the cloud gets
`color.rows * color.cols` points, each the value `blank` of the point type's default
constructor (library code, taken as a parameter), and the lookup tables are built for
`color.cols` and `color.rows`. -/
def Receiver.startSetup (A : Arith) (blank : PointXYZRGBA) (s : Receiver) : Receiver :=
  Receiver.createLookup A
    { s with cloud := List.replicate (s.color.rows * s.color.cols) blank }
    s.color.cols s.color.rows

/-- The start-up wait of `start` over the events that occur during it. -/
def startWait (A : Arith) (blank : PointXYZRGBA) : Receiver → List StartEvent → StartResult
  | s, [] => StartResult.waiting s
  | s, StartEvent.callback color depth cameraInfoColor cameraInfoDepth :: events =>
    startWait A blank (s.callback color depth cameraInfoColor cameraInfoDepth) events
  | s, StartEvent.test rosOk :: events =>
    if s.updateImage = true ∧ s.updateCloud = true then
      StartResult.entered (s.startSetup A blank)
    else if rosOk = true then startWait A blank s events
    else StartResult.returned s

/-- The method `Receiver::start(mode)` up to the point where it returns early or enters the
consumer loop of the mode. -/
def start (A : Arith) (blank : PointXYZRGBA) (mode : Mode) (s : Receiver)
    (events : List StartEvent) : StartResult :=
  startWait A blank (s.startBegin mode) events

/-! ## The calls of `createCloud` made by `cloudViewer` -/

/-- The arguments and tables of one call `createCloud(depth, color, cloud)`. -/
structure CloudCall where
  lookupX : List FP
  lookupY : List FP
  depth : Mat Nat
  color : Mat Vec3b
deriving DecidableEq

/-- The system together with the calls of `createCloud` that `cloudViewer` has made, oldest
first: one right after each of its critical sections, on the frame just obtained and with
the lookup tables of the receiver. -/
structure Pipeline where
  sys : System
  cloudCalls : List CloudCall
deriving DecidableEq

/-- One step of the pipeline. -/
def Pipeline.step (p : Pipeline) (e : Event) : Pipeline :=
  { sys := p.sys.step e
    cloudCalls :=
      if (e = Event.cloudEntry ∧ p.sys.cloudPc = CloudPc.entry)
          ∨ (e = Event.cloudTake ∧ p.sys.cloudPc = CloudPc.locked) then
        p.cloudCalls ++
          [⟨p.sys.recv.lookupX, p.sys.recv.lookupY, p.sys.recv.depth, p.sys.recv.color⟩]
      else p.cloudCalls }

/-- An interleaving of the pipeline. -/
def Pipeline.run (p : Pipeline) (events : List Event) : Pipeline :=
  events.foldl Pipeline.step p

/-- The pipeline when the consumer loop is entered with receiver `r`. -/
def Pipeline.init (r : Receiver) : Pipeline :=
  { sys := System.init r, cloudCalls := [] }

/-! ## Telemetry: `Receiver::talker` -/

/-- The named pipes `talker` writes to, in the order of the source. -/
inductive Fifo where
  | myrosfifo : Fifo
  | rosobsfifo : Fifo
  | rospredfifo : Fifo
  | rosupdfifo : Fifo
deriving DecidableEq

/-- The path of a named pipe. -/
def Fifo.path : Fifo → String
  | Fifo.myrosfifo => "/tmp/myrosfifo"
  | Fifo.rosobsfifo => "/tmp/rosobsfifo"
  | Fifo.rospredfifo => "/tmp/rospredfifo"
  | Fifo.rosupdfifo => "/tmp/rosupdfifo"

/-- What the operating system answers to `talker`: the return value of `mkfifo` for each
path (0, or -1 on failure, which includes the pipe existing already) and the return value
of `open` (a descriptor, or -1 on failure). -/
structure OsEnv where
  mkfifoResult : Fifo → Int
  openResult : Fifo → Int

/-- A write that reached a named pipe: the pipe, the value and the number of bytes. -/
structure FifoWrite where
  fifo : Fifo
  value : ℚ
  size : Nat
deriving DecidableEq

/-- The size `sizeof(float)` passed to `write`. -/
def sizeofFloat : Nat := 4

/-- One block of `talker`: `mkfifo`, `open`, `write`, `close` on one path.  The results of
`mkfifo` and `open` are not examined; the `write` goes to whatever `open` returned, so it
reaches the pipe exactly when `open` returned a descriptor. -/
def talkerSend (os : OsEnv) (fifo : Fifo) (value : ℚ) : List FifoWrite :=
  if 0 ≤ os.openResult fifo then [⟨fifo, value, sizeofFloat⟩] else []

/-- The function `Receiver::talker(rosobs, rospred, rosupd)`: its return value and the
writes that reached a pipe, in order. -/
def talker (os : OsEnv) (rosobs rospred rosupd : ℚ) : Int × List FifoWrite :=
  (0, talkerSend os Fifo.myrosfifo rosobs ++ talkerSend os Fifo.rosobsfifo rosobs
        ++ talkerSend os Fifo.rospredfifo rospred ++ talkerSend os Fifo.rosupdfifo rosupd)

/-- The call `talker(rosobs, rospred, rosupd)` that ends `kalman`; its return value is
discarded. -/
def kalmanTalker (os : OsEnv) (deltaT measurement : ℚ) (KF : KalmanFilter) :
    KalmanFilter × List FifoWrite :=
  ((kalman deltaT measurement KF).1,
    (talker os (kalman deltaT measurement KF).2.rosobs (kalman deltaT measurement KF).2.rospred
      (kalman deltaT measurement KF).2.rosupd).2)

/-! ## The loop over the detected faces in `Receiver::imageViewer` -/

/-- A `cv::Point` with `int` coordinates. -/
structure Point where
  x : Int
  y : Int
deriving DecidableEq

/-- What the detector and the clock deliver for one detected face: the centres
`eye_center` of the eyes found in it, in order, and the readings of
`high_resolution_clock` (in nanoseconds) taken before and after the eye detection, named
`start` and `end` in the source. -/
structure FaceDetection where
  eyes : List Point
  start : Int
  finish : Int
deriving DecidableEq

/-- The globals `rosdepth` and `KF`. -/
structure Tracker where
  rosdepth : Nat
  KF : KalmanFilter
deriving DecidableEq

/-- The arguments of one call `kalman(deltaT, measurement)`. -/
structure KalmanCall where
  deltaT : ℚ
  measurement : ℚ
deriving DecidableEq

/-- The value `duration_cast<milliseconds>(end - start).count() / 1000.0`: the elapsed
time truncated to whole milliseconds, in seconds. -/
def deltaTOf (start finish : Int) : ℚ :=
  ((Int.tdiv (finish - start) 1000000 : Int) : ℚ) / 1000

/-- The read `depth.at<uint16_t>(eye_center.y, eye_center.x)`, `none` outside the frame. -/
def depthAt (depth : Mat Nat) (p : Point) : Option Nat :=
  if 0 ≤ p.y ∧ 0 ≤ p.x then (depth.at? p.y.toNat p.x.toNat).map (· % 65536) else none

/-- The loop over the eyes of one face: each eye overwrites `rosdepth` with the depth at
its centre. -/
def sampleEyes (depth : Mat Nat) (eyes : List Point) (rosdepth : Nat) : Option Nat :=
  eyes.foldlM (fun _ p => depthAt depth p) rosdepth

/-- One iteration of the loop over the faces: the eye loop, then `kalman(deltaT,
measurement)` with the measurement built from `rosdepth`. -/
def trackFace (depth : Mat Nat) (st : Tracker × List KalmanCall) (f : FaceDetection) :
    Option (Tracker × List KalmanCall) := do
  let rosdepth ← sampleEyes depth f.eyes st.1.rosdepth
  let deltaT := deltaTOf f.start f.finish
  let measurement : ℚ := rosdepth
  some ({ rosdepth := rosdepth, KF := (kalman deltaT measurement st.1.KF).1 },
    st.2 ++ [⟨deltaT, measurement⟩])

/-- The loop `for(i = 0; i < faces_detect; ++i)` of `imageViewer` on one frame: the globals
afterwards and the calls of `kalman` made, in order. -/
def imageViewerFaces (depth : Mat Nat) (faces : List FaceDetection) (st : Tracker) :
    Option (Tracker × List KalmanCall) :=
  faces.foldlM (trackFace depth) (st, [])

/-- The face loops of successive frames taken by `imageViewer`, each frame with its depth
image and its detected faces. -/
def imageViewerFrames (frames : List (Mat Nat × List FaceDetection)) (st : Tracker) :
    Option (Tracker × List KalmanCall) :=
  frames.foldlM
    (fun acc fr => (imageViewerFaces fr.1 fr.2 acc.1).map (fun r => (r.1, acc.2 ++ r.2)))
    (st, [])

/-- Every eye centre of every face lies inside the dense depth frame. -/
def EyesInFrame (depth : Mat Nat) (faces : List FaceDetection) : Prop :=
  depth.data.length = depth.rows * depth.cols
    ∧ ∀ f ∈ faces, ∀ p ∈ f.eyes,
        0 ≤ p.y ∧ 0 ≤ p.x ∧ p.y.toNat < depth.rows ∧ p.x.toNat < depth.cols

/-- The C++ `isfinite`: neither NaN nor an infinity. -/
def FP.isFinite : FP → Bool
  | FP.fin _ => true
  | _ => false

/-! ## `Receiver::createCloud` in `viewerPointer.cpp` -/

namespace ViewerPointer

/-- One row of `Receiver::createCloud` in `viewerPointer.cpp`: the row as in `viewer.cpp`,
then the statement `cout << "itP->z: " << itP->z << endl`.  There `itP` has been advanced
over the whole row, so the statement reads the cloud point `r * depth.cols + depth.cols`.
The state is the cloud together with the values printed so far. -/
def createCloudRow (A : Arith) (lookupX lookupY : List FP) (depth : Mat Nat)
    (color : Mat Vec3b) (st : List PointXYZRGBA × List FP) (r : Nat) :
    Option (List PointXYZRGBA × List FP) := do
  let pts ← Kinect2Viewer.createCloudRow A lookupX lookupY depth color st.1 r
  let p ← pts[r * depth.cols + depth.cols]?
  some (pts, st.2 ++ [p.z])

/-- The method `Receiver::createCloud(depth, color, cloud)` of `viewerPointer.cpp`: the
points of the cloud afterwards and the values printed, or `none` when a buffer is accessed
out of bounds. -/
def createCloud (A : Arith) (lookupX lookupY : List FP) (depth : Mat Nat)
    (color : Mat Vec3b) (points : List PointXYZRGBA) : Option (List PointXYZRGBA × List FP) :=
  (List.range depth.rows).foldlM (createCloudRow A lookupX lookupY depth color) (points, [])

end ViewerPointer

/-! ## The innovation variance and sequences of calls of `kalman` -/

/-- The 1x1 matrix `H P' Hᵀ + R` that `correct` divides by to obtain the gain (the innovation
variance), read off the filter before the correction. -/
def KalmanFilter.innovationCov (KF : KalmanFilter) : ℚ :=
  (KF.measurementMatrix.mulMat KF.errorCovPre).mulTranspose KF.measurementMatrix
    + KF.measurementNoiseCov

/-- The filter after a finite sequence of calls of `kalman`, from the set-up of `main`. -/
def kalmanCalls (calls : List KalmanCall) : KalmanFilter :=
  calls.foldl (fun KF c => (kalman c.deltaT c.measurement KF).1) mainKF

/-! ## Saved files: `Receiver::saveCloudAndImages` -/

/-- Number of values of a `size_t` (64 bits), the type of the frame counter. -/
def sizeRange : Nat := 2 ^ 64

/-- The text `std::setfill('0') << std::setw(4) << frame` appends to the stream: the
decimal digits of the counter, padded on the left with `'0'` to four characters; a counter
of more than four digits is printed in full. -/
def setw4 (frame : Nat) : String :=
  String.mk (List.leftpad 4 '0' (Nat.repr frame).data)

/-- The string `baseName` of `saveCloudAndImages`. -/
def baseName (frame : Nat) : String := "./" ++ setw4 frame

/-- The names `cloudName`, `colorName`, `depthName` and `depthColoredName`, in the order in
which `saveCloudAndImages` writes the files. -/
def saveNames (frame : Nat) : List String :=
  [baseName frame ++ "_cloud.pcd", baseName frame ++ "_color.jpg",
   baseName frame ++ "_depth.png", baseName frame ++ "_depth_colored.png"]

/-- The method `Receiver::saveCloudAndImages`: the receiver afterwards (`++frame` on a
`size_t`) and the four file names it hands to the writers, in order.  The writers
(`pcl::PCDWriter::writeBinary`, `cv::imwrite`) and what they put into the files are library
code and not part of the embedding. -/
def Receiver.saveCloudAndImages (s : Receiver) : Receiver × List String :=
  ({ s with frame := (s.frame + 1) % sizeRange }, saveNames s.frame)

/-! ## The consumer loops beyond the frame hand-off: keys and saving -/

/-- What happens while the consumer loops run: a step of the frame hand-off (`Event`); a
quit key (escape or `q`) in either viewer; the save key (space or `s`) read by
`imageViewer`; the save key delivered to `keyboardEvent` of the cloud viewer; the test
`if(save)` of `cloudViewer`. -/
inductive LoopEvent where
  | frame (e : Event) : LoopEvent
  | quitKey : LoopEvent
  | imageSaveKey : LoopEvent
  | cloudSaveKey : LoopEvent
  | cloudSave : LoopEvent
deriving DecidableEq

/-- The system together with the file names of each call of `saveCloudAndImages` so far,
oldest first. -/
structure Session where
  sys : System
  files : List (List String)
deriving DecidableEq

/-- A call of `saveCloudAndImages` in a session. -/
def Session.save (p : Session) : Session :=
  { sys := { p.sys with recv := p.sys.recv.saveCloudAndImages.1 }
    files := p.files ++ [p.sys.recv.saveCloudAndImages.2] }

/-- One step of a session.  The save key of `imageViewer` saves at once in mode `IMAGE` and
sets `save` otherwise; `keyboardEvent` sets `save`; `cloudViewer` saves when it finds `save`
set, after clearing it. -/
def Session.step (p : Session) : LoopEvent → Session
  | LoopEvent.frame e => { p with sys := p.sys.step e }
  | LoopEvent.quitKey => { p with sys := { p.sys with recv := { p.sys.recv with running := false } } }
  | LoopEvent.imageSaveKey =>
    if p.sys.recv.mode = Mode.IMAGE then p.save
    else { p with sys := { p.sys with recv := { p.sys.recv with save := true } } }
  | LoopEvent.cloudSaveKey =>
    { p with sys := { p.sys with recv := { p.sys.recv with save := true } } }
  | LoopEvent.cloudSave =>
    if p.sys.recv.save = true then
      Session.save { p with sys := { p.sys with recv := { p.sys.recv with save := false } } }
    else p

/-- The steps taken one after the other. -/
def Session.run (p : Session) (events : List LoopEvent) : Session :=
  events.foldl Session.step p

/-- The session when the consumer loop is entered with receiver `r`. -/
def Session.init (r : Receiver) : Session :=
  { sys := System.init r, files := [] }

/-! ## `Receiver::run`: `start`, then `stop` -/

/-- What `stop` did with `imageViewerThread`: no call of `join`, a call that joined the
running thread, or a call on a thread object that was never given a thread, which is not
joinable (`std::thread::join` then throws `std::system_error`). -/
inductive Join where
  | notCalled : Join
  | joined : Join
  | notJoinable : Join
deriving DecidableEq

/-- The method `Receiver::stop` as far as the flags and the thread go: `running = false`,
then `imageViewerThread.join()` if `mode == BOTH`.  `started` tells whether `start` has
given `imageViewerThread` a thread. -/
def Receiver.stop (s : Receiver) (started : Bool) : Receiver × Join :=
  ({ s with running := false },
    if s.mode = Mode.BOTH then (if started then Join.joined else Join.notJoinable)
    else Join.notCalled)

/-- How a call of `run` went: `start` was still in its start-up wait when the events ended
(`stop` not reached), or `start` returned and `stop` ran; then `started` tells whether
`start` launched the image-viewer thread. -/
inductive RunResult where
  | waiting : RunResult
  | stopped (s : Receiver) (started : Bool) (join : Join) : RunResult
deriving DecidableEq

/-- The method `Receiver::run(mode)`: `start(mode)`, then `stop()`.  `start` returns from
its wait when `ros::ok()` fails, or goes on to the `switch(mode)`, which in mode `BOTH`
launches `imageViewerThread` before it calls `cloudViewer`; `loop` lists what happens until
the consumer loop called by `start` has ended. -/
def run (A : Arith) (blank : PointXYZRGBA) (mode : Mode) (s : Receiver)
    (events : List StartEvent) (loop : List LoopEvent) : RunResult :=
  match start A blank mode s events with
  | StartResult.waiting _ => RunResult.waiting
  | StartResult.returned s1 => RunResult.stopped (s1.stop false).1 false (s1.stop false).2
  | StartResult.entered s1 =>
    RunResult.stopped
      (((Session.run (Session.init s1) loop).sys.recv).stop (decide (mode = Mode.BOTH))).1
      (decide (mode = Mode.BOTH))
      (((Session.run (Session.init s1) loop).sys.recv).stop (decide (mode = Mode.BOTH))).2

/-! ## Command line: `main` -/

/-- The string macros of `kinect2_bridge/kinect2_definitions.h`, a header outside the
repository, taken as parameters. -/
structure K2Definitions where
  K2_DEFAULT_NS : String
  K2_TOPIC_HD : String
  K2_TOPIC_QHD : String
  K2_TOPIC_SD : String
  K2_TOPIC_IMAGE_RECT : String
  K2_TOPIC_IMAGE_COLOR : String
  K2_TOPIC_IMAGE_DEPTH : String
  K2_TOPIC_IMAGE_IR : String

/-- The local variables of `main` that the arguments set. -/
structure MainLocals where
  ns : String
  topicColor : String
  topicDepth : String
  useExact : Bool
  useCompressed : Bool
  mode : Mode
deriving DecidableEq

/-- The initial values of the locals of `main`. -/
def MainLocals.initial (k : K2Definitions) : MainLocals :=
  { ns := k.K2_DEFAULT_NS
    topicColor := k.K2_TOPIC_QHD ++ k.K2_TOPIC_IMAGE_COLOR ++ k.K2_TOPIC_IMAGE_RECT
    topicDepth := k.K2_TOPIC_QHD ++ k.K2_TOPIC_IMAGE_DEPTH ++ k.K2_TOPIC_IMAGE_RECT
    useExact := true
    useCompressed := false
    mode := Mode.CLOUD }

/-- The body of the loop over the arguments: `none` for a help flag (`main` prints the usage
and returns), otherwise the locals after the `else if` chain. -/
def parseArg (k : K2Definitions) (o : MainLocals) (param : String) : Option MainLocals :=
  if param = "-h" ∨ param = "--help" ∨ param = "-?" ∨ param = "--?" then none
  else if param = "qhd" then
    some { o with
      topicColor := k.K2_TOPIC_QHD ++ k.K2_TOPIC_IMAGE_COLOR ++ k.K2_TOPIC_IMAGE_RECT
      topicDepth := k.K2_TOPIC_QHD ++ k.K2_TOPIC_IMAGE_DEPTH ++ k.K2_TOPIC_IMAGE_RECT }
  else if param = "hd" then
    some { o with
      topicColor := k.K2_TOPIC_HD ++ k.K2_TOPIC_IMAGE_COLOR ++ k.K2_TOPIC_IMAGE_RECT
      topicDepth := k.K2_TOPIC_HD ++ k.K2_TOPIC_IMAGE_DEPTH ++ k.K2_TOPIC_IMAGE_RECT }
  else if param = "ir" then
    some { o with
      topicColor := k.K2_TOPIC_SD ++ k.K2_TOPIC_IMAGE_IR ++ k.K2_TOPIC_IMAGE_RECT
      topicDepth := k.K2_TOPIC_SD ++ k.K2_TOPIC_IMAGE_DEPTH ++ k.K2_TOPIC_IMAGE_RECT }
  else if param = "sd" then
    some { o with
      topicColor := k.K2_TOPIC_SD ++ k.K2_TOPIC_IMAGE_COLOR ++ k.K2_TOPIC_IMAGE_RECT
      topicDepth := k.K2_TOPIC_SD ++ k.K2_TOPIC_IMAGE_DEPTH ++ k.K2_TOPIC_IMAGE_RECT }
  else if param = "approx" then some { o with useExact := false }
  else if param = "compressed" then some { o with useCompressed := true }
  else if param = "image" then some { o with mode := Mode.IMAGE }
  else if param = "cloud" then some { o with mode := Mode.CLOUD }
  else if param = "both" then some { o with mode := Mode.BOTH }
  else some { o with ns := param }

/-- The loop `for(size_t i = 1; i < (size_t)argc; ++i)` of `main` over `argv[1]`,
`argv[2]`, ...: `none` when a help flag ends it. -/
def parseArgs (k : K2Definitions) : MainLocals → List String → Option MainLocals
  | o, [] => some o
  | o, param :: rest =>
    match parseArg k o param with
    | none => none
    | some o1 => parseArgs k o1 rest

/-- What `main` finds around it: whether `ros::ok()` holds after `ros::init`, and the
value of `getCudaEnabledDeviceCount()`. -/
structure MainEnv where
  rosOk : Bool
  cudaDevices : Int

/-- The arguments with which `main` constructs the `Receiver` and calls `run`. -/
structure ReceiverArgs where
  topicColor : String
  topicDepth : String
  useExact : Bool
  useCompressed : Bool
  mode : Mode
deriving DecidableEq

/-- What a run of `main` amounts to: its return value, the program path it printed the
usage for (if it called `help`), and the receiver it constructed and ran (if any). -/
structure MainOutcome where
  exitCode : Int
  usage : Option String
  receiver : Option ReceiverArgs
deriving DecidableEq

/-- The part of `main` from the loop over the arguments on, common to `viewer.cpp` and
`viewerPointer.cpp`. -/
def mainArgs (k : K2Definitions) (path : String) (args : List String) : MainOutcome :=
  match parseArgs k (MainLocals.initial k) args with
  | none => { exitCode := 0, usage := some path, receiver := none }
  | some o =>
    { exitCode := 0
      usage := none
      receiver := some
        { topicColor := "/" ++ o.ns ++ o.topicColor
          topicDepth := "/" ++ o.ns ++ o.topicDepth
          useExact := o.useExact
          useCompressed := o.useCompressed
          mode := o.mode } }

/-- The function `main` of `viewer.cpp`.  `path` is `argv[0]` and `args` are `argv[1]`,
`argv[2]`, ... as `ros::init` leaves them.  `main` returns 0 at once when `ros::ok()` fails,
and again when no CUDA device is found, before it looks at the arguments. -/
def main (k : K2Definitions) (env : MainEnv) (path : String) (args : List String) :
    MainOutcome :=
  if env.rosOk = false then { exitCode := 0, usage := none, receiver := none }
  else if env.cudaDevices = 0 then { exitCode := 0, usage := none, receiver := none }
  else mainArgs k path args

namespace ViewerPointer

/-- The function `main` of `viewerPointer.cpp`: as in `viewer.cpp`, without the test for a
CUDA device. -/
def main (k : K2Definitions) (env : MainEnv) (path : String) (args : List String) :
    MainOutcome :=
  if env.rosOk = false then { exitCode := 0, usage := none, receiver := none }
  else mainArgs k path args

end ViewerPointer

/-- The base topics (colour, depth) that a resolution keyword selects in `main`. -/
def baseTopics (k : K2Definitions) (keyword : String) : String × String :=
  if keyword = "qhd" then
    (k.K2_TOPIC_QHD ++ k.K2_TOPIC_IMAGE_COLOR ++ k.K2_TOPIC_IMAGE_RECT,
     k.K2_TOPIC_QHD ++ k.K2_TOPIC_IMAGE_DEPTH ++ k.K2_TOPIC_IMAGE_RECT)
  else if keyword = "hd" then
    (k.K2_TOPIC_HD ++ k.K2_TOPIC_IMAGE_COLOR ++ k.K2_TOPIC_IMAGE_RECT,
     k.K2_TOPIC_HD ++ k.K2_TOPIC_IMAGE_DEPTH ++ k.K2_TOPIC_IMAGE_RECT)
  else if keyword = "ir" then
    (k.K2_TOPIC_SD ++ k.K2_TOPIC_IMAGE_IR ++ k.K2_TOPIC_IMAGE_RECT,
     k.K2_TOPIC_SD ++ k.K2_TOPIC_IMAGE_DEPTH ++ k.K2_TOPIC_IMAGE_RECT)
  else
    (k.K2_TOPIC_SD ++ k.K2_TOPIC_IMAGE_COLOR ++ k.K2_TOPIC_IMAGE_RECT,
     k.K2_TOPIC_SD ++ k.K2_TOPIC_IMAGE_DEPTH ++ k.K2_TOPIC_IMAGE_RECT)

/-! ## Reading the frame counter back from a file name -/

/-- The number a string of decimal digits denotes. -/
def decimalValue (cs : List Char) : Nat :=
  cs.foldl (fun acc c => acc * 10 + (c.toNat - 48)) 0

/-- The counter value read back from a file name: the digits that follow `"./"`. -/
def frameOfName (name : String) : Nat :=
  decimalValue ((name.data.drop 2).takeWhile Char.isDigit)

/-- What holds of a session that started with frame counter 0: the counter is the number
of saves so far (modulo the range of `size_t`), and the `i`-th save wrote the names of
counter value `i`. -/
structure SessionInv (p : Session) : Prop where
  counter : p.sys.recv.frame = p.files.length % sizeRange
  names : ∀ i, i < p.files.length → p.files[i]? = some (saveNames (i % sizeRange))

/-! ## Rounding to the nearest integer -/

/-- The integer `m` is a nearest integer to `x`, and the even one of the two at a tie. -/
def NearestEven (x : ℚ) (m : Nat) : Prop :=
  (m : ℚ) - 1 / 2 ≤ x ∧ x ≤ m + 1 / 2 ∧ (x = m - 1 / 2 ∨ x = m + 1 / 2 → Even m)

/-! ## The tracker in single precision -/

/-- Exact sum with the IEEE rules for NaN and infinities. -/
def FP.add : FP → FP → FP
  | FP.nan, _ => FP.nan
  | _, FP.nan => FP.nan
  | FP.inf s, FP.inf t => if s = t then FP.inf s else FP.nan
  | FP.inf s, FP.fin _ => FP.inf s
  | FP.fin _, FP.inf t => FP.inf t
  | FP.fin a, FP.fin b => FP.fin (a + b)

/-- Exact power with a positive integer exponent, as `pow` gives it for NaN and
infinities. -/
def FP.pow : FP → Nat → FP
  | FP.nan, _ => FP.nan
  | FP.inf s, n => FP.inf (s && decide (n % 2 = 1))
  | FP.fin q, n => FP.fin (q ^ n)

/-- Sum of two `float`s. -/
def Arith.add32 (A : Arith) (a b : FP) : FP := (a.add b).narrow A.toSingle

/-- The `float` value of `a * b + c * d`, every operation rounded. -/
def Arith.dot32 (A : Arith) (a b c d : FP) : FP := A.add32 (A.mul32 a b) (A.mul32 c d)

/-- A `CV_32F` column with two entries. -/
structure Vec2F where
  x0 : FP
  x1 : FP
deriving DecidableEq

/-- A `CV_32F` row with two entries. -/
structure Mat12F where
  m00 : FP
  m01 : FP
deriving DecidableEq

/-- A 2x2 `CV_32F` matrix. -/
structure Mat22F where
  m00 : FP
  m01 : FP
  m10 : FP
  m11 : FP
deriving DecidableEq

/-- The fields of `cv::KalmanFilter` for 2 dynamic parameters, 1 measurement parameter and
no control input, as the `CV_32F` matrices they are. -/
structure KalmanFilterF where
  statePre : Vec2F
  statePost : Vec2F
  transitionMatrix : Mat22F
  processNoiseCov : Mat22F
  measurementMatrix : Mat12F
  measurementNoiseCov : FP
  errorCovPre : Mat22F
  errorCovPost : Mat22F
  gain : Vec2F
deriving DecidableEq

/-- A column of rationals as a `CV_32F` column. -/
def Vec2.toF (v : Vec2) : Vec2F := ⟨FP.fin v.x0, FP.fin v.x1⟩

/-- A row of rationals as a `CV_32F` row. -/
def Mat12.toF (m : Mat12) : Mat12F := ⟨FP.fin m.m00, FP.fin m.m01⟩

/-- A matrix of rationals as a `CV_32F` matrix. -/
def Mat22.toF (m : Mat22) : Mat22F := ⟨FP.fin m.m00, FP.fin m.m01, FP.fin m.m10, FP.fin m.m11⟩

/-- A filter over the rationals as a filter with `CV_32F` fields. -/
def KalmanFilter.toF (KF : KalmanFilter) : KalmanFilterF :=
  { statePre := KF.statePre.toF
    statePost := KF.statePost.toF
    transitionMatrix := KF.transitionMatrix.toF
    processNoiseCov := KF.processNoiseCov.toF
    measurementMatrix := KF.measurementMatrix.toF
    measurementNoiseCov := FP.fin KF.measurementNoiseCov
    errorCovPre := KF.errorCovPre.toF
    errorCovPost := KF.errorCovPost.toF
    gain := KF.gain.toF }

/-- The filter set-up of `main` in single precision; all its entries (0, 1, 30, 650, 1500)
are `float` values. -/
def mainKFF : KalmanFilterF := mainKF.toF

/-- Modelled from the spec: `cv::KalmanFilter::predict` in single precision, `x' = A x` and
`P' = A P Aᵀ + Q` with every product and every sum rounded to `float`; both are copied to
the a-posteriori fields. -/
def KalmanFilterF.predict (A : Arith) (KF : KalmanFilterF) : KalmanFilterF :=
  let T := KF.transitionMatrix
  let x := KF.statePost
  let P := KF.errorCovPost
  let statePre : Vec2F :=
    ⟨A.dot32 T.m00 x.x0 T.m01 x.x1, A.dot32 T.m10 x.x0 T.m11 x.x1⟩
  let temp1 : Mat22F :=
    ⟨A.dot32 T.m00 P.m00 T.m01 P.m10, A.dot32 T.m00 P.m01 T.m01 P.m11,
      A.dot32 T.m10 P.m00 T.m11 P.m10, A.dot32 T.m10 P.m01 T.m11 P.m11⟩
  let errorCovPre : Mat22F :=
    ⟨A.add32 (A.dot32 temp1.m00 T.m00 temp1.m01 T.m01) KF.processNoiseCov.m00,
      A.add32 (A.dot32 temp1.m00 T.m10 temp1.m01 T.m11) KF.processNoiseCov.m01,
      A.add32 (A.dot32 temp1.m10 T.m00 temp1.m11 T.m01) KF.processNoiseCov.m10,
      A.add32 (A.dot32 temp1.m10 T.m10 temp1.m11 T.m11) KF.processNoiseCov.m11⟩
  { KF with
    statePre := statePre
    errorCovPre := errorCovPre
    statePost := statePre
    errorCovPost := errorCovPre }

/-- Modelled from the spec: `cv::KalmanFilter::correct` in single precision, the standard
Kalman gain update for the scalar measurement, `K = P' Hᵀ (H P' Hᵀ + R)⁻¹`,
`x = x' + K (z - H x')`, `P = P' - K H P'`, with every product, sum, difference and
quotient rounded to `float`. -/
def KalmanFilterF.correct (A : Arith) (KF : KalmanFilterF) (measurement : FP) : KalmanFilterF :=
  let H := KF.measurementMatrix
  let P := KF.errorCovPre
  let temp2 : Mat12F := ⟨A.dot32 H.m00 P.m00 H.m01 P.m10, A.dot32 H.m00 P.m01 H.m01 P.m11⟩
  let temp3 := A.add32 (A.dot32 temp2.m00 H.m00 temp2.m01 H.m01) KF.measurementNoiseCov
  let gain : Vec2F := ⟨A.div32 temp2.m00 temp3, A.div32 temp2.m01 temp3⟩
  let temp5 := A.sub32 measurement (A.dot32 H.m00 KF.statePre.x0 H.m01 KF.statePre.x1)
  { KF with
    gain := gain
    statePost :=
      ⟨A.add32 KF.statePre.x0 (A.mul32 gain.x0 temp5),
        A.add32 KF.statePre.x1 (A.mul32 gain.x1 temp5)⟩
    errorCovPost :=
      ⟨A.sub32 P.m00 (A.mul32 gain.x0 temp2.m00), A.sub32 P.m01 (A.mul32 gain.x0 temp2.m01),
        A.sub32 P.m10 (A.mul32 gain.x1 temp2.m00), A.sub32 P.m11 (A.mul32 gain.x1 temp2.m01)⟩ }

/-- The three `float` values `kalman` hands to `talker`. -/
structure TelemetryF where
  rosobs : FP
  rospred : FP
  rosupd : FP
deriving DecidableEq

/-- The two assignments `kalman` makes ahead of the prediction, in the machine arithmetic:
`q11 .. q22` are computed in `double` from the `float` `deltaT` (`pow` taken as correctly
rounded) and narrowed to `float`, the matrix is scaled by the `float` `Qt`, and the
transition matrix is `[[1, deltaT], [0, 1]]`. -/
def kalmanModelF (A : Arith) (deltaT : FP) (KF : KalmanFilterF) : KalmanFilterF :=
  let q11 := A.single (A.div64 ((deltaT.pow 4).narrow A.toDouble) (FP.fin 4))
  let q12 := A.single (A.div64 ((deltaT.pow 3).narrow A.toDouble) (FP.fin 2))
  let q21 := A.single (A.div64 ((deltaT.pow 3).narrow A.toDouble) (FP.fin 2))
  let q22 := A.single ((deltaT.pow 2).narrow A.toDouble)
  let KF1 := { KF with
    processNoiseCov :=
      ⟨A.mul32 q11 (FP.fin Qt), A.mul32 q12 (FP.fin Qt), A.mul32 q21 (FP.fin Qt),
        A.mul32 q22 (FP.fin Qt)⟩ }
  { KF1 with transitionMatrix := ⟨FP.fin 1, deltaT, FP.fin 0, FP.fin 1⟩ }

/-- The method `Receiver::kalman(deltaT, measurement)` in the machine arithmetic: the global
filter `KF` afterwards and the values passed to `talker`. -/
def kalmanF (A : Arith) (deltaT : FP) (measurement : FP) (KF : KalmanFilterF) :
    KalmanFilterF × TelemetryF :=
  let KF1 := (kalmanModelF A deltaT KF).predict A
  let prediction := KF1.statePre
  let KF2 := KF1.correct A measurement
  let update := KF2.statePost
  (KF2, { rosobs := measurement, rospred := prediction.x0, rosupd := update.x0 })

/-- A filter state the program can be in, in the machine arithmetic: the set-up of `main`,
then any number of calls of `kalman`. -/
inductive ReachableF (A : Arith) : KalmanFilterF → Prop
  | main : ReachableF A mainKFF
  | kalman (deltaT measurement : FP) (KF : KalmanFilterF) :
      ReachableF A KF → ReachableF A (kalmanF A deltaT measurement KF).1

/-! ## The lock: `callback` and the consumers statement by statement -/

/-- The threads that share the frame state. -/
inductive Thread where
  | producer : Thread
  | image : Thread
  | cloud : Thread
deriving DecidableEq

/-- The shared frame state.  `color` and `depth` are the members themselves, that is the
`cv::Mat` headers (dimensions and a reference to a pixel buffer); `colorPixels` and
`depthPixels` are the pixel buffers, which every copy of a header shares with it. -/
inductive Var where
  | color : Var
  | depth : Var
  | cameraMatrixColor : Var
  | cameraMatrixDepth : Var
  | updateImage : Var
  | updateCloud : Var
  | colorPixels : Var
  | depthPixels : Var
deriving DecidableEq

/-- An access to the shared frame state: to what, and whether it is a write. -/
structure Access where
  var : Var
  write : Bool
deriving DecidableEq

/-- The statements of `callback` that matter, in order: the two calls of `readCameraInfo`
(they write the member camera matrices), the two calls of `readImage` (they allocate the
pixel buffers of the local images), `lock.lock()`, the four assignments, `lock.unlock()`. -/
inductive ProducerPc where
  | cameraColor : ProducerPc
  | cameraDepth : ProducerPc
  | readImages : ProducerPc
  | lock : ProducerPc
  | writeColor : ProducerPc
  | writeDepth : ProducerPc
  | setImage : ProducerPc
  | setCloud : ProducerPc
  | unlock : ProducerPc
deriving DecidableEq

/-- The statements of a consumer loop that matter, in order: the test of the dirty flag,
`lock.lock()`, the two header copies, the reset of the flag, `lock.unlock()`, and the work
on the local images that follows: in `imageViewer` of `viewer.cpp` the calls that draw into
`color` (`cv::putText`, `rectangle`, `circle`) and read both images, in `cloudViewer` the
call of `createCloud`, which reads both images. -/
inductive Stage where
  | test : Stage
  | lock : Stage
  | readColor : Stage
  | readDepth : Stage
  | clear : Stage
  | unlock : Stage
  | work : Stage
deriving DecidableEq

/-- What the synchronizer hands to one call of `callback`, the images as `readImage` (and
the conversion of an infrared image) leaves them in the local variables. -/
structure FrameSet where
  color : Mat Vec3b
  depth : Mat Nat
  cameraInfoColor : CameraMatrix
  cameraInfoDepth : CameraMatrix
deriving DecidableEq

/-- A step of the schedule: which thread executes its next statement.  For `imageViewer`
at its drawing calls the step says what the next call leaves in the pixel buffer, or that
the drawing of this frame is over (`none`). -/
inductive Move where
  | producer : Move
  | image (ink : Option (Mat Vec3b)) : Move
  | cloud : Move
deriving DecidableEq

/-- The thread of a step. -/
def Move.thread : Move → Thread
  | Move.producer => Thread.producer
  | Move.image _ => Thread.image
  | Move.cloud => Thread.cloud

/-- The state of the three threads and of what they share.  Pixel buffers are numbered in
the order of their allocation: buffer 0 of each kind is the one of the receiver at the
start, buffer `n + 1` the one `readImage` allocates in call number `n` of `callback`.  The
members `color` and `depth` and the local images of the consumers are headers: each names a
buffer.  `published` counts the calls of `callback` that have ended.  The logs hold the pairs
of headers each consumer has copied and the pixels `createCloud` has read, oldest first. -/
structure Machine where
  updateImage : Bool
  updateCloud : Bool
  cameraMatrixColor : CameraMatrix
  cameraMatrixDepth : CameraMatrix
  color : Nat
  depth : Nat
  colorPixels : List (Mat Vec3b)
  depthPixels : List (Mat Nat)
  lock : Option Thread
  published : Nat
  producerPc : ProducerPc
  imagePc : Stage
  imageColor : Nat
  imageDepth : Nat
  imageLog : List (Nat × Nat)
  cloudPc : Stage
  cloudColor : Nat
  cloudDepth : Nat
  cloudLog : List (Nat × Nat)
  cloudSeen : List (Nat × Nat × Option (Mat Vec3b) × Option (Mat Nat))
deriving DecidableEq

/-- The accesses to the shared frame state that the next statement of a thread makes. -/
def Machine.access (s : Machine) : Thread → List Access
  | Thread.producer =>
    match s.producerPc with
    | ProducerPc.cameraColor => [⟨Var.cameraMatrixColor, true⟩]
    | ProducerPc.cameraDepth => [⟨Var.cameraMatrixDepth, true⟩]
    | ProducerPc.readImages => []
    | ProducerPc.lock => []
    | ProducerPc.writeColor => [⟨Var.color, true⟩]
    | ProducerPc.writeDepth => [⟨Var.depth, true⟩]
    | ProducerPc.setImage => [⟨Var.updateImage, true⟩]
    | ProducerPc.setCloud => [⟨Var.updateCloud, true⟩]
    | ProducerPc.unlock => []
  | Thread.image =>
    match s.imagePc with
    | Stage.test => [⟨Var.updateImage, false⟩]
    | Stage.lock => []
    | Stage.readColor => [⟨Var.color, false⟩]
    | Stage.readDepth => [⟨Var.depth, false⟩]
    | Stage.clear => [⟨Var.updateImage, true⟩]
    | Stage.unlock => []
    | Stage.work => [⟨Var.colorPixels, true⟩, ⟨Var.colorPixels, false⟩, ⟨Var.depthPixels, false⟩]
  | Thread.cloud =>
    match s.cloudPc with
    | Stage.test => [⟨Var.updateCloud, false⟩]
    | Stage.lock => []
    | Stage.readColor => [⟨Var.color, false⟩]
    | Stage.readDepth => [⟨Var.depth, false⟩]
    | Stage.clear => [⟨Var.updateCloud, true⟩]
    | Stage.unlock => []
    | Stage.work => [⟨Var.colorPixels, false⟩, ⟨Var.depthPixels, false⟩]

/-- The next statement of `callback`, in its call number `s.published` with the frame set
`f`.  `lock.lock()` waits while another thread holds the mutex: the step then changes
nothing. -/
def Machine.producerStep (s : Machine) (f : FrameSet) : Machine :=
  match s.producerPc with
  | ProducerPc.cameraColor =>
    { s with cameraMatrixColor := f.cameraInfoColor, producerPc := ProducerPc.cameraDepth }
  | ProducerPc.cameraDepth =>
    { s with cameraMatrixDepth := f.cameraInfoDepth, producerPc := ProducerPc.readImages }
  | ProducerPc.readImages =>
    { s with colorPixels := s.colorPixels ++ [f.color]
             depthPixels := s.depthPixels ++ [f.depth]
             producerPc := ProducerPc.lock }
  | ProducerPc.lock =>
    if s.lock = none then
      { s with lock := some Thread.producer, producerPc := ProducerPc.writeColor }
    else s
  | ProducerPc.writeColor =>
    { s with color := s.published + 1, producerPc := ProducerPc.writeDepth }
  | ProducerPc.writeDepth =>
    { s with depth := s.published + 1, producerPc := ProducerPc.setImage }
  | ProducerPc.setImage => { s with updateImage := true, producerPc := ProducerPc.setCloud }
  | ProducerPc.setCloud => { s with updateCloud := true, producerPc := ProducerPc.unlock }
  | ProducerPc.unlock =>
    { s with lock := none, producerPc := ProducerPc.cameraColor, published := s.published + 1 }

/-- The next statement of `imageViewer` (`viewer.cpp`).  After `lock.unlock()` come the
drawing calls on the local `color`, whose pixel buffer is the one of the header copied:
each replaces the contents of that buffer by `ink`; `none` ends the frame. -/
def Machine.imageStep (s : Machine) (ink : Option (Mat Vec3b)) : Machine :=
  match s.imagePc with
  | Stage.test => if s.updateImage = true then { s with imagePc := Stage.lock } else s
  | Stage.lock =>
    if s.lock = none then { s with lock := some Thread.image, imagePc := Stage.readColor }
    else s
  | Stage.readColor => { s with imageColor := s.color, imagePc := Stage.readDepth }
  | Stage.readDepth =>
    { s with imageDepth := s.depth, imagePc := Stage.clear
             imageLog := s.imageLog ++ [(s.imageColor, s.depth)] }
  | Stage.clear => { s with updateImage := false, imagePc := Stage.unlock }
  | Stage.unlock => { s with lock := none, imagePc := Stage.work }
  | Stage.work =>
    match ink with
    | some pixels => { s with colorPixels := s.colorPixels.set s.imageColor pixels }
    | none => { s with imagePc := Stage.test }

/-- The next statement of `cloudViewer`; its critical section before the loop is the one of
the loop without the test.  After `lock.unlock()` comes `createCloud(depth, color, cloud)`,
which reads the pixels of both local images; what it reads is recorded. -/
def Machine.cloudStep (s : Machine) : Machine :=
  match s.cloudPc with
  | Stage.test => if s.updateCloud = true then { s with cloudPc := Stage.lock } else s
  | Stage.lock =>
    if s.lock = none then { s with lock := some Thread.cloud, cloudPc := Stage.readColor }
    else s
  | Stage.readColor => { s with cloudColor := s.color, cloudPc := Stage.readDepth }
  | Stage.readDepth =>
    { s with cloudDepth := s.depth, cloudPc := Stage.clear
             cloudLog := s.cloudLog ++ [(s.cloudColor, s.depth)] }
  | Stage.clear => { s with updateCloud := false, cloudPc := Stage.unlock }
  | Stage.unlock => { s with lock := none, cloudPc := Stage.work }
  | Stage.work =>
    { s with cloudPc := Stage.test
             cloudSeen := s.cloudSeen ++
               [(s.cloudColor, s.cloudDepth, s.colorPixels[s.cloudColor]?,
                 s.depthPixels[s.cloudDepth]?)] }

/-- One step of the schedule; `frames n` is the frame set of call number `n` of
`callback`. -/
def Machine.step (frames : Nat → FrameSet) (s : Machine) : Move → Machine
  | Move.producer => s.producerStep (frames s.published)
  | Move.image ink => s.imageStep ink
  | Move.cloud => s.cloudStep

/-- An interleaving: the steps of `schedule`, in that order. -/
def Machine.run (frames : Nat → FrameSet) (s : Machine) (schedule : List Move) : Machine :=
  schedule.foldl (Machine.step frames) s

/-- The machine when the threads start on receiver `r`: mutex free, `callback` about to be
called for the first time, `imageViewer` before its first test, `cloudViewer` before the
critical section at its entry; the members and the local images refer to the buffers of
`r`. -/
def Machine.init (r : Receiver) : Machine :=
  { updateImage := r.updateImage
    updateCloud := r.updateCloud
    cameraMatrixColor := r.cameraMatrixColor
    cameraMatrixDepth := r.cameraMatrixDepth
    color := 0
    depth := 0
    colorPixels := [r.color]
    depthPixels := [r.depth]
    lock := none
    published := 0
    producerPc := ProducerPc.cameraColor
    imagePc := Stage.test
    imageColor := 0
    imageDepth := 0
    imageLog := []
    cloudPc := Stage.lock
    cloudColor := 0
    cloudDepth := 0
    cloudLog := []
    cloudSeen := [] }

/-- The next statement of thread `t` is covered by the mutex as far as the accesses in
`vars` go: if it makes one of them, `t` holds the mutex. -/
def Machine.Guarded (vars : List Access) (s : Machine) (t : Thread) : Prop :=
  ∀ a ∈ s.access t, a ∈ vars → s.lock = some t

/-- Whether the statement at a position of `callback` runs with the mutex held. -/
def ProducerPc.locked : ProducerPc → Bool
  | ProducerPc.cameraColor => false
  | ProducerPc.cameraDepth => false
  | ProducerPc.readImages => false
  | ProducerPc.lock => false
  | _ => true

/-- Whether the statement at a position of a consumer runs with the mutex held. -/
def Stage.locked : Stage → Bool
  | Stage.readColor => true
  | Stage.readDepth => true
  | Stage.clear => true
  | Stage.unlock => true
  | _ => false

/-- The depth buffers allocated after `n` calls of `readImage`: the one of the receiver,
then the depth images of the frame sets in order. -/
def depthBuffers (frames : Nat → FrameSet) (r : Receiver) (n : Nat) : List (Mat Nat) :=
  r.depth :: (List.range n).map (fun i => (frames i).depth)

/-- Invariant of the machine: a thread holds the mutex exactly at its statements between
`lock()` and `unlock()`; the members `color` and `depth` name buffers of the same frame
except between the two assignments of `callback`; a consumer that has copied the colour
header holds the stored one; the headers a consumer holds outside its critical section, and
every pair copied so far, belong to one frame; depth buffers are never written. -/
structure MachineInv (frames : Nat → FrameSet) (r : Receiver) (s : Machine) : Prop where
  producer : s.lock = some Thread.producer ↔ s.producerPc.locked = true
  image : s.lock = some Thread.image ↔ s.imagePc.locked = true
  cloud : s.lock = some Thread.cloud ↔ s.cloudPc.locked = true
  stored : s.producerPc ≠ ProducerPc.writeDepth → s.color = s.depth
  half : s.producerPc = ProducerPc.writeDepth → s.color = s.published + 1
  imageCopy : s.imagePc = Stage.readDepth → s.imageColor = s.color
  cloudCopy : s.cloudPc = Stage.readDepth → s.cloudColor = s.color
  imageHeld : s.imagePc ≠ Stage.readDepth → s.imageColor = s.imageDepth
  cloudHeld : s.cloudPc ≠ Stage.readDepth → s.cloudColor = s.cloudDepth
  imageLog : ∀ p ∈ s.imageLog, p.1 = p.2
  cloudLog : ∀ p ∈ s.cloudLog, p.1 = p.2
  allocated : s.depthPixels = depthBuffers frames r
    (s.published + (if s.producerPc = ProducerPc.cameraColor
      ∨ s.producerPc = ProducerPc.cameraDepth ∨ s.producerPc = ProducerPc.readImages
      then 0 else 1))
  bound : s.depth ≤ s.published + 1 ∧ (s.producerPc.locked = false → s.depth ≤ s.published)
  cloudBound : s.cloudDepth ≤ s.depth
  seen : ∀ e ∈ s.cloudSeen, e.1 = e.2.1
    ∧ ((e.1 = 0 ∧ e.2.2.2 = some r.depth)
        ∨ ∃ n, e.1 = n + 1 ∧ e.2.2.2 = some (frames n).depth)

/-! # Theorems -/

/-! ## Auxiliary lemmas on the loops -/

/-- A loop over `0 .. n - 1` that stores `f c` at index `idx c` succeeds when the indices
are in range and distinct; it writes exactly those entries. -/
theorem foldlM_range_set {α : Type} (g : Nat → Option α) (idx : Nat → Nat) (f : Nat → α)
    (n : Nat) (pts : List α)
    (hg : ∀ c, c < n → g c = some (f c)) (hidx : ∀ c, c < n → idx c < pts.length)
    (hinj : ∀ c, c < n → ∀ c', c' < n → idx c = idx c' → c = c') :
    ∃ out, (List.range n).foldlM
        (fun pts c => do
          let p ← g c
          if idx c < pts.length then some (pts.set (idx c) p) else none) pts = some out
      ∧ out.length = pts.length
      ∧ (∀ c, c < n → out[idx c]? = some (f c))
      ∧ (∀ i, (∀ c, c < n → i ≠ idx c) → out[i]? = pts[i]?) := by
  induction n with
  | zero => exact ⟨pts, by simp⟩
  | succ n ih =>
    obtain ⟨out, h1, h2, h3, h4⟩ := ih (fun c hc => hg c (by omega)) (fun c hc => hidx c (by omega))
      (fun c hc c' hc' => hinj c (by omega) c' (by omega))
    have hlt : idx n < out.length := by rw [h2]; exact hidx n (by omega)
    refine ⟨out.set (idx n) (f n), ?_, ?_, ?_, ?_⟩
    · rw [List.range_succ, List.foldlM_append, h1]
      simp [hg n (by omega), hlt]
    · simp [h2]
    · intro c hc
      by_cases hcn : c = n
      · subst hcn
        simp [List.getElem?_set, hlt]
      · have hne : idx n ≠ idx c := fun h => hcn (hinj c (by omega) n (by omega) h.symm)
        rw [List.getElem?_set_ne hne]
        exact h3 c (by omega)
    · intro i hi
      have hne : idx n ≠ i := fun h => hi n (by omega) h.symm
      rw [List.getElem?_set_ne hne]
      exact h4 i (fun c hc => hi c (by omega))

/-- The row-major index of a pixel inside the frame is inside the cloud. -/
theorem cloud_index_lt {rows cols r c : Nat} (hr : r < rows) (hc : c < cols) :
    r * cols + c < rows * cols := by
  have h : (r + 1) * cols ≤ rows * cols := Nat.mul_le_mul_right cols hr
  have h2 : (r + 1) * cols = r * cols + cols := by ring
  omega

/-- Distinct pixels have distinct row-major indices. -/
theorem cloud_index_inj {cols r c r' c' : Nat} (hc : c < cols) (hc' : c' < cols)
    (h : r * cols + c = r' * cols + c') : r = r' ∧ c = c' := by
  have hpos : 0 < cols := by omega
  have h1 : (r * cols + c) / cols = r := by
    rw [Nat.add_comm, Nat.add_mul_div_right _ _ hpos, Nat.div_eq_of_lt hc, Nat.zero_add]
  have h2 : (r' * cols + c') / cols = r' := by
    rw [Nat.add_comm, Nat.add_mul_div_right _ _ hpos, Nat.div_eq_of_lt hc', Nat.zero_add]
  have hr : r = r' := by rw [← h1, ← h2, h]
  subst hr
  exact ⟨rfl, by omega⟩

/-- One row of `createCloud` writes the points of that row and no other. -/
theorem createCloudRow_points (A : Arith) (lookupX lookupY : List FP) (depth : Mat Nat)
    (color : Mat Vec3b) (points : List PointXYZRGBA) (r : Nat) (y : FP)
    (f : Nat → PointXYZRGBA) (hy : lookupY[r]? = some y)
    (hf : ∀ c, c < depth.cols → cloudPoint A lookupX y depth color r c = some (f c))
    (hlen : ∀ c, c < depth.cols → r * depth.cols + c < points.length) :
    ∃ out, createCloudRow A lookupX lookupY depth color points r = some out
      ∧ out.length = points.length
      ∧ (∀ c, c < depth.cols → out[r * depth.cols + c]? = some (f c))
      ∧ (∀ i, (∀ c, c < depth.cols → i ≠ r * depth.cols + c) → out[i]? = points[i]?) := by
  obtain ⟨out, h1, h2, h3, h4⟩ := foldlM_range_set
    (fun c => cloudPoint A lookupX y depth color r c) (fun c => r * depth.cols + c) f
    depth.cols points hf hlen (fun c _ c2 _ h => by simp only at h; omega)
  refine ⟨out, ?_, h2, h3, h4⟩
  unfold createCloudRow
  rw [hy]
  exact h1

/-- The first `k` rows of `createCloud` write the points of those rows and no other. -/
theorem createCloud_rows (A : Arith) (lookupX lookupY : List FP) (depth : Mat Nat)
    (color : Mat Vec3b) (points : List PointXYZRGBA) (f : Nat → Nat → PointXYZRGBA)
    (hf : ∀ r c, r < depth.rows → c < depth.cols →
      ∃ y, lookupY[r]? = some y ∧ cloudPoint A lookupX y depth color r c = some (f r c))
    (hy : depth.rows ≤ lookupY.length)
    (hlen : depth.rows * depth.cols ≤ points.length) (k : Nat) (hk : k ≤ depth.rows) :
    ∃ out, (List.range k).foldlM (createCloudRow A lookupX lookupY depth color) points
        = some out
      ∧ out.length = points.length
      ∧ (∀ r c, r < k → c < depth.cols → out[r * depth.cols + c]? = some (f r c))
      ∧ (∀ i, (∀ r c, r < k → c < depth.cols → i ≠ r * depth.cols + c) →
          out[i]? = points[i]?) := by
  induction k with
  | zero => exact ⟨points, by simp⟩
  | succ k ih =>
    obtain ⟨out, h1, h2, h3, h4⟩ := ih (by omega)
    have hky : k < lookupY.length := by omega
    have hrow := createCloudRow_points A lookupX lookupY depth color out k lookupY[k]
      (f k) (List.getElem?_eq_getElem hky)
      (fun c hc => by
        obtain ⟨y, hy1, hy2⟩ := hf k c (by omega) hc
        rw [List.getElem?_eq_getElem hky] at hy1
        cases hy1
        exact hy2)
      (fun c hc => by
        have := @cloud_index_lt depth.rows depth.cols k c (by omega) hc
        omega)
    obtain ⟨out', g1, g2, g3, g4⟩ := hrow
    refine ⟨out', ?_, by rw [g2, h2], ?_, ?_⟩
    · rw [List.range_succ, List.foldlM_append, h1]
      simpa using g1
    · intro r c hr hc
      by_cases hrk : r = k
      · subst hrk
        exact g3 c hc
      · rw [g4 _ (fun c' hc' h => hrk (cloud_index_inj hc hc' h).1)]
        exact h3 r c (by omega) hc
    · intro i hi
      rw [g4 i (fun c hc => hi k c (by omega) hc)]
      exact h4 i (fun r c hr hc => hi r c (by omega) hc)

/-- When every pixel can be read, `createCloud` returns a cloud of the same length whose
point `r * cols + c` is the one computed for pixel `(r, c)`; points beyond `rows * cols` keep
their value. -/
theorem createCloud_points (A : Arith) (lookupX lookupY : List FP) (depth : Mat Nat)
    (color : Mat Vec3b) (points : List PointXYZRGBA) (f : Nat → Nat → PointXYZRGBA)
    (hf : ∀ r c, r < depth.rows → c < depth.cols →
      ∃ y, lookupY[r]? = some y ∧ cloudPoint A lookupX y depth color r c = some (f r c))
    (hy : depth.rows ≤ lookupY.length)
    (hlen : depth.rows * depth.cols ≤ points.length) :
    ∃ out, createCloud A lookupX lookupY depth color points = some out
      ∧ out.length = points.length
      ∧ (∀ r c, r < depth.rows → c < depth.cols → out[r * depth.cols + c]? = some (f r c))
      ∧ (∀ i, depth.rows * depth.cols ≤ i → out[i]? = points[i]?) := by
  obtain ⟨out, h1, h2, h3, h4⟩ :=
    createCloud_rows A lookupX lookupY depth color points f hf hy hlen depth.rows le_rfl
  refine ⟨out, h1, h2, h3, fun i hi => h4 i (fun r c hr hc h => ?_)⟩
  have := cloud_index_lt hr hc
  omega

/-- Inside a dense matrix every element can be read. -/
theorem mat_at_some {α : Type} (m : Mat α) (hm : m.data.length = m.rows * m.cols)
    {r c : Nat} (hr : r < m.rows) (hc : c < m.cols) :
    ∃ v, m.at? r c = some v ∧ m.data[r * m.cols + c]? = some v := by
  have hlt : r * m.cols + c < m.data.length := by rw [hm]; exact cloud_index_lt hr hc
  exact ⟨m.data[r * m.cols + c], by simp [Mat.at?, hr, hc, List.getElem?_eq_getElem hlt],
    List.getElem?_eq_getElem hlt⟩

/-- For buffers of matching dimensions `createCloud` returns a cloud of `rows * cols` points
and point `r * cols + c` is `badPoint` for an invalid measurement and `validPoint` otherwise. -/
theorem createCloud_matching (A : Arith) (lookupX lookupY : List FP) (depth : Mat Nat)
    (color : Mat Vec3b) (points : List PointXYZRGBA)
    (h : MatchingDims lookupX lookupY depth color points) :
    ∃ out, createCloud A lookupX lookupY depth color points = some out
      ∧ out.length = depth.rows * depth.cols
      ∧ ∀ r c, r < depth.rows → c < depth.cols →
          ∃ raw itX y px, depth.at? r c = some raw ∧ lookupX[c]? = some itX
            ∧ lookupY[r]? = some y ∧ color.at? r c = some px
            ∧ out[r * depth.cols + c]? =
                some (if invalidDepth A raw then badPoint else validPoint A itX y raw px) := by
  have key : ∀ r c, r < depth.rows → c < depth.cols →
      ∃ raw itX y px, depth.at? r c = some raw ∧ lookupX[c]? = some itX
        ∧ lookupY[r]? = some y ∧ color.at? r c = some px
        ∧ cloudPoint A lookupX y depth color r c =
            some (if invalidDepth A raw then badPoint else validPoint A itX y raw px) := by
    intro r c hr hc
    obtain ⟨raw, hraw, -⟩ := mat_at_some depth h.depth_size hr hc
    obtain ⟨px, hpx, -⟩ := mat_at_some color h.color_size
      (show r < color.rows by rw [h.color_rows]; exact hr)
      (show c < color.cols by rw [h.color_cols]; exact hc)
    have hx : c < lookupX.length := by rw [h.lookupX_size]; exact hc
    have hy : r < lookupY.length := by rw [h.lookupY_size]; exact hr
    refine ⟨raw, lookupX[c], lookupY[r], px, hraw, List.getElem?_eq_getElem hx,
      List.getElem?_eq_getElem hy, hpx, ?_⟩
    unfold cloudPoint
    rw [hraw]
    by_cases hv : invalidDepth A raw = true
    · simp [hv]
    · simp [hv, hpx, List.getElem?_eq_getElem hx]
  choose! raw itX y px k1 k2 k3 k4 k5 using key
  obtain ⟨out, h1, h2, h3, -⟩ := createCloud_points A lookupX lookupY depth color points
    (fun r c => if invalidDepth A (raw r c) then badPoint
      else validPoint A (itX r c) (y r c) (raw r c) (px r c))
    (fun r c hr hc => ⟨y r c, k3 r c hr hc, k5 r c hr hc⟩)
    (by rw [h.lookupY_size]) (by rw [h.points_size])
  exact ⟨out, h1, by rw [h2, h.points_size], fun r c hr hc =>
    ⟨raw r c, itX r c, y r c, px r c, k1 r c hr hc, k2 r c hr hc, k3 r c hr hc,
      k4 r c hr hc, h3 r c hr hc⟩⟩
/-! ## Floating-point facts -/

/-- Multiplying by a reciprocal is dividing, for all values including NaN, infinities and
zero. -/
theorem FP.mul_one_div (a f : FP) : a.mul ((FP.fin 1).div f) = a.div f := by
  have h10 : ¬ ((1 : ℚ) < 0) := by norm_num
  cases a with
  | nan => cases f <;> simp [FP.mul, FP.div]
  | inf s =>
    cases f with
    | nan => simp [FP.mul, FP.div]
    | inf t => simp [FP.mul, FP.div]
    | fin q =>
      by_cases hq : q = 0
      · simp [FP.mul, FP.div, hq, h10]
      · simp [FP.mul, FP.div, hq]
  | fin x =>
    cases f with
    | nan => simp [FP.mul, FP.div]
    | inf t => simp [FP.mul, FP.div]
    | fin q =>
      by_cases hq : q = 0
      · by_cases hx : x = 0
        · simp [FP.mul, FP.div, hq, hx]
        · simp [FP.mul, FP.div, hq, hx, h10]
      · simp [FP.mul, FP.div, hq, div_eq_mul_inv]

/-- Rounding a positive rational never gives NaN. -/
theorem roundPos_ne_nan (p : Nat) (emin emax : Int) (n d : Nat) :
    roundPos p emin emax n d ≠ FP.nan := by
  unfold roundPos
  simp only
  split_ifs <;> simp

/-- Rounding a rational never gives NaN. -/
theorem roundNE_ne_nan (p : Nat) (emin emax : Int) (q : ℚ) :
    roundNE p emin emax q ≠ FP.nan := by
  unfold roundNE
  split_ifs
  · simp
  · exact roundPos_ne_nan _ _ _ _ _
  · intro h
    have := roundPos_ne_nan p emin emax q.num.natAbs q.den
    cases hr : roundPos p emin emax q.num.natAbs q.den <;> simp_all [FP.neg]

/-- Narrowing a rational to `float` never gives NaN. -/
theorem Arith.toSingle_ne_nan (A : Arith) (q : ℚ) : A.toSingle q ≠ FP.nan := by
  cases A
  · simp [Arith.toSingle]
  · exact roundNE_ne_nan _ _ _ _

/-- The depth value of a 16-bit sample is never NaN. -/
theorem depthValue_isNaN (A : Arith) (raw : Nat) : (depthValue A raw).isNaN = false := by
  have h1000 : A.toSingle 1000 = FP.fin 1000 := by cases A <;> decide!
  have hn := A.toSingle_ne_nan ((raw % 65536 : Nat) : ℚ)
  unfold depthValue Arith.div32 Arith.ofNat32
  rw [h1000]
  cases hv : A.toSingle ((raw % 65536 : Nat) : ℚ) with
  | nan => exact absurd hv hn
  | inf s => simp [FP.div, FP.narrow, FP.isNaN]
  | fin q =>
    have hne := A.toSingle_ne_nan (q / 1000)
    cases hw : A.toSingle (q / 1000) with
    | nan => exact absurd hw hne
    | inf s => simp [FP.div, FP.narrow, FP.isNaN, hw]
    | fin w => simp [FP.div, FP.narrow, FP.isNaN, hw]

/-- The boundary sample of 1 mm: its `float` depth value is `8589935 / 2 ^ 33`, just
above the `double` constant `0.001 = 1152921504606847 / 2 ^ 60`, so in IEEE arithmetic the
test `depthValue <= 0.001` fails for it, while in exact arithmetic both are `1 / 1000` and
the test succeeds. -/
theorem depthValue_one_millimetre :
    depthValue Arith.ieee 1 = FP.fin (8589935 / 8589934592)
      ∧ depthThreshold Arith.ieee = FP.fin (1152921504606847 / 1152921504606846976)
      ∧ invalidDepth Arith.ieee 1 = false
      ∧ invalidDepth Arith.exact 1 = true
      ∧ invalidDepth Arith.ieee 0 = true := by
  refine ⟨by decide!, by decide!, by decide!, by decide!, by decide!⟩

/-! ## Rounding: monotone and idempotent -/

/-- The halving count never overshoots: `2 ^ log2Fuel fuel n ≤ n` for positive `n`. -/
theorem log2Fuel_le (fuel n : Nat) (hn : 1 ≤ n) : 2 ^ log2Fuel fuel n ≤ n := by
  induction fuel generalizing n with
  | zero => simpa [log2Fuel] using hn
  | succ fuel ih =>
    unfold log2Fuel
    split_ifs with h2
    · simpa using hn
    · have := ih (n / 2) (by omega)
      rw [pow_succ]
      omega

/-- Narrowing zero to `float` gives zero. -/
theorem toSingle_zero (A : Arith) : A.toSingle 0 = FP.fin 0 := by
  cases A <;> simp [Arith.toSingle, roundNE]

/-- Rounding to the nearest integer, ties to even, is monotone. -/
theorem NearestEven.mono {x y : ℚ} {m n : Nat} (hx : NearestEven x m) (hy : NearestEven y n)
    (h : x ≤ y) : m ≤ n := by
  by_contra hc
  have hmn : n + 1 ≤ m := by omega
  have hq : (n : ℚ) + 1 ≤ m := by exact_mod_cast hmn
  obtain ⟨a1, -, a3⟩ := hx
  obtain ⟨-, b2, b3⟩ := hy
  have e1 : x = m - 1 / 2 := by linarith
  have e2 : y = n + 1 / 2 := by linarith
  have e3 : (m : ℚ) = n + 1 := by linarith
  have e4 : m = n + 1 := by exact_mod_cast e3
  have hm := a3 (Or.inl e1)
  have hn := b3 (Or.inr e2)
  rw [e4] at hm
  exact (Nat.even_add_one.mp hm) hn

/-- The nearest integer with ties to even is unique. -/
theorem NearestEven.unique {x : ℚ} {m n : Nat} (hx : NearestEven x m) (hy : NearestEven x n) :
    m = n :=
  le_antisymm (hx.mono hy le_rfl) (hy.mono hx le_rfl)

/-- An integer is its own nearest integer. -/
theorem NearestEven.self (m : Nat) : NearestEven (m : ℚ) m := by
  refine ⟨by linarith, by linarith, ?_⟩
  rintro (h | h) <;> linarith

/-- The quotient and remainder rule of `roundPos` yields the nearest integer, ties to
even. -/
theorem nearestEven_divMod (N D : Nat) (hD : 0 < D) :
    NearestEven ((N : ℚ) / D)
      (if 2 * (N % D) < D then N / D
        else if D < 2 * (N % D) then N / D + 1
        else if (N / D) % 2 = 0 then N / D else N / D + 1) := by
  have hDq : (0 : ℚ) < D := by exact_mod_cast hD
  have hdm : (N : ℚ) = D * (N / D : Nat) + (N % D : Nat) := by
    exact_mod_cast (Nat.div_add_mod N D).symm
  have hx : (N : ℚ) / D = (N / D : Nat) + ((N % D : Nat) : ℚ) / D := by
    rw [hdm]
    field_simp
    ring
  have hr0 : (0 : ℚ) ≤ ((N % D : Nat) : ℚ) / D := by positivity
  have hlt : (N % D : Nat) < D := Nat.mod_lt _ hD
  generalize N / D = m at *
  generalize N % D = r at *
  rw [hx]
  unfold NearestEven
  split_ifs with h1 h2 h3
  · have : (2 : ℚ) * r < D := by exact_mod_cast h1
    have hr : (r : ℚ) / D < 1 / 2 := by
      rw [div_lt_iff₀ hDq]; linarith
    refine ⟨by linarith, by linarith, ?_⟩
    rintro (h | h) <;> linarith
  · have : (D : ℚ) < 2 * r := by exact_mod_cast h2
    have hr : 1 / 2 < (r : ℚ) / D := by
      rw [lt_div_iff₀ hDq]; linarith
    have hr1 : (r : ℚ) / D < 1 := by
      rw [div_lt_one hDq]; exact_mod_cast hlt
    push_cast
    refine ⟨by linarith, by linarith, ?_⟩
    rintro (h | h) <;> linarith
  · have e : 2 * r = D := by omega
    have eq : (2 : ℚ) * r = D := by exact_mod_cast e
    have hr : (r : ℚ) / D = 1 / 2 := by
      rw [div_eq_iff hDq.ne']; linarith
    refine ⟨by linarith, by linarith, fun _ => ?_⟩
    exact Nat.even_iff.mpr h3
  · have e : 2 * r = D := by omega
    have eq : (2 : ℚ) * r = D := by exact_mod_cast e
    have hr : (r : ℚ) / D = 1 / 2 := by
      rw [div_eq_iff hDq.ne']; linarith
    push_cast
    refine ⟨by linarith, by linarith, fun _ => ?_⟩
    have : m % 2 = 1 := by omega
    exact Nat.even_add_one.mpr (fun hev => by rw [Nat.even_iff] at hev; omega)

/-- The halving count does not undershoot: `n < 2 ^ (log2Fuel fuel n + 1)` when the fuel
is at least `n`. -/
theorem log2Fuel_lt (fuel n : Nat) (h : n ≤ fuel) : n < 2 ^ (log2Fuel fuel n + 1) := by
  induction fuel generalizing n with
  | zero =>
    have : n = 0 := by omega
    subst this
    simp [log2Fuel]
  | succ f ih =>
    unfold log2Fuel
    split_ifs with h2
    · simpa using h2
    · have := ih (n / 2) (by omega)
      rw [pow_succ]
      omega

/-- The integer `floorLog2 n d` is the binary exponent of `n / d`. -/
theorem floorLog2_spec (n d : Nat) (hn : 0 < n) (hd : 0 < d) :
    (2 : ℚ) ^ (floorLog2 n d) ≤ (n : ℚ) / d ∧ (n : ℚ) / d < (2 : ℚ) ^ (floorLog2 n d + 1) := by
  have hdq : (0 : ℚ) < d := by exact_mod_cast hd
  have n1 := log2Fuel_le n n hn
  have n2 := log2Fuel_lt n n le_rfl
  have d1 := log2Fuel_le d d hd
  have d2 := log2Fuel_lt d d le_rfl
  unfold floorLog2
  simp only
  generalize log2Fuel n n = a at *
  generalize log2Fuel d d = b at *
  have n1q : (2 : ℚ) ^ a ≤ n := by exact_mod_cast n1
  have n2q : (n : ℚ) < 2 ^ (a + 1) := by exact_mod_cast n2
  have d1q : (2 : ℚ) ^ b ≤ d := by exact_mod_cast d1
  have d2q : (d : ℚ) < 2 ^ (b + 1) := by exact_mod_cast d2
  have h2 : (0 : ℚ) < 2 := by norm_num
  have pa : (0 : ℚ) < 2 ^ a := by positivity
  have pb : (0 : ℚ) < 2 ^ b := by positivity
  have za : (2 : ℚ) ^ ((a : Int) - b) = 2 ^ a / 2 ^ b := by
    rw [zpow_sub₀ (by norm_num), zpow_natCast, zpow_natCast]
  have hcb : (2 : ℚ) ^ a / 2 ^ b * 2 ^ b = 2 ^ a := by field_simp
  have hcpos : (0 : ℚ) < 2 ^ a / 2 ^ b := by positivity
  rw [pow_succ] at n2q d2q
  split_ifs with hc
  · have hcq : (d : ℚ) * 2 ^ a ≤ n * 2 ^ b := by exact_mod_cast hc
    rw [zpow_add₀ (by norm_num), za, zpow_one]
    generalize (2 : ℚ) ^ a / 2 ^ b = c at hcb hcpos
    constructor
    · rw [le_div_iff₀ hdq]
      have : c * d * 2 ^ b ≤ n * 2 ^ b := by
        calc c * d * 2 ^ b = d * (c * 2 ^ b) := by ring
          _ = d * 2 ^ a := by rw [hcb]
          _ ≤ n * 2 ^ b := hcq
      exact le_of_mul_le_mul_right this pb
    · rw [div_lt_iff₀ hdq]
      have : c * 2 * 2 ^ b ≤ c * 2 * d := by
        apply mul_le_mul_of_nonneg_left d1q; positivity
      have e : c * 2 * 2 ^ b = 2 ^ a * 2 := by rw [← hcb]; ring
      linarith
  · have hcq : (n : ℚ) * 2 ^ b < d * 2 ^ a := by
      have := not_le.mp hc
      exact_mod_cast this
    have e1 : ((a : Int) - b - 1 + 1) = (a : Int) - b := by ring
    rw [e1, zpow_sub₀ (by norm_num), za, zpow_one]
    generalize (2 : ℚ) ^ a / 2 ^ b = c at hcb hcpos
    constructor
    · rw [le_div_iff₀ hdq]
      have : c * d < c * (2 ^ b * 2) := mul_lt_mul_of_pos_left d2q hcpos
      have e : c * (2 ^ b * 2) = 2 ^ a * 2 := by rw [← hcb]; ring
      linarith
    · rw [div_lt_iff₀ hdq]
      have : n * 2 ^ b < c * d * 2 ^ b := by
        calc (n : ℚ) * 2 ^ b < d * 2 ^ a := hcq
          _ = d * (c * 2 ^ b) := by rw [hcb]
          _ = c * d * 2 ^ b := by ring
      exact lt_of_mul_lt_mul_right this pb.le

/-- A rational lies in one binade only. -/
theorem binade_unique {q : ℚ} {a b : Int} (ha : (2 : ℚ) ^ a ≤ q) (ha2 : q < (2 : ℚ) ^ (a + 1))
    (hb : (2 : ℚ) ^ b ≤ q) (hb2 : q < (2 : ℚ) ^ (b + 1)) : a = b := by
  have h1 : (2 : ℚ) ^ a < 2 ^ (b + 1) := lt_of_le_of_lt ha hb2
  have h2 : (2 : ℚ) ^ b < 2 ^ (a + 1) := lt_of_le_of_lt hb ha2
  rw [zpow_lt_zpow_iff_right₀ (by norm_num)] at h1 h2
  omega

/-- The binary exponent is monotone. -/
theorem binade_mono {q r : ℚ} {a b : Int} (ha : (2 : ℚ) ^ a ≤ q) (hb2 : r < (2 : ℚ) ^ (b + 1))
    (h : q ≤ r) : a ≤ b := by
  have h1 : (2 : ℚ) ^ a < 2 ^ (b + 1) := lt_of_le_of_lt (ha.trans h) hb2
  rw [zpow_lt_zpow_iff_right₀ (by norm_num)] at h1
  omega

/-- What `roundPos` computes: with `k` the exponent of the last place, the significand is
the nearest integer to `n / d / 2 ^ k`, ties to even, and the result is that integer times
`2 ^ k`, or `+∞` beyond the largest finite number. -/
theorem roundPos_spec (p : Nat) (emin emax : Int) (n d : Nat) (hd : 0 < d)
    (hemax : 0 ≤ emax + 1) :
    ∃ m : Nat,
      NearestEven ((n : ℚ) / d / 2 ^ (max (floorLog2 n d) emin - ((p : Int) - 1))) m
      ∧ roundPos p emin emax n d
          = if 0 ≤ max (floorLog2 n d) emin - ((p : Int) - 1)
                ∧ (2 : ℚ) ^ (emax + 1)
                    ≤ m * 2 ^ (max (floorLog2 n d) emin - ((p : Int) - 1))
            then FP.inf false
            else FP.fin (m * 2 ^ (max (floorLog2 n d) emin - ((p : Int) - 1))) := by
  unfold roundPos
  simp only
  generalize max (floorLog2 n d) emin - ((p : Int) - 1) = k
  obtain ⟨E, hE⟩ := Int.eq_ofNat_of_zero_le hemax
  rw [hE]
  simp only [Int.toNat_ofNat]
  have hdq : (0 : ℚ) < d := by exact_mod_cast hd
  by_cases hk : 0 ≤ k
  · obtain ⟨K, rfl⟩ := Int.eq_ofNat_of_zero_le hk
    simp only [hk, if_true, Int.toNat_ofNat, true_and]
    have hD : 0 < d * 2 ^ K := by positivity
    have hne := nearestEven_divMod n (d * 2 ^ K) hD
    revert hne
    generalize (if 2 * (n % (d * 2 ^ K)) < d * 2 ^ K then n / (d * 2 ^ K)
      else if d * 2 ^ K < 2 * (n % (d * 2 ^ K)) then n / (d * 2 ^ K) + 1
      else if n / (d * 2 ^ K) % 2 = 0 then n / (d * 2 ^ K) else n / (d * 2 ^ K) + 1) = m
    intro hne
    refine ⟨m, ?_, ?_⟩
    · have hx : (n : ℚ) / d / 2 ^ (K : Int) = (n : ℚ) / ((d * 2 ^ K : Nat) : ℚ) := by
        push_cast
        rw [zpow_natCast, div_div]
      rw [hx]
      exact hne
    · have hc : (2 ^ E ≤ m * 2 ^ K) ↔ ((2 : ℚ) ^ (E : Int) ≤ m * 2 ^ (K : Int)) := by
        rw [zpow_natCast, zpow_natCast]
        exact_mod_cast Iff.rfl
      have hv : mkRat ((m * 2 ^ K : Nat) : Int) 1 = (m : ℚ) * 2 ^ (K : Int) := by
        rw [Rat.mkRat_one, zpow_natCast]
        push_cast
        rfl
      by_cases h : 2 ^ E ≤ m * 2 ^ K
      · rw [if_pos h, if_pos (hc.mp h)]
      · rw [if_neg h, if_neg (fun h2 => h (hc.mpr h2)), hv]
  · have hk2 : ¬ (0 ≤ k ∧ (2 : ℚ) ^ (E : Int) ≤ 0) := fun h => hk h.1
    simp only [hk, if_false, false_and]
    obtain ⟨K, hK⟩ := Int.eq_ofNat_of_zero_le (show 0 ≤ -k by omega)
    rw [hK]
    simp only [Int.toNat_ofNat]
    have hkK : k = -(K : Int) := by omega
    have hne := nearestEven_divMod (n * 2 ^ K) d hd
    revert hne
    generalize (if 2 * (n * 2 ^ K % d) < d then n * 2 ^ K / d
      else if d < 2 * (n * 2 ^ K % d) then n * 2 ^ K / d + 1
      else if n * 2 ^ K / d % 2 = 0 then n * 2 ^ K / d else n * 2 ^ K / d + 1) = m
    intro hne
    refine ⟨m, ?_, ?_⟩
    · have hx : (n : ℚ) / d / 2 ^ k = ((n * 2 ^ K : Nat) : ℚ) / (d : ℚ) := by
        rw [hkK, zpow_neg, zpow_natCast]
        push_cast
        field_simp
      rw [hx]
      exact hne
    · congr 1
      rw [hkK, zpow_neg, zpow_natCast, Rat.mkRat_eq_div]
      push_cast
      rfl

/-- The nearest integer to a value below a power of two is at most that power. -/
theorem NearestEven.le_pow {x : ℚ} {m : Nat} (h : NearestEven x m) (P : Nat)
    (hx : x < 2 ^ P) : m ≤ 2 ^ P := by
  have h1 : (m : ℚ) < ((2 ^ P + 1 : Nat) : ℚ) := by
    push_cast
    linarith [h.1]
  have : m < 2 ^ P + 1 := by exact_mod_cast h1
  omega

/-- The nearest integer to a value from a power of two on is at least that power. -/
theorem NearestEven.pow_le {x : ℚ} {m : Nat} (h : NearestEven x m) (P : Nat)
    (hx : (2 : ℚ) ^ P ≤ x) : 2 ^ P ≤ m := by
  have h1 : ((2 ^ P : Nat) : ℚ) < ((m + 1 : Nat) : ℚ) := by
    push_cast
    linarith [h.2.1]
  have : 2 ^ P < m + 1 := by exact_mod_cast h1
  omega

/-- Scaling to the last place: a value below `2 ^ (e + 1)` has a significand below
`2 ^ p`. -/
theorem scaled_lt {q : ℚ} {e : Int} (p : Nat) (h : q < (2 : ℚ) ^ (e + 1)) :
    q / 2 ^ (e - ((p : Int) - 1)) < 2 ^ p := by
  have hpos : (0 : ℚ) < 2 ^ (e - ((p : Int) - 1)) := by positivity
  rw [div_lt_iff₀ hpos, ← zpow_natCast, ← zpow_add₀ (by norm_num)]
  have : (p : Int) + (e - ((p : Int) - 1)) = e + 1 := by ring
  rw [this]
  exact h

/-- Scaling to the last place: a value from `2 ^ e` on has a significand from
`2 ^ (p - 1)` on. -/
theorem scaled_ge {q : ℚ} {e : Int} (p : Nat) (hp : 1 ≤ p) (h : (2 : ℚ) ^ e ≤ q) :
    (2 : ℚ) ^ (p - 1) ≤ q / 2 ^ (e - ((p : Int) - 1)) := by
  have hpos : (0 : ℚ) < 2 ^ (e - ((p : Int) - 1)) := by positivity
  rw [le_div_iff₀ hpos, ← zpow_natCast, ← zpow_add₀ (by norm_num)]
  have : ((p - 1 : Nat) : Int) + (e - ((p : Int) - 1)) = e := by
    rw [Nat.cast_sub hp]; ring
  rw [this]
  exact h

/-- Rounding of positive rationals is monotone in the value `n / d`. -/
theorem roundPos_mono (p : Nat) (emin emax : Int) (hp : 1 ≤ p) (hemax : 0 ≤ emax + 1)
    (n1 d1 n2 d2 : Nat) (hn1 : 0 < n1) (hd1 : 0 < d1) (hn2 : 0 < n2) (hd2 : 0 < d2)
    (h : (n1 : ℚ) / d1 ≤ (n2 : ℚ) / d2) :
    (roundPos p emin emax n1 d1).le (roundPos p emin emax n2 d2) = true := by
  obtain ⟨m1, N1, R1⟩ := roundPos_spec p emin emax n1 d1 hd1 hemax
  obtain ⟨m2, N2, R2⟩ := roundPos_spec p emin emax n2 d2 hd2 hemax
  obtain ⟨lo1, hi1⟩ := floorLog2_spec n1 d1 hn1 hd1
  obtain ⟨lo2, hi2⟩ := floorLog2_spec n2 d2 hn2 hd2
  rw [R1, R2]
  clear R1 R2
  generalize floorLog2 n1 d1 = f1 at *
  generalize floorLog2 n2 d2 = f2 at *
  generalize (n1 : ℚ) / d1 = q1 at *
  generalize (n2 : ℚ) / d2 = q2 at *
  have hf : f1 ≤ f2 := binade_mono lo1 hi2 h
  have he : max f1 emin ≤ max f2 emin := max_le_max hf le_rfl
  have hv : (m1 : ℚ) * 2 ^ (max f1 emin - ((p : Int) - 1))
      ≤ m2 * 2 ^ (max f2 emin - ((p : Int) - 1)) := by
    rcases eq_or_lt_of_le he with heq | hlt
    · rw [← heq] at N2 ⊢
      have hpos : (0 : ℚ) < 2 ^ (max f1 emin - ((p : Int) - 1)) := by positivity
      have hx : q1 / 2 ^ (max f1 emin - ((p : Int) - 1))
          ≤ q2 / 2 ^ (max f1 emin - ((p : Int) - 1)) := div_le_div_of_nonneg_right h hpos.le
      have hm : (m1 : ℚ) ≤ m2 := by exact_mod_cast N1.mono N2 hx
      exact mul_le_mul_of_nonneg_right hm hpos.le
    · have hf2 : max f2 emin = f2 := by
        rcases le_total f2 emin with h2 | h2
        · rw [max_eq_right h2] at hlt
          have := le_max_right f1 emin
          omega
        · exact max_eq_left h2
      have hi1b : q1 < (2 : ℚ) ^ (max f1 emin + 1) :=
        lt_of_lt_of_le hi1 (zpow_le_zpow_right₀ (by norm_num) (by have := le_max_left f1 emin; omega))
      have hm1 : m1 ≤ 2 ^ p := N1.le_pow p (scaled_lt p hi1b)
      have hm1q : (m1 : ℚ) ≤ 2 ^ p := by exact_mod_cast hm1
      rw [hf2] at N2 ⊢
      have hm2 : 2 ^ (p - 1) ≤ m2 := N2.pow_le (p - 1) (scaled_ge p hp lo2)
      have hm2q : (2 : ℚ) ^ (p - 1) ≤ m2 := by exact_mod_cast hm2
      have hpos1 : (0 : ℚ) < 2 ^ (max f1 emin - ((p : Int) - 1)) := by positivity
      have hpos2 : (0 : ℚ) < 2 ^ (f2 - ((p : Int) - 1)) := by positivity
      calc (m1 : ℚ) * 2 ^ (max f1 emin - ((p : Int) - 1))
          ≤ 2 ^ p * 2 ^ (max f1 emin - ((p : Int) - 1)) :=
            mul_le_mul_of_nonneg_right hm1q hpos1.le
        _ = 2 ^ (max f1 emin + 1) := by
            rw [← zpow_natCast, ← zpow_add₀ (by norm_num)]
            congr 1; ring
        _ ≤ 2 ^ f2 := zpow_le_zpow_right₀ (by norm_num) (by omega)
        _ = 2 ^ (p - 1) * 2 ^ (f2 - ((p : Int) - 1)) := by
            rw [← zpow_natCast, ← zpow_add₀ (by norm_num)]
            congr 1
            rw [Nat.cast_sub hp]; ring
        _ ≤ m2 * 2 ^ (f2 - ((p : Int) - 1)) := mul_le_mul_of_nonneg_right hm2q hpos2.le
  by_cases c2 : 0 ≤ max f2 emin - ((p : Int) - 1)
      ∧ (2 : ℚ) ^ (emax + 1) ≤ m2 * 2 ^ (max f2 emin - ((p : Int) - 1))
  · rw [if_pos c2]
    split_ifs <;> simp [FP.le]
  · rw [if_neg c2]
    by_cases c1 : 0 ≤ max f1 emin - ((p : Int) - 1)
        ∧ (2 : ℚ) ^ (emax + 1) ≤ m1 * 2 ^ (max f1 emin - ((p : Int) - 1))
    · exact absurd ⟨by omega, c1.2.trans hv⟩ c2
    · rw [if_neg c1]
      simpa [FP.le] using hv

/-- Numerator and denominator of a non-negative rational give it back. -/
theorem natAbs_num_div_den (v : ℚ) (hv : 0 ≤ v) : ((v.num.natAbs : Nat) : ℚ) / v.den = v := by
  have h0 : 0 ≤ v.num := Rat.num_nonneg.mpr hv
  have : ((v.num.natAbs : Nat) : ℚ) = ((v.num : Int) : ℚ) := by
    have e : ((v.num.natAbs : Nat) : Int) = v.num := Int.natAbs_of_nonneg h0
    rw [← Int.cast_natCast, e]
  rw [this]
  exact Rat.num_div_den v

/-- Numerator and denominator of a negative rational give its opposite. -/
theorem natAbs_num_div_den_neg (v : ℚ) (hv : v < 0) :
    ((v.num.natAbs : Nat) : ℚ) / v.den = -v := by
  have := natAbs_num_div_den (-v) (by linarith)
  simpa using this

/-- The result of `roundPos` is `+∞` or a non-negative number. -/
theorem roundPos_nonneg (p : Nat) (emin emax : Int) (hemax : 0 ≤ emax + 1) (n d : Nat)
    (hd : 0 < d) : (FP.fin 0).le (roundPos p emin emax n d) = true := by
  obtain ⟨m, -, R⟩ := roundPos_spec p emin emax n d hd hemax
  rw [R]
  split_ifs
  · rfl
  · simp only [FP.le, decide_eq_true_eq]
    positivity

/-- The comparison `<=` is transitive. -/
theorem FP.le_trans {a b c : FP} (h1 : a.le b = true) (h2 : b.le c = true) :
    a.le c = true := by
  cases a <;> cases b <;> cases c <;> simp_all [FP.le]
  · rcases h1 with h | h <;> rcases h2 with h' | h' <;> simp_all
  · exact h1.trans h2

/-- Unary minus reverses `<=`. -/
theorem FP.neg_le_neg {a b : FP} (h : a.le b = true) : b.neg.le a.neg = true := by
  cases a <;> cases b <;> simp_all [FP.le, FP.neg]
  rcases h with h | h <;> simp_all

/-- Rounding to nearest is monotone. -/
theorem roundNE_mono (p : Nat) (emin emax : Int) (hp : 1 ≤ p) (hemax : 0 ≤ emax + 1)
    (q1 q2 : ℚ) (h : q1 ≤ q2) :
    (roundNE p emin emax q1).le (roundNE p emin emax q2) = true := by
  have pos : ∀ q : ℚ, 0 < q → 0 < q.num.natAbs := fun q hq =>
    Int.natAbs_pos.mpr (Rat.num_ne_zero.mpr hq.ne')
  have neg : ∀ q : ℚ, q < 0 → 0 < q.num.natAbs := fun q hq =>
    Int.natAbs_pos.mpr (Rat.num_ne_zero.mpr hq.ne)
  have nn : ∀ q : ℚ, (FP.fin 0).le (roundPos p emin emax q.num.natAbs q.den) = true :=
    fun q => roundPos_nonneg p emin emax hemax _ _ q.den_pos
  have np : ∀ q : ℚ, (roundPos p emin emax q.num.natAbs q.den).neg.le (FP.fin 0) = true := by
    intro q
    have := FP.neg_le_neg (nn q)
    simpa [FP.neg] using this
  unfold roundNE
  rcases lt_trichotomy q1 0 with h1 | h1 | h1
  · rw [if_neg h1.ne, if_neg (not_lt.mpr h1.le)]
    rcases lt_trichotomy q2 0 with h2 | h2 | h2
    · rw [if_neg h2.ne, if_neg (not_lt.mpr h2.le)]
      apply FP.neg_le_neg
      apply roundPos_mono p emin emax hp hemax _ _ _ _ (neg q2 h2) q2.den_pos (neg q1 h1)
        q1.den_pos
      rw [natAbs_num_div_den_neg q1 h1, natAbs_num_div_den_neg q2 h2]
      linarith
    · rw [if_pos h2]
      exact np q1
    · rw [if_neg h2.ne', if_pos h2]
      exact FP.le_trans (np q1) (nn q2)
  · subst h1
    rw [if_pos rfl]
    rcases eq_or_lt_of_le h with h2 | h2
    · rw [if_pos h2.symm]
      rfl
    · rw [if_neg h2.ne', if_pos h2]
      exact nn q2
  · have h2 : 0 < q2 := lt_of_lt_of_le h1 h
    rw [if_neg h1.ne', if_pos h1, if_neg h2.ne', if_pos h2]
    apply roundPos_mono p emin emax hp hemax _ _ _ _ (pos q1 h1) q1.den_pos (pos q2 h2)
      q2.den_pos
    rw [natAbs_num_div_den q1 h1.le, natAbs_num_div_den q2 h2.le]
    exact h

/-- Narrowing to `float` is monotone. -/
theorem Arith.toSingle_mono (A : Arith) {q1 q2 : ℚ} (h : q1 ≤ q2) :
    (A.toSingle q1).le (A.toSingle q2) = true := by
  cases A
  · simpa [Arith.toSingle, FP.le] using h
  · exact roundNE_mono 24 (-126) 127 (by norm_num) (by norm_num) q1 q2 h

/-- Narrowing to `double` is monotone. -/
theorem Arith.toDouble_mono (A : Arith) {q1 q2 : ℚ} (h : q1 ≤ q2) :
    (A.toDouble q1).le (A.toDouble q2) = true := by
  cases A
  · simpa [Arith.toDouble, FP.le] using h
  · exact roundNE_mono 53 (-1022) 1023 (by norm_num) (by norm_num) q1 q2 h

/-- A finite result of `roundPos` is a fixed point of the rounding: zero, or a positive
number that `roundPos` gives back. -/
theorem roundPos_idem (p : Nat) (emin emax : Int) (hp : 1 ≤ p) (hemax : 0 ≤ emax + 1)
    (hpe : (p : Int) - 1 ≤ emax) (n d : Nat) (hn : 0 < n) (hd : 0 < d) (v : ℚ)
    (h : roundPos p emin emax n d = FP.fin v) :
    v = 0 ∨ (0 < v ∧ roundPos p emin emax v.num.natAbs v.den = FP.fin v) := by
  obtain ⟨m, N, R⟩ := roundPos_spec p emin emax n d hd hemax
  obtain ⟨lo, hi⟩ := floorLog2_spec n d hn hd
  rw [h] at R
  generalize floorLog2 n d = f at *
  generalize (n : ℚ) / d = q at *
  by_cases c : 0 ≤ max f emin - ((p : Int) - 1)
      ∧ (2 : ℚ) ^ (emax + 1) ≤ m * 2 ^ (max f emin - ((p : Int) - 1))
  · rw [if_pos c] at R
    cases R
  rw [if_neg c] at R
  have hv : v = m * 2 ^ (max f emin - ((p : Int) - 1)) := by
    injection R
  rcases Nat.eq_zero_or_pos m with hm0 | hmpos
  · left
    rw [hv, hm0]
    simp
  right
  have hkpos : (0 : ℚ) < 2 ^ (max f emin - ((p : Int) - 1)) := by positivity
  have hmq : (0 : ℚ) < m := by exact_mod_cast hmpos
  have hvpos : 0 < v := by rw [hv]; positivity
  refine ⟨hvpos, ?_⟩
  have hvn : 0 < v.num.natAbs := Int.natAbs_pos.mpr (Rat.num_ne_zero.mpr hvpos.ne')
  obtain ⟨m', N', R'⟩ := roundPos_spec p emin emax v.num.natAbs v.den v.den_pos hemax
  obtain ⟨lo', hi'⟩ := floorLog2_spec v.num.natAbs v.den hvn v.den_pos
  rw [R']
  clear R'
  rw [natAbs_num_div_den v hvpos.le] at N' lo' hi'
  generalize floorLog2 v.num.natAbs v.den = f' at *
  have hib : q < (2 : ℚ) ^ (max f emin + 1) :=
    lt_of_lt_of_le hi (zpow_le_zpow_right₀ (by norm_num) (by have := le_max_left f emin; omega))
  have hm : m ≤ 2 ^ p := N.le_pow p (scaled_lt p hib)
  have hpow : (2 : ℚ) ^ p * 2 ^ (max f emin - ((p : Int) - 1)) = 2 ^ (max f emin + 1) := by
    rw [← zpow_natCast, ← zpow_add₀ (by norm_num)]
    congr 1; ring
  rcases Nat.eq_or_lt_of_le hm with hmeq | hmlt
  · -- the significand rounded up to `2 ^ p`: the value is the next power of two
    have hv2 : v = 2 ^ (max f emin + 1) := by
      rw [hv, hmeq]; push_cast; exact hpow
    have hf' : f' = max f emin + 1 := by
      refine binade_unique lo' hi' (by rw [hv2]) ?_
      rw [hv2]
      exact zpow_lt_zpow_right₀ (by norm_num) (by omega)
    have he' : max f' emin = max f emin + 1 := by
      rw [hf']
      exact max_eq_left (by have := le_max_right f emin; omega)
    rw [he'] at N' ⊢
    have hx : v / 2 ^ (max f emin + 1 - ((p : Int) - 1)) = ((2 ^ (p - 1) : Nat) : ℚ) := by
      have hpos : (0 : ℚ) < 2 ^ (max f emin + 1 - ((p : Int) - 1)) := by positivity
      rw [div_eq_iff hpos.ne', hv2]
      push_cast
      rw [← zpow_natCast, ← zpow_add₀ (by norm_num)]
      congr 1
      rw [Nat.cast_sub hp]; ring
    rw [hx] at N'
    have hm' : m' = 2 ^ (p - 1) := N'.unique (NearestEven.self _)
    have hval : (m' : ℚ) * 2 ^ (max f emin + 1 - ((p : Int) - 1)) = v := by
      rw [hm', hv2]
      push_cast
      rw [← zpow_natCast, ← zpow_add₀ (by norm_num)]
      congr 1
      rw [Nat.cast_sub hp]; ring
    rw [hval]
    rw [if_neg]
    rintro ⟨c1, c2⟩
    by_cases hk : 0 ≤ max f emin - ((p : Int) - 1)
    · exact c ⟨hk, by rw [← hv]; exact c2⟩
    · rw [hv2] at c2
      rw [zpow_le_zpow_iff_right₀ (by norm_num)] at c2
      omega
  · -- the significand is below `2 ^ p`: same exponent of the last place
    have hmltq : (m : ℚ) < 2 ^ p := by exact_mod_cast hmlt
    have hvlt : v < 2 ^ (max f emin + 1) := by
      rw [hv, ← hpow]
      exact mul_lt_mul_of_pos_right hmltq hkpos
    have hf'le : f' ≤ max f emin := by
      have := lt_of_le_of_lt lo' hvlt
      rw [zpow_lt_zpow_iff_right₀ (by norm_num)] at this
      omega
    have he' : max f' emin = max f emin := by
      rcases le_total emin f with hfe | hfe
      · rw [max_eq_left hfe] at N hv hvlt hf'le ⊢
        have hm2 : 2 ^ (p - 1) ≤ m := N.pow_le (p - 1) (scaled_ge p hp lo)
        have hm2q : (2 : ℚ) ^ (p - 1) ≤ m := by exact_mod_cast hm2
        have hvge : (2 : ℚ) ^ f ≤ v := by
          rw [hv]
          calc (2 : ℚ) ^ f = 2 ^ (p - 1) * 2 ^ (f - ((p : Int) - 1)) := by
                rw [← zpow_natCast, ← zpow_add₀ (by norm_num)]
                congr 1
                rw [Nat.cast_sub hp]; ring
            _ ≤ m * 2 ^ (f - ((p : Int) - 1)) := by
                apply mul_le_mul_of_nonneg_right hm2q; positivity
        have : f' = f := binade_unique lo' hi' hvge hvlt
        rw [this, max_eq_left hfe]
      · rw [max_eq_right hfe] at hf'le ⊢
        exact max_eq_right hf'le
    rw [he'] at N' ⊢
    have hx : v / 2 ^ (max f emin - ((p : Int) - 1)) = (m : ℚ) := by
      rw [div_eq_iff hkpos.ne', hv]
    rw [hx] at N'
    have hm' : m' = m := N'.unique (NearestEven.self _)
    rw [hm', ← hv, if_neg]
    rw [hv]
    exact c

/-- Rounding is idempotent: a finite result of `roundNE` rounds to itself. -/
theorem roundNE_idem (p : Nat) (emin emax : Int) (hp : 1 ≤ p) (hemax : 0 ≤ emax + 1)
    (hpe : (p : Int) - 1 ≤ emax) (q v : ℚ) (h : roundNE p emin emax q = FP.fin v) :
    roundNE p emin emax v = FP.fin v := by
  have z : roundNE p emin emax 0 = FP.fin 0 := by simp [roundNE]
  unfold roundNE at h
  rcases lt_trichotomy q 0 with hq | hq | hq
  · rw [if_neg hq.ne, if_neg (not_lt.mpr hq.le)] at h
    have hn : 0 < q.num.natAbs := Int.natAbs_pos.mpr (Rat.num_ne_zero.mpr hq.ne)
    have h2 : roundPos p emin emax q.num.natAbs q.den = FP.fin (-v) := by
      cases hr : roundPos p emin emax q.num.natAbs q.den with
      | nan => rw [hr] at h; cases h
      | inf s => rw [hr] at h; cases h
      | fin w =>
        rw [hr] at h
        simp only [FP.neg, FP.fin.injEq] at h
        rw [← h]; simp
    rcases roundPos_idem p emin emax hp hemax hpe _ _ hn q.den_pos _ h2 with h0 | ⟨hpos, h3⟩
    · have : v = 0 := by linarith
      rw [this]; exact z
    · have hv : v < 0 := by linarith
      unfold roundNE
      rw [if_neg hv.ne, if_neg (not_lt.mpr hv.le)]
      have e1 : v.num.natAbs = (-v).num.natAbs := by simp
      have e2 : v.den = (-v).den := by simp
      rw [e1, e2, h3]
      simp [FP.neg]
  · subst hq
    rw [if_pos rfl] at h
    injection h with h
    rw [← h]; exact z
  · rw [if_neg hq.ne', if_pos hq] at h
    have hn : 0 < q.num.natAbs := Int.natAbs_pos.mpr (Rat.num_ne_zero.mpr hq.ne')
    rcases roundPos_idem p emin emax hp hemax hpe _ _ hn q.den_pos _ h with h0 | ⟨hpos, h3⟩
    · rw [h0]; exact z
    · unfold roundNE
      rw [if_neg hpos.ne', if_pos hpos, h3]

/-- Narrowing to `float` is idempotent. -/
theorem Arith.toSingle_idem (A : Arith) {q v : ℚ} (h : A.toSingle q = FP.fin v) :
    A.toSingle v = FP.fin v := by
  cases A
  · rfl
  · exact roundNE_idem 24 (-126) 127 (by norm_num) (by norm_num) (by norm_num) q v h

/-- Narrowing to `double` is idempotent. -/
theorem Arith.toDouble_idem (A : Arith) {q v : ℚ} (h : A.toDouble q = FP.fin v) :
    A.toDouble v = FP.fin v := by
  cases A
  · rfl
  · exact roundNE_idem 53 (-1022) 1023 (by norm_num) (by norm_num) (by norm_num) q v h

/-- A value between two finite values is finite. -/
theorem FP.fin_of_between {x : FP} {a b : ℚ} (h1 : (FP.fin a).le x = true)
    (h2 : x.le (FP.fin b) = true) : ∃ c, x = FP.fin c ∧ a ≤ c ∧ c ≤ b := by
  cases x with
  | nan => simp [FP.le] at h1
  | inf s => cases s <;> simp [FP.le] at h1 h2
  | fin c => exact ⟨c, rfl, by simpa [FP.le] using h1, by simpa [FP.le] using h2⟩

/-- A value that is no NaN lies between the two infinities. -/
theorem FP.le_of_le_self {x : FP} (h : x.le x = true) :
    (FP.inf true).le x = true ∧ x.le (FP.inf false) = true := by
  cases x with
  | nan => simp [FP.le] at h
  | inf s => simp [FP.le]
  | fin c => simp [FP.le]

/-- Narrowing by a monotone rounding is monotone. -/
theorem FP.narrow_mono {f : ℚ → FP} (hf : ∀ q1 q2 : ℚ, q1 ≤ q2 → (f q1).le (f q2) = true)
    {x y : FP} (h : x.le y = true) : (x.narrow f).le (y.narrow f) = true := by
  cases x with
  | nan => simp [FP.le] at h
  | inf s =>
    cases y with
    | nan => simp [FP.le] at h
    | inf t => simpa [FP.narrow] using h
    | fin b =>
      have hs : s = true := by simpa [FP.le] using h
      subst hs
      exact (FP.le_of_le_self (hf b b le_rfl)).1
  | fin a =>
    cases y with
    | nan => simp [FP.le] at h
    | inf t =>
      have ht : t = false := by simpa [FP.le] using h
      subst ht
      exact (FP.le_of_le_self (hf a a le_rfl)).2
    | fin b => exact hf a b (by simpa [FP.le] using h)

/-- Subtracting a finite value is monotone. -/
theorem FP.sub_mono_left {x y : FP} (c : ℚ) (h : x.le y = true) :
    (x.sub (FP.fin c)).le (y.sub (FP.fin c)) = true := by
  cases x <;> cases y <;> simp_all [FP.le, FP.sub]

/-- Multiplying by a positive finite value is monotone. -/
theorem FP.mul_mono_left {x y : FP} (b : ℚ) (hb : 0 < b) (h : x.le y = true) :
    (x.mul (FP.fin b)).le (y.mul (FP.fin b)) = true := by
  have hb0 : b ≠ 0 := hb.ne'
  have hd : ¬ b < 0 := not_lt.mpr hb.le
  cases x <;> cases y <;> simp [FP.le, FP.mul, hb0, hd] at h ⊢
  · exact h
  · exact h
  · exact h
  · exact mul_le_mul_of_nonneg_right h hb.le

/-- Dividing by a positive finite value is monotone. -/
theorem FP.div_mono_left {x y : FP} (b : ℚ) (hb : 0 < b) (h : x.le y = true) :
    (x.div (FP.fin b)).le (y.div (FP.fin b)) = true := by
  have hb0 : b ≠ 0 := hb.ne'
  have hd : ¬ b < 0 := not_lt.mpr hb.le
  cases x <;> cases y <;> simp [FP.le, FP.div, hb0, hd] at h ⊢
  · exact h
  · exact h
  · exact h
  · exact div_le_div_of_nonneg_right h hb.le

/-- A natural number below `2 ^ p` is representable: rounding leaves it as it is. -/
theorem roundNE_natCast (p : Nat) (emin emax : Int) (hemax : 0 ≤ emax + 1)
    (hmin : emin ≤ (p : Int) - 1) (hmax : (p : Int) ≤ emax + 1) (n : Nat) (hn : n < 2 ^ p) :
    roundNE p emin emax (n : ℚ) = FP.fin n := by
  rcases Nat.eq_zero_or_pos n with h0 | hpos
  · subst h0
    simp [roundNE]
  have hq : (0 : ℚ) < n := by exact_mod_cast hpos
  unfold roundNE
  rw [if_neg hq.ne', if_pos hq]
  simp only [Rat.num_natCast, Int.natAbs_ofNat, Rat.den_natCast]
  obtain ⟨m, N, R⟩ := roundPos_spec p emin emax n 1 Nat.one_pos hemax
  obtain ⟨lo, hi⟩ := floorLog2_spec n 1 hpos Nat.one_pos
  rw [R]
  clear R
  simp only [Nat.cast_one, div_one] at N lo hi
  generalize floorLog2 n 1 = f at *
  have hnq : (n : ℚ) < 2 ^ (p : Int) := by
    rw [zpow_natCast]; exact_mod_cast hn
  have hf : f ≤ (p : Int) - 1 := by
    have := lt_of_le_of_lt lo hnq
    rw [zpow_lt_zpow_iff_right₀ (by norm_num)] at this
    omega
  have hk : max f emin - ((p : Int) - 1) ≤ 0 := by
    have := max_le hf hmin
    omega
  obtain ⟨K, hK⟩ := Int.eq_ofNat_of_zero_le (show 0 ≤ -(max f emin - ((p : Int) - 1)) by omega)
  have hkK : max f emin - ((p : Int) - 1) = -(K : Int) := by omega
  rw [hkK] at N ⊢
  have hx : (n : ℚ) / 2 ^ (-(K : Int)) = ((n * 2 ^ K : Nat) : ℚ) := by
    rw [zpow_neg, zpow_natCast]
    push_cast
    field_simp
  rw [hx] at N
  have hm : m = n * 2 ^ K := N.unique (NearestEven.self _)
  have hval : (m : ℚ) * 2 ^ (-(K : Int)) = n := by
    rw [hm, zpow_neg, zpow_natCast]
    push_cast
    field_simp
  rw [hval, if_neg]
  rintro ⟨-, c2⟩
  have : (2 : ℚ) ^ (emax + 1) < 2 ^ (p : Int) := lt_of_le_of_lt c2 hnq
  rw [zpow_lt_zpow_iff_right₀ (by norm_num)] at this
  omega

/-- The conversion of an integer below `2 ^ 24` to `float` is exact. -/
theorem Arith.ofNat32_exact (A : Arith) (n : Nat) (hn : n < 2 ^ 24) :
    A.ofNat32 n = FP.fin n := by
  cases A
  · rfl
  · exact roundNE_natCast 24 (-126) 127 (by norm_num) (by norm_num) (by norm_num) n hn

/-- The depth value of a sample is the `float` nearest to the quotient by 1000. -/
theorem depthValue_eq (A : Arith) (raw : Nat) :
    depthValue A raw = A.toSingle (((raw % 65536 : Nat) : ℚ) / 1000) := by
  have h1000 : A.toSingle 1000 = FP.fin 1000 := by cases A <;> decide!
  have hr : raw % 65536 < 2 ^ 24 := lt_of_lt_of_le (Nat.mod_lt _ (by norm_num)) (by norm_num)
  unfold depthValue Arith.div32
  rw [A.ofNat32_exact _ hr, h1000]
  simp [FP.div, FP.narrow]

/-- The test of `createCloud` on a sample of 2 mm or more: its depth value is a finite
number above a millimetre, and the test `isnan(depthValue) || depthValue <= 0.001` is
false. -/
theorem invalidDepth_of_two_le (A : Arith) (raw : Nat) (h : 2 ≤ raw % 65536) :
    invalidDepth A raw = false
      ∧ ∃ d : ℚ, depthValue A raw = FP.fin d ∧ 1 / 1000 < d ∧ d ≤ 128 := by
  have hr : raw % 65536 < 65536 := Nat.mod_lt _ (by norm_num)
  have h2 : ((2 : ℚ) / 1000) ≤ ((raw % 65536 : Nat) : ℚ) / 1000 := by
    have : (2 : ℚ) ≤ ((raw % 65536 : Nat) : ℚ) := by exact_mod_cast h
    linarith
  have h3 : ((raw % 65536 : Nat) : ℚ) / 1000 ≤ 128 := by
    have : ((raw % 65536 : Nat) : ℚ) ≤ 65536 := by exact_mod_cast hr.le
    linarith
  have m2 := A.toSingle_mono h2
  have m3 := A.toSingle_mono h3
  have hlo : ∃ a : ℚ, A.toSingle (2 / 1000) = FP.fin a ∧ 1 / 1000 < a
      ∧ ∃ t : ℚ, depthThreshold A = FP.fin t ∧ t < a := by
    cases A
    · exact ⟨2 / 1000, rfl, by norm_num, 1 / 1000, rfl, by norm_num⟩
    · exact ⟨8589935 / 4294967296, by decide!, by norm_num,
        1152921504606847 / 1152921504606846976, by decide!, by norm_num⟩
  have hhi : A.toSingle 128 = FP.fin 128 := by cases A <;> decide!
  obtain ⟨a, ha, ha1, t, ht, hta⟩ := hlo
  rw [ha] at m2
  rw [hhi] at m3
  obtain ⟨d, hd, hd1, hd2⟩ := FP.fin_of_between m2 m3
  rw [← depthValue_eq] at hd
  refine ⟨?_, d, hd, by linarith, hd2⟩
  unfold invalidDepth
  rw [hd, ht]
  simp only [FP.isNaN, FP.le, Bool.false_or, decide_eq_false_iff_not, not_le]
  linarith

/-- The test of `createCloud` on a sample of 0 mm: it is true. -/
theorem invalidDepth_zero (A : Arith) (raw : Nat) (h : raw % 65536 = 0) :
    invalidDepth A raw = true := by
  have : invalidDepth A 0 = true := by cases A <;> decide!
  unfold invalidDepth depthValue at this ⊢
  rw [h]
  exact this

/-- The comparison `<` is transitive. -/
theorem FP.lt_trans {a b c : FP} (h1 : a.lt b = true) (h2 : b.lt c = true) :
    a.lt c = true := by
  cases a <;> cases b <;> cases c <;> simp_all [FP.lt]
  exact h1.trans h2

/-- The comparison `<` implies `<=`. -/
theorem FP.le_of_lt {a b : FP} (h : a.lt b = true) : a.le b = true := by
  cases a <;> cases b <;> simp_all [FP.lt, FP.le]
  exact h.le

/-- The reciprocal `1.0f / fx` that `createLookup` multiplies by, for a focal length
between `2 ^ -126` and `2 ^ 126`: a finite positive `float`. -/
theorem lookup_reciprocal_pos (A : Arith) (f : ℚ) (h1 : 1 / 2 ^ 126 ≤ f) (h2 : f ≤ 2 ^ 126) :
    ∃ b : ℚ, A.single (A.div64 (FP.fin 1) (FP.fin f)) = FP.fin b ∧ 0 < b := by
  have hf : 0 < f := lt_of_lt_of_le (by positivity) h1
  have hlo : (1 : ℚ) / 2 ^ 126 ≤ 1 / f := one_div_le_one_div_of_le hf h2
  have hhi : (1 : ℚ) / f ≤ 2 ^ 126 := by
    rw [div_le_iff₀ hf]
    calc (1 : ℚ) = 2 ^ 126 * (1 / 2 ^ 126) := by norm_num
      _ ≤ 2 ^ 126 * f := by apply mul_le_mul_of_nonneg_left h1; positivity
  have d1 : A.toDouble (1 / 2 ^ 126) = FP.fin (1 / 2 ^ 126) := by cases A <;> decide!
  have d2 : A.toDouble (2 ^ 126) = FP.fin (2 ^ 126) := by cases A <;> decide!
  have s1 : A.toSingle (1 / 2 ^ 126) = FP.fin (1 / 2 ^ 126) := by cases A <;> decide!
  have s2 : A.toSingle (2 ^ 126) = FP.fin (2 ^ 126) := by cases A <;> decide!
  have m1 := A.toDouble_mono hlo
  have m2 := A.toDouble_mono hhi
  rw [d1] at m1
  rw [d2] at m2
  obtain ⟨r, hr, r1, r2⟩ := FP.fin_of_between m1 m2
  have n1 := A.toSingle_mono r1
  have n2 := A.toSingle_mono r2
  rw [s1] at n1
  rw [s2] at n2
  obtain ⟨b, hb, b1, -⟩ := FP.fin_of_between n1 n2
  refine ⟨b, ?_, lt_of_lt_of_le (by positivity) b1⟩
  simp only [Arith.div64, Arith.single, FP.div, hf.ne', if_false, FP.narrow, hr, hb]

/-- The principal point narrowed to `float`, for a magnitude up to `2 ^ 127`: finite. -/
theorem lookup_center_finite (A : Arith) (x : ℚ) (h : |x| ≤ 2 ^ 127) :
    ∃ c : ℚ, A.single (FP.fin x) = FP.fin c := by
  have s1 : A.toSingle (-2 ^ 127) = FP.fin (-2 ^ 127) := by cases A <;> decide!
  have s2 : A.toSingle (2 ^ 127) = FP.fin (2 ^ 127) := by cases A <;> decide!
  have hx := abs_le.mp h
  have n1 := A.toSingle_mono hx.1
  have n2 := A.toSingle_mono hx.2
  rw [s1] at n1
  rw [s2] at n2
  obtain ⟨c, hc, -, -⟩ := FP.fin_of_between n1 n2
  exact ⟨c, hc⟩

/-- The table entry of `createLookup` at an index is monotone in the index, for a finite
centre and a finite positive reciprocal. -/
theorem lookup_entry_mono (A : Arith) (c b : ℚ) (hb : 0 < b) (n1 n2 : Nat) (h : n1 ≤ n2) :
    (A.mul32 (A.sub32 (A.ofNat32 n1) (FP.fin c)) (FP.fin b)).le
      (A.mul32 (A.sub32 (A.ofNat32 n2) (FP.fin c)) (FP.fin b)) = true := by
  have hq : (n1 : ℚ) ≤ n2 := by exact_mod_cast h
  have h1 := A.toSingle_mono hq
  have h2 := FP.sub_mono_left c h1
  have h3 := FP.narrow_mono (fun q1 q2 hq => A.toSingle_mono hq) h2
  have h4 := FP.mul_mono_left b hb h3
  exact FP.narrow_mono (fun q1 q2 hq => A.toSingle_mono hq) h4

/-- The rounding error of `roundPos`: a finite result differs from `n / d` by at most half
a unit in the last place, which is at most `n / d / 2 ^ p` in the normal range and
`2 ^ (emin - p)` below it. -/
theorem roundPos_error (p : Nat) (emin emax : Int) (hemax : 0 ≤ emax + 1) (n d : Nat)
    (hn : 0 < n) (hd : 0 < d) (v : ℚ) (h : roundPos p emin emax n d = FP.fin v) :
    |v - (n : ℚ) / d| ≤ (n : ℚ) / d / 2 ^ p + 2 ^ (emin - (p : Int)) := by
  obtain ⟨m, N, R⟩ := roundPos_spec p emin emax n d hd hemax
  obtain ⟨lo, hi⟩ := floorLog2_spec n d hn hd
  rw [h] at R
  generalize floorLog2 n d = f at *
  generalize (n : ℚ) / d = q at *
  by_cases c : 0 ≤ max f emin - ((p : Int) - 1)
      ∧ (2 : ℚ) ^ (emax + 1) ≤ m * 2 ^ (max f emin - ((p : Int) - 1))
  · rw [if_pos c] at R
    cases R
  rw [if_neg c] at R
  have hv : v = m * 2 ^ (max f emin - ((p : Int) - 1)) := by
    injection R
  have hkpos : (0 : ℚ) < 2 ^ (max f emin - ((p : Int) - 1)) := by positivity
  have hq0 : (0 : ℚ) < q := lt_of_lt_of_le (by positivity) lo
  have hx : (m : ℚ) * 2 ^ (max f emin - ((p : Int) - 1)) - q
      = ((m : ℚ) - q / 2 ^ (max f emin - ((p : Int) - 1)))
        * 2 ^ (max f emin - ((p : Int) - 1)) := by
    field_simp
  have habs : |v - q| ≤ 2 ^ (max f emin - ((p : Int) - 1)) / 2 := by
    rw [hv, hx, abs_mul, abs_of_pos hkpos]
    have : |(m : ℚ) - q / 2 ^ (max f emin - ((p : Int) - 1))| ≤ 1 / 2 := by
      rw [abs_le]
      constructor <;> linarith [N.1, N.2.1]
    calc |(m : ℚ) - q / 2 ^ (max f emin - ((p : Int) - 1))| * 2 ^ (max f emin - ((p : Int) - 1))
        ≤ 1 / 2 * 2 ^ (max f emin - ((p : Int) - 1)) :=
          mul_le_mul_of_nonneg_right this hkpos.le
      _ = 2 ^ (max f emin - ((p : Int) - 1)) / 2 := by ring
  have hhalf : ∀ e : Int, (2 : ℚ) ^ (e - ((p : Int) - 1)) / 2 = 2 ^ (e - (p : Int)) := by
    intro e
    have : e - ((p : Int) - 1) = (e - (p : Int)) + 1 := by ring
    rw [this, zpow_add₀ (by norm_num), zpow_one]
    ring
  rw [hhalf] at habs
  have hp2 : (0 : ℚ) < 2 ^ p := by positivity
  rcases le_total emin f with hfe | hfe
  · rw [max_eq_left hfe] at habs
    have : (2 : ℚ) ^ (f - (p : Int)) ≤ q / 2 ^ p := by
      rw [zpow_sub₀ (by norm_num), zpow_natCast]
      exact div_le_div_of_nonneg_right lo hp2.le
    have h2 : (0 : ℚ) ≤ 2 ^ (emin - (p : Int)) := by positivity
    linarith
  · rw [max_eq_right hfe] at habs
    have : (0 : ℚ) ≤ q / 2 ^ p := by positivity
    linarith

/-- The rounding error of `roundNE`, for a finite result. -/
theorem roundNE_error (p : Nat) (emin emax : Int) (hemax : 0 ≤ emax + 1) (q v : ℚ)
    (h : roundNE p emin emax q = FP.fin v) :
    |v - q| ≤ |q| / 2 ^ p + 2 ^ (emin - (p : Int)) := by
  unfold roundNE at h
  rcases lt_trichotomy q 0 with hq | hq | hq
  · rw [if_neg hq.ne, if_neg (not_lt.mpr hq.le)] at h
    have hn : 0 < q.num.natAbs := Int.natAbs_pos.mpr (Rat.num_ne_zero.mpr hq.ne)
    have h2 : roundPos p emin emax q.num.natAbs q.den = FP.fin (-v) := by
      cases hr : roundPos p emin emax q.num.natAbs q.den with
      | nan => rw [hr] at h; cases h
      | inf s => rw [hr] at h; cases h
      | fin w =>
        rw [hr] at h
        simp only [FP.neg, FP.fin.injEq] at h
        rw [← h]; simp
    have := roundPos_error p emin emax hemax _ _ hn q.den_pos _ h2
    rw [natAbs_num_div_den_neg q hq] at this
    rw [abs_of_neg hq]
    have e : |v - q| = |(-v) - (-q)| := by
      rw [← abs_neg]; congr 1; ring
    rw [e]
    exact this
  · subst hq
    rw [if_pos rfl] at h
    injection h with h
    rw [← h]
    simp
    positivity
  · rw [if_neg hq.ne', if_pos hq] at h
    have hn : 0 < q.num.natAbs := Int.natAbs_pos.mpr (Rat.num_ne_zero.mpr hq.ne')
    have := roundPos_error p emin emax hemax _ _ hn q.den_pos _ h
    rw [natAbs_num_div_den q hq.le] at this
    rw [abs_of_pos hq]
    exact this

/-- The error of a narrowing to `float` with a finite result: at most `2 ^ -24` of the
value, plus `2 ^ -150`. -/
theorem Arith.toSingle_error (A : Arith) {q v : ℚ} (h : A.toSingle q = FP.fin v) :
    |v - q| ≤ |q| / 2 ^ 24 + 1 / 2 ^ 150 := by
  cases A
  · simp only [Arith.toSingle, FP.fin.injEq] at h
    rw [h]
    simp
    positivity
  · have := roundNE_error 24 (-126) 127 (by norm_num) q v h
    have e : (2 : ℚ) ^ ((-126 : Int) - ((24 : Nat) : Int)) = 1 / 2 ^ 150 := by
      rw [show ((-126 : Int) - ((24 : Nat) : Int)) = -(150 : Int) by norm_num, zpow_neg]
      norm_num
    rw [e] at this
    exact this

/-- The `float` difference of an index up to `2 ^ 20` and a centre of magnitude up to
`2 ^ 20`: finite, of magnitude at most `2 ^ 21` and within `1 / 8 + 2 ^ -150` of the exact
difference. -/
theorem lookup_difference (A : Arith) (c : ℚ) (hc : |c| ≤ 2 ^ 20) (n : Nat) (hn : n ≤ 2 ^ 20) :
    ∃ t : ℚ, A.sub32 (A.ofNat32 n) (FP.fin c) = FP.fin t ∧ |t| ≤ 2 ^ 21
      ∧ |t - ((n : ℚ) - c)| ≤ 1 / 8 + 1 / 2 ^ 150 := by
  have hn24 : n < 2 ^ 24 := lt_of_le_of_lt hn (by norm_num)
  have hnq : (n : ℚ) ≤ 2 ^ 20 := by exact_mod_cast hn
  have hn0 : (0 : ℚ) ≤ n := Nat.cast_nonneg n
  obtain ⟨c1, c2⟩ := abs_le.mp hc
  have s1 : A.toSingle (-2 ^ 21) = FP.fin (-2 ^ 21) := by cases A <;> decide!
  have s2 : A.toSingle (2 ^ 21) = FP.fin (2 ^ 21) := by cases A <;> decide!
  have m1 := A.toSingle_mono (show (-2 ^ 21 : ℚ) ≤ (n : ℚ) - c by linarith)
  have m2 := A.toSingle_mono (show (n : ℚ) - c ≤ 2 ^ 21 by linarith)
  rw [s1] at m1
  rw [s2] at m2
  obtain ⟨t, ht, t1, t2⟩ := FP.fin_of_between m1 m2
  refine ⟨t, ?_, abs_le.mpr ⟨t1, t2⟩, ?_⟩
  · simp [Arith.sub32, A.ofNat32_exact n hn24, FP.sub, FP.narrow, ht]
  · have he := A.toSingle_error ht
    have hq : |(n : ℚ) - c| ≤ 2 ^ 21 := abs_le.mpr ⟨by linarith, by linarith⟩
    have : |(n : ℚ) - c| / 2 ^ 24 ≤ 1 / 8 := by
      rw [div_le_iff₀ (by positivity)]
      linarith
    linarith

/-- The `float` product of a finite value of magnitude up to `2 ^ 21` and a factor between
`2 ^ -100` and `2 ^ 100`: finite and within an eighth of the factor plus `2 ^ -150` of the
exact product. -/
theorem lookup_product (A : Arith) (t b : ℚ) (ht : |t| ≤ 2 ^ 21) (hb1 : 1 / 2 ^ 100 ≤ b)
    (hb2 : b ≤ 2 ^ 100) :
    ∃ e : ℚ, A.mul32 (FP.fin t) (FP.fin b) = FP.fin e
      ∧ |e - t * b| ≤ b / 8 + 1 / 2 ^ 150 := by
  have hb0 : 0 < b := lt_of_lt_of_le (by positivity) hb1
  have habs : |t * b| ≤ 2 ^ 21 * b := by
    rw [abs_mul, abs_of_pos hb0]
    exact mul_le_mul_of_nonneg_right ht hb0.le
  have hmax : (2 : ℚ) ^ 21 * b ≤ 2 ^ 121 := by
    calc (2 : ℚ) ^ 21 * b ≤ 2 ^ 21 * 2 ^ 100 := by
          apply mul_le_mul_of_nonneg_left hb2; positivity
      _ = 2 ^ 121 := by norm_num
  obtain ⟨p1, p2⟩ := abs_le.mp (habs.trans hmax)
  have s1 : A.toSingle (-2 ^ 121) = FP.fin (-2 ^ 121) := by cases A <;> decide!
  have s2 : A.toSingle (2 ^ 121) = FP.fin (2 ^ 121) := by cases A <;> decide!
  have m1 := A.toSingle_mono p1
  have m2 := A.toSingle_mono p2
  rw [s1] at m1
  rw [s2] at m2
  obtain ⟨e, he, -, -⟩ := FP.fin_of_between m1 m2
  refine ⟨e, by simp [Arith.mul32, FP.mul, FP.narrow, he], ?_⟩
  have herr := A.toSingle_error he
  have : |t * b| / 2 ^ 24 ≤ b / 8 := by
    rw [div_le_iff₀ (by positivity)]
    calc |t * b| ≤ 2 ^ 21 * b := habs
      _ = b / 8 * 2 ^ 24 := by ring
  linarith

/-- The table entry of `createLookup` is strictly increasing in the index, for indices up
to `2 ^ 20`, a centre of magnitude up to `2 ^ 20` and a reciprocal between `2 ^ -100` and
`2 ^ 100`. -/
theorem lookup_entry_lt (A : Arith) (c b : ℚ) (hc : |c| ≤ 2 ^ 20) (hb1 : 1 / 2 ^ 100 ≤ b)
    (hb2 : b ≤ 2 ^ 100) (n1 n2 : Nat) (h : n1 < n2) (h2 : n2 ≤ 2 ^ 20) :
    (A.mul32 (A.sub32 (A.ofNat32 n1) (FP.fin c)) (FP.fin b)).lt
      (A.mul32 (A.sub32 (A.ofNat32 n2) (FP.fin c)) (FP.fin b)) = true := by
  have hb0 : 0 < b := lt_of_lt_of_le (by positivity) hb1
  obtain ⟨t1, ht1, a1, d1⟩ := lookup_difference A c hc n1 (by omega)
  obtain ⟨t2, ht2, a2, d2⟩ := lookup_difference A c hc n2 h2
  obtain ⟨e1, he1, g1⟩ := lookup_product A t1 b a1 hb1 hb2
  obtain ⟨e2, he2, g2⟩ := lookup_product A t2 b a2 hb1 hb2
  rw [ht1, ht2, he1, he2]
  simp only [FP.lt, decide_eq_true_eq]
  have hn : (n1 : ℚ) + 1 ≤ n2 := by exact_mod_cast h
  have ht : t1 + 1 / 2 ≤ t2 := by
    have := abs_le.mp d1
    have := abs_le.mp d2
    have : (1 : ℚ) / 2 ^ 150 ≤ 1 / 8 := by norm_num
    linarith
  have hp : t1 * b + b / 2 ≤ t2 * b := by nlinarith
  have := abs_le.mp g1
  have := abs_le.mp g2
  have hs : (1 : ℚ) / 2 ^ 150 < 1 / 2 ^ 100 / 8 := by norm_num
  have : (1 : ℚ) / 2 ^ 100 / 8 ≤ b / 8 := by linarith
  linarith

/-- The reciprocal `1.0f / fx` that `createLookup` multiplies by, for a focal length
between `2 ^ -100` and `2 ^ 100`: a finite `float` in the same range. -/
theorem lookup_reciprocal_range (A : Arith) (f : ℚ) (h1 : 1 / 2 ^ 100 ≤ f) (h2 : f ≤ 2 ^ 100) :
    ∃ b : ℚ, A.single (A.div64 (FP.fin 1) (FP.fin f)) = FP.fin b
      ∧ 1 / 2 ^ 100 ≤ b ∧ b ≤ 2 ^ 100 := by
  have hf : 0 < f := lt_of_lt_of_le (by positivity) h1
  have hlo : (1 : ℚ) / 2 ^ 100 ≤ 1 / f := one_div_le_one_div_of_le hf h2
  have hhi : (1 : ℚ) / f ≤ 2 ^ 100 := by
    rw [div_le_iff₀ hf]
    calc (1 : ℚ) = 2 ^ 100 * (1 / 2 ^ 100) := by norm_num
      _ ≤ 2 ^ 100 * f := by apply mul_le_mul_of_nonneg_left h1; positivity
  have d1 : A.toDouble (1 / 2 ^ 100) = FP.fin (1 / 2 ^ 100) := by cases A <;> decide!
  have d2 : A.toDouble (2 ^ 100) = FP.fin (2 ^ 100) := by cases A <;> decide!
  have s1 : A.toSingle (1 / 2 ^ 100) = FP.fin (1 / 2 ^ 100) := by cases A <;> decide!
  have s2 : A.toSingle (2 ^ 100) = FP.fin (2 ^ 100) := by cases A <;> decide!
  have m1 := A.toDouble_mono hlo
  have m2 := A.toDouble_mono hhi
  rw [d1] at m1
  rw [d2] at m2
  obtain ⟨r, hr, r1, r2⟩ := FP.fin_of_between m1 m2
  have n1 := A.toSingle_mono r1
  have n2 := A.toSingle_mono r2
  rw [s1] at n1
  rw [s2] at n2
  obtain ⟨b, hb, b1, b2⟩ := FP.fin_of_between n1 n2
  refine ⟨b, ?_, b1, b2⟩
  simp only [Arith.div64, Arith.single, FP.div, hf.ne', if_false, FP.narrow, hr, hb]

/-- The principal point narrowed to `float`, for a magnitude up to `2 ^ 20`: finite, of
magnitude up to `2 ^ 20`. -/
theorem lookup_center_range (A : Arith) (x : ℚ) (h : |x| ≤ 2 ^ 20) :
    ∃ c : ℚ, A.single (FP.fin x) = FP.fin c ∧ |c| ≤ 2 ^ 20 := by
  have s1 : A.toSingle (-2 ^ 20) = FP.fin (-2 ^ 20) := by cases A <;> decide!
  have s2 : A.toSingle (2 ^ 20) = FP.fin (2 ^ 20) := by cases A <;> decide!
  have hx := abs_le.mp h
  have n1 := A.toSingle_mono hx.1
  have n2 := A.toSingle_mono hx.2
  rw [s1] at n1
  rw [s2] at n2
  obtain ⟨c, hc, c1, c2⟩ := FP.fin_of_between n1 n2
  exact ⟨c, hc, abs_le.mpr ⟨c1, c2⟩⟩

/-- Unary minus undoes itself. -/
theorem FP.neg_neg (x : FP) : x.neg.neg = x := by
  cases x <;> simp [FP.neg]

/-- Rounding to nearest commutes with unary minus. -/
theorem roundNE_neg (p : Nat) (emin emax : Int) (q : ℚ) :
    roundNE p emin emax (-q) = (roundNE p emin emax q).neg := by
  unfold roundNE
  rcases lt_trichotomy q 0 with hq | hq | hq
  · have h1 : ¬ (-q = 0) := by intro h; linarith [neg_eq_zero.mp h]
    have h2 : 0 < -q := by linarith
    rw [if_neg h1, if_pos h2, if_neg hq.ne, if_neg (not_lt.mpr hq.le), FP.neg_neg]
    simp
  · subst hq
    simp [FP.neg]
  · have h1 : ¬ (-q = 0) := by intro h; linarith [neg_eq_zero.mp h]
    have h2 : ¬ 0 < -q := by linarith
    rw [if_neg h1, if_neg h2, if_neg hq.ne', if_pos hq]
    simp

/-- The narrowing of an integer of magnitude below `2 ^ 24` to `float` is exact. -/
theorem Arith.toSingle_intCast (A : Arith) (z : Int) (hz : z.natAbs < 2 ^ 24) :
    A.toSingle (z : ℚ) = FP.fin z := by
  cases A
  · rfl
  · have hn := roundNE_natCast 24 (-126) 127 (by norm_num) (by norm_num) (by norm_num)
      z.natAbs hz
    rcases Int.natAbs_eq z with h | h
    · have e : (z : ℚ) = ((z.natAbs : Nat) : ℚ) := by
        rw [← Int.cast_natCast]; congr 1
      rw [e]
      exact hn
    · have e : (z : ℚ) = -((z.natAbs : Nat) : ℚ) := by
        rw [← Int.cast_natCast, ← Int.cast_neg]; congr 1
      show roundNE 24 (-126) 127 (z : ℚ) = FP.fin z
      rw [e, roundNE_neg, hn]
      simp [FP.neg]

/-- The table entry of `createLookup` for the focal length 500 and an integer centre `k` up
to 1000, at an index up to 1000, in IEEE single precision: finite and within the relative
error `2 ^ -23` of the quotient `(n - k) / 500`. -/
theorem lookup_entry_near (k n : Nat) (hk : k ≤ 1000) (hn : n ≤ 1000) :
    ∃ v : ℚ,
      Arith.ieee.mul32 (Arith.ieee.sub32 (Arith.ieee.ofNat32 n) (Arith.ieee.single (FP.fin k)))
          (Arith.ieee.single (Arith.ieee.div64 (FP.fin 1) (FP.fin 500))) = FP.fin v
        ∧ |v - ((n : ℚ) - k) / 500| ≤ |((n : ℚ) - k) / 500| / 2 ^ 23 := by
  have hb : Arith.ieee.single (Arith.ieee.div64 (FP.fin 1) (FP.fin 500))
      = FP.fin (8589935 / 4294967296) := by decide!
  have hkf : Arith.ieee.single (FP.fin (k : ℚ)) = FP.fin k := by
    have := Arith.ieee.toSingle_intCast (k : Int) (by simp; omega)
    simpa [Arith.single, FP.narrow] using this
  have hnf : Arith.ieee.ofNat32 n = FP.fin n := Arith.ieee.ofNat32_exact n (by omega)
  have hd : Arith.ieee.toSingle ((n : ℚ) - k) = FP.fin ((n : ℚ) - k) := by
    have := Arith.ieee.toSingle_intCast ((n : Int) - k) (by omega)
    simpa using this
  rw [hb, hkf, hnf]
  simp only [Arith.sub32, FP.sub, FP.narrow, hd, Arith.mul32, FP.mul]
  -- the integer difference
  obtain ⟨z, hz⟩ : ∃ z : Int, ((n : ℚ) - k) = z := ⟨(n : Int) - k, by push_cast; rfl⟩
  have hzb : |(z : ℚ)| ≤ 1000 := by
    rw [← hz, abs_le]
    have h1 : (n : ℚ) ≤ 1000 := by exact_mod_cast hn
    have h2 : (k : ℚ) ≤ 1000 := by exact_mod_cast hk
    have h3 : (0 : ℚ) ≤ n := Nat.cast_nonneg n
    have h4 : (0 : ℚ) ≤ k := Nat.cast_nonneg k
    constructor <;> linarith
  rw [hz]
  have s1 : Arith.ieee.toSingle (-4) = FP.fin (-4) := by decide!
  have s2 : Arith.ieee.toSingle 4 = FP.fin 4 := by decide!
  obtain ⟨z1, z2⟩ := abs_le.mp hzb
  have m1 := Arith.ieee.toSingle_mono
    (show (-4 : ℚ) ≤ (z : ℚ) * (8589935 / 4294967296) by linarith)
  have m2 := Arith.ieee.toSingle_mono
    (show (z : ℚ) * (8589935 / 4294967296) ≤ 4 by linarith)
  rw [s1] at m1
  rw [s2] at m2
  obtain ⟨v, hv, -, -⟩ := FP.fin_of_between m1 m2
  refine ⟨v, hv, ?_⟩
  have herr := Arith.ieee.toSingle_error hv
  rcases eq_or_ne z 0 with h0 | h0
  · subst h0
    have : Arith.ieee.toSingle ((0 : Int) * (8589935 / 4294967296) : ℚ) = FP.fin 0 := by
      simp [toSingle_zero]
    rw [this] at hv
    injection hv with hv
    rw [← hv]
    simp
  · have h1 : (1 : ℚ) ≤ |(z : ℚ)| := by
      have : (1 : Int) ≤ |z| := Int.one_le_abs h0
      exact_mod_cast this
    have e1 : |(z : ℚ) * (8589935 / 4294967296)| = |(z : ℚ)| * (8589935 / 4294967296) := by
      rw [abs_mul, abs_of_pos (by norm_num : (0 : ℚ) < 8589935 / 4294967296)]
    have e2 : |(z : ℚ) / 500| = |(z : ℚ)| / 500 := by
      rw [abs_div, abs_of_pos (by norm_num : (0 : ℚ) < 500)]
    have e3 : |(z : ℚ) * (8589935 / 4294967296) - z / 500|
        = |(z : ℚ)| * (8589935 / 4294967296 - 1 / 500) := by
      have : (z : ℚ) * (8589935 / 4294967296) - z / 500
          = z * (8589935 / 4294967296 - 1 / 500) := by ring
      rw [this, abs_mul, abs_of_pos (by norm_num : (0 : ℚ) < 8589935 / 4294967296 - 1 / 500)]
    have tri : |v - (z : ℚ) / 500|
        ≤ |v - (z : ℚ) * (8589935 / 4294967296)|
          + |(z : ℚ) * (8589935 / 4294967296) - z / 500| := by
      have := abs_add (v - (z : ℚ) * (8589935 / 4294967296))
        ((z : ℚ) * (8589935 / 4294967296) - z / 500)
      simpa using this
    rw [e1] at herr
    rw [e3] at tri
    rw [e2]
    have key : |(z : ℚ)| * (8589935 / 4294967296) / 2 ^ 24 + 1 / 2 ^ 150
        + |(z : ℚ)| * (8589935 / 4294967296 - 1 / 500) ≤ |(z : ℚ)| / 500 / 2 ^ 23 := by
      have c : (0 : ℚ) < 1 / 500 / 2 ^ 23 - 8589935 / 4294967296 / 2 ^ 24
          - (8589935 / 4294967296 - 1 / 500) - 1 / 2 ^ 150 := by norm_num
      nlinarith
    linarith

/-- The error of a narrowing to `double` with a finite result: at most `2 ^ -53` of the
value, plus `2 ^ -1075`. -/
theorem Arith.toDouble_error (A : Arith) {q v : ℚ} (h : A.toDouble q = FP.fin v) :
    |v - q| ≤ |q| / 2 ^ 53 + 1 / 2 ^ 1075 := by
  cases A
  · simp only [Arith.toDouble, FP.fin.injEq] at h
    rw [h]
    simp
    positivity
  · have := roundNE_error 53 (-1022) 1023 (by norm_num) q v h
    have e : (2 : ℚ) ^ ((-1022 : Int) - ((53 : Nat) : Int)) = 1 / 2 ^ 1075 := by
      rw [show ((-1022 : Int) - ((53 : Nat) : Int)) = -(1075 : Int) by norm_num, zpow_neg]
      norm_num
    rw [e] at this
    exact this

/-- The reciprocal `1.0f / fx` that `createLookup` multiplies by, for a focal length
between 1 and `2 ^ 100`: a positive `float` within `9/8 * 2 ^ -24` of `1 / fx`, relatively,
plus `2 ^ -149`. -/
theorem lookup_reciprocal_error (A : Arith) (f : ℚ) (h1 : 1 ≤ f) (h2 : f ≤ 2 ^ 100) :
    ∃ b : ℚ, A.single (A.div64 (FP.fin 1) (FP.fin f)) = FP.fin b
      ∧ 1 / 2 ^ 100 ≤ b ∧ b ≤ 1
      ∧ |b - 1 / f| ≤ 9 / 8 * (1 / f) / 2 ^ 24 + 1 / 2 ^ 149 := by
  have hf : 0 < f := lt_of_lt_of_le one_pos h1
  have hlo : (1 : ℚ) / 2 ^ 100 ≤ 1 / f := one_div_le_one_div_of_le hf h2
  have hhi : (1 : ℚ) / f ≤ 1 := by
    rw [div_le_one hf]; exact h1
  have d1 : A.toDouble (1 / 2 ^ 100) = FP.fin (1 / 2 ^ 100) := by cases A <;> decide!
  have d2 : A.toDouble 1 = FP.fin 1 := by cases A <;> decide!
  have s1 : A.toSingle (1 / 2 ^ 100) = FP.fin (1 / 2 ^ 100) := by cases A <;> decide!
  have s2 : A.toSingle 1 = FP.fin 1 := by cases A <;> decide!
  have m1 := A.toDouble_mono hlo
  have m2 := A.toDouble_mono hhi
  rw [d1] at m1
  rw [d2] at m2
  obtain ⟨r, hr, r1, r2⟩ := FP.fin_of_between m1 m2
  have n1 := A.toSingle_mono r1
  have n2 := A.toSingle_mono r2
  rw [s1] at n1
  rw [s2] at n2
  obtain ⟨b, hb, b1, b2⟩ := FP.fin_of_between n1 n2
  have hr0 : 0 < r := lt_of_lt_of_le (by positivity) r1
  have hR0 : (0 : ℚ) < 1 / f := by positivity
  refine ⟨b, ?_, b1, b2, ?_⟩
  · simp only [Arith.div64, Arith.single, FP.div, hf.ne', if_false, FP.narrow, hr, hb]
  · have er := A.toDouble_error hr
    have eb := A.toSingle_error hb
    rw [abs_of_pos hR0] at er
    rw [abs_of_pos hr0] at eb
    have er' := abs_le.mp er
    have eb' := abs_le.mp eb
    have t1 : (1 : ℚ) / 2 ^ 1075 ≤ 1 / 2 ^ 151 := by norm_num
    have t2 : (1 : ℚ) / 2 ^ 150 + 1 / 2 ^ 151 + 1 / 2 ^ 151 ≤ 1 / 2 ^ 149 := by norm_num
    generalize (1 : ℚ) / f = R at *
    have hRr : r ≤ R + R / 2 ^ 53 + 1 / 2 ^ 1075 := by linarith
    rw [abs_le]
    constructor
    · have : r / 2 ^ 24 ≤ (R + R / 2 ^ 53 + 1 / 2 ^ 1075) / 2 ^ 24 :=
        div_le_div_of_nonneg_right hRr (by positivity)
      have e : (R + R / 2 ^ 53 + 1 / 2 ^ 1075) / 2 ^ 24
          ≤ R / 2 ^ 24 + R / 2 ^ 77 + 1 / 2 ^ 151 := by
        have : (R + R / 2 ^ 53 + 1 / 2 ^ 1075) / 2 ^ 24
            = R / 2 ^ 24 + R / 2 ^ 77 + 1 / 2 ^ 1075 / 2 ^ 24 := by ring
        rw [this]
        have : (1 : ℚ) / 2 ^ 1075 / 2 ^ 24 ≤ 1 / 2 ^ 151 := by norm_num
        linarith
      have hsmall : R / 2 ^ 77 + R / 2 ^ 53 ≤ 1 / 8 * R / 2 ^ 24 := by
        have : R / 2 ^ 77 + R / 2 ^ 53 = R * (1 / 2 ^ 77 + 1 / 2 ^ 53) := by ring
        rw [this]
        have : (1 / 8 * R / 2 ^ 24 : ℚ) = R * (1 / 8 / 2 ^ 24) := by ring
        rw [this]
        apply mul_le_mul_of_nonneg_left _ hR0.le
        norm_num
      linarith
    · have : r / 2 ^ 24 ≤ (R + R / 2 ^ 53 + 1 / 2 ^ 1075) / 2 ^ 24 :=
        div_le_div_of_nonneg_right hRr (by positivity)
      have e : (R + R / 2 ^ 53 + 1 / 2 ^ 1075) / 2 ^ 24
          ≤ R / 2 ^ 24 + R / 2 ^ 77 + 1 / 2 ^ 151 := by
        have : (R + R / 2 ^ 53 + 1 / 2 ^ 1075) / 2 ^ 24
            = R / 2 ^ 24 + R / 2 ^ 77 + 1 / 2 ^ 1075 / 2 ^ 24 := by ring
        rw [this]
        have : (1 : ℚ) / 2 ^ 1075 / 2 ^ 24 ≤ 1 / 2 ^ 151 := by norm_num
        linarith
      have hsmall : R / 2 ^ 77 + R / 2 ^ 53 ≤ 1 / 8 * R / 2 ^ 24 := by
        have : R / 2 ^ 77 + R / 2 ^ 53 = R * (1 / 2 ^ 77 + 1 / 2 ^ 53) := by ring
        rw [this]
        have : (1 / 8 * R / 2 ^ 24 : ℚ) = R * (1 / 8 / 2 ^ 24) := by ring
        rw [this]
        apply mul_le_mul_of_nonneg_left _ hR0.le
        norm_num
      linarith

set_option maxRecDepth 4000 in
/-- The error of a table entry of `createLookup`, in the machine arithmetic: for a focal
length between 1 and `2 ^ 100`, a principal point of magnitude up to `2 ^ 20` and an index
up to `2 ^ 20` the entry is finite and differs from the quotient `(n - cx) / fx` by at most
`2 ^ -22 * (|n - cx| + |cx|) / fx + 2 ^ -126`. -/
theorem lookup_entry_error (A : Arith) (cx fx : ℚ) (hcx : |cx| ≤ 2 ^ 20) (h1 : 1 ≤ fx)
    (h2 : fx ≤ 2 ^ 100) (n : Nat) (hn : n ≤ 2 ^ 20) :
    ∃ e : ℚ,
      A.mul32 (A.sub32 (A.ofNat32 n) (A.single (FP.fin cx)))
          (A.single (A.div64 (FP.fin 1) (FP.fin fx))) = FP.fin e
        ∧ |e - ((n : ℚ) - cx) / fx|
            ≤ (|(n : ℚ) - cx| + |cx|) / fx / 2 ^ 22 + 1 / 2 ^ 126 := by
  have hf : 0 < fx := lt_of_lt_of_le one_pos h1
  obtain ⟨c, hc, hcb⟩ := lookup_center_range A cx hcx
  obtain ⟨b, hb, b1, b2, eb⟩ := lookup_reciprocal_error A fx h1 h2
  obtain ⟨t, ht, tb, -⟩ := lookup_difference A c hcb n hn
  obtain ⟨e, he, -⟩ := lookup_product A t b tb b1 (b2.trans (by norm_num))
  have hb0 : 0 < b := lt_of_lt_of_le (by positivity) b1
  refine ⟨e, by rw [hc, hb, ht, he], ?_⟩
  -- the four roundings
  have rc : A.toSingle cx = FP.fin c := by simpa [Arith.single, FP.narrow] using hc
  have rt : A.toSingle ((n : ℚ) - c) = FP.fin t := by
    have hn24 : n < 2 ^ 24 := lt_of_le_of_lt hn (by norm_num)
    simpa [Arith.sub32, A.ofNat32_exact n hn24, FP.sub, FP.narrow] using ht
  have re : A.toSingle (t * b) = FP.fin e := by
    simpa [Arith.mul32, FP.mul, FP.narrow] using he
  have ec := A.toSingle_error rc
  have et := A.toSingle_error rt
  have ee := A.toSingle_error re
  rw [abs_mul, abs_of_pos hb0] at ee
  -- the quantities
  have hR0 : (0 : ℚ) < 1 / fx := by positivity
  have hR1 : (1 : ℚ) / fx ≤ 1 := by rw [div_le_one hf]; exact h1
  have hq : ((n : ℚ) - cx) / fx = ((n : ℚ) - cx) * (1 / fx) := by ring
  have hg : (|(n : ℚ) - cx| + |cx|) / fx / 2 ^ 22
      = (|(n : ℚ) - cx| * (1 / fx) + |cx| * (1 / fx)) / 2 ^ 22 := by ring
  rw [hq, hg]
  generalize (1 : ℚ) / fx = R at *
  generalize hT : (n : ℚ) - cx = T at *
  have hu0 : 0 ≤ |T| := abs_nonneg T
  have hw0 : 0 ≤ |cx| := abs_nonneg cx
  have hX0 : 0 ≤ |t| := abs_nonneg t
  -- the difference
  have hnc : |(n : ℚ) - c| ≤ |T| + (|cx| / 2 ^ 24 + 1 / 2 ^ 150) := by
    have : (n : ℚ) - c = T + (cx - c) := by rw [← hT]; ring
    rw [this]
    calc |T + (cx - c)| ≤ |T| + |cx - c| := abs_add _ _
      _ ≤ |T| + (|cx| / 2 ^ 24 + 1 / 2 ^ 150) := by
          rw [abs_sub_comm]; linarith
  have hd : |t - T| ≤ |T| / 2 ^ 24 + 2 * |cx| / 2 ^ 24 + 3 / 2 ^ 150 := by
    have : t - T = (t - ((n : ℚ) - c)) + (cx - c) := by rw [← hT]; ring
    rw [this]
    have h3 : |cx - c| ≤ |cx| / 2 ^ 24 + 1 / 2 ^ 150 := by rw [abs_sub_comm]; exact ec
    have h4 : |(n : ℚ) - c| / 2 ^ 24 ≤ (|T| + (|cx| / 2 ^ 24 + 1 / 2 ^ 150)) / 2 ^ 24 :=
      div_le_div_of_nonneg_right hnc (by positivity)
    have h5 : (|T| + (|cx| / 2 ^ 24 + 1 / 2 ^ 150)) / 2 ^ 24
        ≤ |T| / 2 ^ 24 + |cx| / 2 ^ 24 + 1 / 2 ^ 150 := by
      have e1 : (|T| + (|cx| / 2 ^ 24 + 1 / 2 ^ 150)) / 2 ^ 24
          = |T| / 2 ^ 24 + |cx| / 2 ^ 24 / 2 ^ 24 + 1 / 2 ^ 150 / 2 ^ 24 := by ring
      rw [e1]
      have e2 : |cx| / 2 ^ 24 / 2 ^ 24 ≤ |cx| / 2 ^ 24 :=
        div_le_self (by positivity) (by norm_num)
      have e3 : (1 : ℚ) / 2 ^ 150 / 2 ^ 24 ≤ 1 / 2 ^ 150 := by norm_num
      linarith
    calc |t - ((n : ℚ) - c) + (cx - c)| ≤ |t - ((n : ℚ) - c)| + |cx - c| := abs_add _ _
      _ ≤ |T| / 2 ^ 24 + 2 * |cx| / 2 ^ 24 + 3 / 2 ^ 150 := by linarith
  have hX : |t| ≤ |T| + (|T| / 2 ^ 24 + 2 * |cx| / 2 ^ 24 + 3 / 2 ^ 150) := by
    have : t = T + (t - T) := by ring
    calc |t| = |T + (t - T)| := by rw [← this]
      _ ≤ |T| + |t - T| := abs_add _ _
      _ ≤ _ := by linarith
  -- products with the reciprocal
  have hbR : b ≤ R + (9 / 8 * R / 2 ^ 24 + 1 / 2 ^ 149) := by
    have := (abs_le.mp eb).2
    linarith
  have hXb : |t| * b ≤ |t| * (R + (9 / 8 * R / 2 ^ 24 + 1 / 2 ^ 149)) :=
    mul_le_mul_of_nonneg_left hbR hX0
  have hXR : |t| * R ≤ (|T| + (|T| / 2 ^ 24 + 2 * |cx| / 2 ^ 24 + 3 / 2 ^ 150)) * R :=
    mul_le_mul_of_nonneg_right hX hR0.le
  have hdR : |t - T| * R ≤ (|T| / 2 ^ 24 + 2 * |cx| / 2 ^ 24 + 3 / 2 ^ 150) * R :=
    mul_le_mul_of_nonneg_right hd hR0.le
  have tri : |e - T * R| ≤ |e - t * b| + |t| * |b - R| + |t - T| * R := by
    have e1 : e - T * R = (e - t * b) + (t * (b - R) + (t - T) * R) := by ring
    rw [e1]
    calc |e - t * b + (t * (b - R) + (t - T) * R)|
        ≤ |e - t * b| + |t * (b - R) + (t - T) * R| := abs_add _ _
      _ ≤ |e - t * b| + (|t * (b - R)| + |(t - T) * R|) := by
          linarith [abs_add (t * (b - R)) ((t - T) * R)]
      _ = |e - t * b| + |t| * |b - R| + |t - T| * R := by
          rw [abs_mul, abs_mul, abs_of_pos hR0]; ring
  have hXe : |t| * |b - R| ≤ |t| * (9 / 8 * R / 2 ^ 24 + 1 / 2 ^ 149) :=
    mul_le_mul_of_nonneg_left eb hX0
  -- the atoms: everything below is linear in them
  have a0 : 0 ≤ |T| * R := mul_nonneg hu0 hR0.le
  have c0 : 0 ≤ |cx| * R := mul_nonneg hw0 hR0.le
  have p0 : 0 ≤ |t| * R := mul_nonneg hX0 hR0.le
  generalize hp : |t| * R = P at *
  generalize ha : |T| * R = a at *
  generalize hcw : |cx| * R = w at *
  have hXR' : P ≤ a + a / 2 ^ 24 + 2 * w / 2 ^ 24 + 3 / 2 ^ 150 := by
    have : (|T| + (|T| / 2 ^ 24 + 2 * |cx| / 2 ^ 24 + 3 / 2 ^ 150)) * R
        = |T| * R + |T| * R / 2 ^ 24 + 2 * (|cx| * R) / 2 ^ 24 + 3 / 2 ^ 150 * R := by ring
    rw [this, ha, hcw] at hXR
    have : (3 : ℚ) / 2 ^ 150 * R ≤ 3 / 2 ^ 150 := by
      have := mul_le_mul_of_nonneg_left hR1 (show (0 : ℚ) ≤ 3 / 2 ^ 150 by positivity)
      linarith
    linarith
  have hdR' : |t - T| * R ≤ a / 2 ^ 24 + 2 * w / 2 ^ 24 + 3 / 2 ^ 150 := by
    have : (|T| / 2 ^ 24 + 2 * |cx| / 2 ^ 24 + 3 / 2 ^ 150) * R
        = |T| * R / 2 ^ 24 + 2 * (|cx| * R) / 2 ^ 24 + 3 / 2 ^ 150 * R := by ring
    rw [this, ha, hcw] at hdR
    have : (3 : ℚ) / 2 ^ 150 * R ≤ 3 / 2 ^ 150 := by
      have := mul_le_mul_of_nonneg_left hR1 (show (0 : ℚ) ≤ 3 / 2 ^ 150 by positivity)
      linarith
    linarith
  have hXb' : |t| * b ≤ P + 9 / 8 * P / 2 ^ 24 + |t| / 2 ^ 149 := by
    have : |t| * (R + (9 / 8 * R / 2 ^ 24 + 1 / 2 ^ 149))
        = |t| * R + 9 / 8 * (|t| * R) / 2 ^ 24 + |t| / 2 ^ 149 := by ring
    rw [this, hp] at hXb
    exact hXb
  have hXe' : |t| * |b - R| ≤ 9 / 8 * P / 2 ^ 24 + |t| / 2 ^ 149 := by
    have : |t| * (9 / 8 * R / 2 ^ 24 + 1 / 2 ^ 149)
        = 9 / 8 * (|t| * R) / 2 ^ 24 + |t| / 2 ^ 149 := by ring
    rw [this, hp] at hXe
    exact hXe
  have hee : |e - t * b| ≤ (P + 9 / 8 * P / 2 ^ 24 + |t| / 2 ^ 149) / 2 ^ 24 + 1 / 2 ^ 150 := by
    have := div_le_div_of_nonneg_right hXb' (show (0 : ℚ) ≤ 2 ^ 24 by positivity)
    linarith
  have hXs : |t| / 2 ^ 149 ≤ 2 ^ 21 / 2 ^ 149 :=
    div_le_div_of_nonneg_right tb (by positivity)
  have n1 : (P + 9 / 8 * P / 2 ^ 24 + |t| / 2 ^ 149) / 2 ^ 24
      = P / 2 ^ 24 + 9 / 8 * P / 2 ^ 48 + |t| / 2 ^ 149 / 2 ^ 24 := by ring
  have n2 : |t| / 2 ^ 149 / 2 ^ 24 ≤ |t| / 2 ^ 149 :=
    div_le_self (by positivity) (by norm_num)
  have n3 : 9 / 8 * P / 2 ^ 48 ≤ 1 / 8 * P / 2 ^ 24 := by
    have : (9 / 8 * P / 2 ^ 48 : ℚ) = P * (9 / 8 / 2 ^ 48) := by ring
    rw [this]
    have : (1 / 8 * P / 2 ^ 24 : ℚ) = P * (1 / 8 / 2 ^ 24) := by ring
    rw [this]
    apply mul_le_mul_of_nonneg_left _ p0
    norm_num
  have n4 : (2 : ℚ) ^ 21 / 2 ^ 149 = 1 / 2 ^ 128 := by norm_num
  have n5 : (1 : ℚ) / 2 ^ 150 + 1 / 2 ^ 128 + 1 / 2 ^ 128 + 3 / 2 ^ 150 + 1 / 2 ^ 150
      ≤ 1 / 2 ^ 126 := by norm_num
  -- P in terms of a and w, scaled
  have n6 : (9 / 4 : ℚ) * P / 2 ^ 24
      ≤ 9 / 4 * (a + a / 2 ^ 24 + 2 * w / 2 ^ 24 + 3 / 2 ^ 150) / 2 ^ 24 := by
    apply div_le_div_of_nonneg_right _ (by positivity)
    exact mul_le_mul_of_nonneg_left hXR' (by norm_num)
  have n7 : (9 / 4 : ℚ) * (a + a / 2 ^ 24 + 2 * w / 2 ^ 24 + 3 / 2 ^ 150) / 2 ^ 24
      ≤ 5 / 2 * a / 2 ^ 24 + w / 2 ^ 24 + 1 / 2 ^ 150 := by
    have e1 : (9 / 4 : ℚ) * (a + a / 2 ^ 24 + 2 * w / 2 ^ 24 + 3 / 2 ^ 150) / 2 ^ 24
        = a * (9 / 4 * (1 + 1 / 2 ^ 24) / 2 ^ 24) + w * (9 / 2 / 2 ^ 48)
          + 27 / 4 / 2 ^ 174 := by ring
    have e2 : (5 / 2 * a / 2 ^ 24 + w / 2 ^ 24 + 1 / 2 ^ 150 : ℚ)
        = a * (5 / 2 / 2 ^ 24) + w * (1 / 2 ^ 24) + 1 / 2 ^ 150 := by ring
    rw [e1, e2]
    have i1 : a * (9 / 4 * (1 + 1 / 2 ^ 24) / 2 ^ 24) ≤ a * (5 / 2 / 2 ^ 24) :=
      mul_le_mul_of_nonneg_left (by norm_num) a0
    have i2 : w * (9 / 2 / 2 ^ 48) ≤ w * (1 / 2 ^ 24) :=
      mul_le_mul_of_nonneg_left (by norm_num) c0
    have i3 : (27 / 4 / 2 ^ 174 : ℚ) ≤ 1 / 2 ^ 150 := by norm_num
    linarith
  have goal_eq : (a + w) / 2 ^ 22 = 4 * a / 2 ^ 24 + 4 * w / 2 ^ 24 := by ring
  rw [goal_eq]
  linarith

/-! ## Claims on `createCloud` and `createLookup` -/

/-- C1, counterexample: the depth buffer holds unsigned 16-bit integers, and in either
arithmetic the depth value `raw / 1000.0f` of such a sample is never NaN.  So no depth
frame has a NaN entry: the frame `[[0,0],[2000,NaN]]` of the claim cannot be handed to
`createCloud`.  And the rule of the claim fails at the sample of 1 mm, where `d = 0.001`
and the claim has an invalid point: the `float` depth value of that sample is above the
`double` constant it is compared with, the test is false and the point is written as a
valid one. -/
theorem depth_sample_never_nan :
    (¬ ∃ (A : Arith) (depth : Mat Nat) (r c raw : Nat),
        depth.at? r c = some raw ∧ (depthValue A raw).isNaN = true)
      ∧ ((1 : ℚ) / 1000 ≤ 1 / 1000 ∧ invalidDepth Arith.ieee 1 = false
          ∧ (createCloud Arith.ieee [FP.fin 0, FP.fin 1] [FP.fin 0, FP.fin 1]
                ⟨2, 2, [0, 0, 2000, 1]⟩
                ⟨2, 2, [⟨1, 2, 3⟩, ⟨1, 2, 3⟩, ⟨1, 2, 3⟩, ⟨1, 2, 3⟩]⟩
                [badPoint, badPoint, badPoint, badPoint]).map (fun out => out.map (fun p => p.z))
              = some [FP.nan, FP.nan, FP.fin 2, FP.fin (8589935 / 8589934592)]) := by
  refine ⟨?_, le_rfl, by decide!, by decide!⟩
  rintro ⟨A, depth, r, c, raw, -, h⟩
  rw [depthValue_isNaN] at h
  cases h

/-- C1, as amended: for a depth frame, colour frame, lookup tables and cloud of matching
dimensions `createCloud` returns, and for every pixel `(r, c)` whose sample is not 1 mm the
cloud point `r * cols + c` is set as follows.  The depth value `d` is the `float` nearest
to `rawDepth / 1000` and never NaN.  For a sample of 0 mm the point is invalid (`x`, `y`,
`z` NaN, alpha 0); for a sample of 2 mm or more `d` is above `0.001`, `z = d`,
`x = lookupX[c] * d` and `y = lookupY[r] * d` as `float` products.  In particular the 2x2
depth frame `[[0,0],[2000,0]]` mm yields points (0,0), (0,1) and (1,1) invalid and point
(1,0) with `z = 2.0`. -/
theorem createCloud_point_rule (A : Arith) (lookupX lookupY : List FP) (depth : Mat Nat)
    (color : Mat Vec3b) (points : List PointXYZRGBA)
    (h : MatchingDims lookupX lookupY depth color points) :
    (∃ out, createCloud A lookupX lookupY depth color points = some out
      ∧ out.length = depth.rows * depth.cols
      ∧ ∀ r c, r < depth.rows → c < depth.cols →
          ∃ raw itX y p, depth.at? r c = some raw ∧ lookupX[c]? = some itX
            ∧ lookupY[r]? = some y ∧ out[r * depth.cols + c]? = some p
            ∧ depthValue A raw = A.toSingle (((raw % 65536 : Nat) : ℚ) / 1000)
            ∧ (depthValue A raw).isNaN = false
            ∧ (raw % 65536 = 0 → p.Invalid)
            ∧ (2 ≤ raw % 65536 →
                (depthValue A raw).le (depthThreshold A) = false
                  ∧ p.z = depthValue A raw ∧ p.x = A.mul32 itX (depthValue A raw)
                  ∧ p.y = A.mul32 y (depthValue A raw)))
    ∧ (depth = ⟨2, 2, [0, 0, 2000, 0]⟩ →
        ∃ p00 p01 p10 p11, createCloud A lookupX lookupY depth color points
            = some [p00, p01, p10, p11]
          ∧ p00.Invalid ∧ p01.Invalid ∧ p10.z = FP.fin 2 ∧ p11.Invalid) := by
  obtain ⟨out, h1, h2, h3⟩ := createCloud_matching A lookupX lookupY depth color points h
  have hbad : badPoint.Invalid := ⟨rfl, rfl, rfl, rfl⟩
  constructor
  · refine ⟨out, h1, h2, fun r c hr hc => ?_⟩
    obtain ⟨raw, itX, y, px, e1, e2, e3, -, e5⟩ := h3 r c hr hc
    refine ⟨raw, itX, y, _, e1, e2, e3, e5, depthValue_eq A raw, depthValue_isNaN A raw,
      ?_, ?_⟩
    · intro hv
      rw [if_pos (invalidDepth_zero A raw hv)]
      exact hbad
    · intro hv
      have hi := (invalidDepth_of_two_le A raw hv).1
      have hle : (depthValue A raw).le (depthThreshold A) = false := by
        unfold invalidDepth at hi
        rw [Bool.or_eq_false_iff] at hi
        exact hi.2
      rw [hi]
      exact ⟨hle, rfl, rfl, rfl⟩
  · intro hd
    subst hd
    have i0 : invalidDepth A 0 = true := by cases A <;> decide!
    have i2 : invalidDepth A 2000 = false := by cases A <;> decide!
    have z2 : depthValue A 2000 = FP.fin 2 := by cases A <;> decide!
    obtain ⟨r00, x00, y00, c00, a1, -, -, -, a5⟩ := h3 0 0 (by decide) (by decide)
    obtain ⟨r01, x01, y01, c01, b1, -, -, -, b5⟩ := h3 0 1 (by decide) (by decide)
    obtain ⟨r10, x10, y10, c10, c1, -, -, -, c5⟩ := h3 1 0 (by decide) (by decide)
    obtain ⟨r11, x11, y11, c11, d1, -, -, -, d5⟩ := h3 1 1 (by decide) (by decide)
    simp [Mat.at?] at a1 b1 c1 d1
    subst a1 b1 c1 d1
    simp only [i0, i2, if_true, Bool.false_eq_true, if_false] at a5 b5 c5 d5
    simp only [Nat.zero_mul, Nat.one_mul, Nat.zero_add] at a5 b5 c5 d5
    match out, h2, a5, b5, c5, d5 with
    | [q0, q1, q2, q3], _, a5, b5, c5, d5 =>
      simp only [List.getElem?_cons_zero, List.getElem?_cons_succ, Option.some.injEq] at a5 b5 c5 d5
      subst a5 b5 c5 d5
      exact ⟨_, _, _, _, h1, hbad, hbad, z2, hbad⟩

/-- Witness for C1: a 1x2 frame with samples of 0 mm and 1500 mm and matching buffers; the
first point is invalid, the second has `z = 1.5`. -/
theorem createCloud_point_rule_witness :
    ∃ out, createCloud Arith.ieee [FP.fin 1, FP.fin 1] [FP.fin 1] ⟨1, 2, [0, 1500]⟩
        ⟨1, 2, [⟨1, 2, 3⟩, ⟨1, 2, 3⟩]⟩ [badPoint, badPoint] = some out
      ∧ out.length = 1 * 2
      ∧ ∃ p q, out[0]? = some p ∧ out[1]? = some q ∧ p.Invalid ∧ q.z = FP.fin (3 / 2) := by
  obtain ⟨out, h1, h2, h3⟩ := (createCloud_point_rule Arith.ieee [FP.fin 1, FP.fin 1]
    [FP.fin 1] ⟨1, 2, [0, 1500]⟩ ⟨1, 2, [⟨1, 2, 3⟩, ⟨1, 2, 3⟩]⟩ [badPoint, badPoint]
    ⟨rfl, rfl, rfl, rfl, rfl, rfl, rfl⟩).1
  obtain ⟨r0, -, -, p, a1, -, -, a4, -, -, a7, -⟩ := h3 0 0 (by decide) (by decide)
  obtain ⟨r1, x1, y1, q, b1, -, -, b4, -, -, -, b8⟩ := h3 0 1 (by decide) (by decide)
  simp [Mat.at?] at a1 b1
  subst a1
  subst b1
  have hb := b8 (by norm_num)
  have z : depthValue Arith.ieee 1500 = FP.fin (3 / 2) := by decide!
  refine ⟨out, h1, h2, p, q, by simpa using a4, by simpa using b4, a7 rfl, ?_⟩
  rw [hb.2.1, z]

/-- C2: for buffers of matching dimensions, every pixel that `createCloud` treats as valid
(the test `isnan(depthValue) || depthValue <= 0.001` is false) gets `r`, `g`, `b` equal to
channels 2, 1 and 0 of the colour pixel at the same row and column, and alpha 255. -/
theorem createCloud_valid_color (A : Arith) (lookupX lookupY : List FP) (depth : Mat Nat)
    (color : Mat Vec3b) (points : List PointXYZRGBA)
    (h : MatchingDims lookupX lookupY depth color points) :
    ∃ out, createCloud A lookupX lookupY depth color points = some out
      ∧ ∀ r c, r < depth.rows → c < depth.cols →
          ∃ raw px p, depth.at? r c = some raw ∧ color.at? r c = some px
            ∧ out[r * depth.cols + c]? = some p
            ∧ (invalidDepth A raw = false →
                p.r = px.val2 ∧ p.g = px.val1 ∧ p.b = px.val0 ∧ p.a = 255) := by
  obtain ⟨out, h1, -, h3⟩ := createCloud_matching A lookupX lookupY depth color points h
  refine ⟨out, h1, fun r c hr hc => ?_⟩
  obtain ⟨raw, itX, y, px, e1, -, -, e4, e5⟩ := h3 r c hr hc
  refine ⟨raw, px, _, e1, e4, e5, fun hv => ?_⟩
  rw [hv]
  exact ⟨rfl, rfl, rfl, rfl⟩

/-- Witness for C2: a 1x1 frame whose pixel has blue 10, green 20, red 30 and depth
1500 mm gives a point with `r = 30`, `g = 20`, `b = 10`, `a = 255`. -/
theorem createCloud_valid_color_witness :
    ∃ out, createCloud Arith.ieee [FP.fin 1] [FP.fin 1] ⟨1, 1, [1500]⟩ ⟨1, 1, [⟨10, 20, 30⟩]⟩
        [badPoint] = some out
      ∧ ∃ p, out[0]? = some p ∧ p.r = 30 ∧ p.g = 20 ∧ p.b = 10 ∧ p.a = 255 := by
  obtain ⟨out, h1, h2⟩ := createCloud_valid_color Arith.ieee [FP.fin 1] [FP.fin 1]
    ⟨1, 1, [1500]⟩ ⟨1, 1, [⟨10, 20, 30⟩]⟩ [badPoint] ⟨rfl, rfl, rfl, rfl, rfl, rfl, rfl⟩
  obtain ⟨raw, px, p, e1, e2, e3, e4⟩ := h2 0 0 (by decide) (by decide)
  simp [Mat.at?] at e1 e2
  subst e1 e2
  have hv : invalidDepth Arith.ieee 1500 = false := by decide!
  exact ⟨out, h1, p, e3, e4 hv⟩

/-- A callback keeps a log's invariant and makes every logged frame older than the stored
one. -/
theorem logInv_publish {n : Nat} {flag : Bool} {log : List Delivery} (h : LogInv n flag log) :
    LogInv (n + 1) true log :=
  ⟨h.sorted, fun d hd => Nat.le_succ_of_le (h.le d hd), fun _ d hd => Nat.lt_succ_of_le (h.le d hd)⟩

/-- Taking the stored frame while every logged frame is older keeps the log's invariant. -/
theorem logInv_take {n : Nat} {log : List Delivery} (c : Mat Vec3b) (d : Mat Nat)
    (h : ∀ e ∈ log, e.number < n) (hs : (log.map Delivery.number).Pairwise (· < ·)) :
    LogInv n false (log ++ [⟨n, c, d⟩]) := by
  refine ⟨?_, ?_, fun hf => by cases hf⟩
  · rw [List.map_append, List.pairwise_append]
    refine ⟨hs, by simp, ?_⟩
    intro a ha b hb
    simp only [List.map_cons, List.map_nil, List.mem_singleton] at hb
    obtain ⟨e, he, rfl⟩ := List.mem_map.mp ha
    rw [hb]
    exact h e he
  · intro e he
    rcases List.mem_append.mp he with he | he
    · exact (h e he).le
    · simp only [List.mem_singleton] at he
      rw [he]

/-- Every step keeps the invariant. -/
theorem systemInv_step {s : System} (h : SystemInv s) (e : Event) : SystemInv (s.step e) := by
  cases e with
  | callback c d kc kd =>
    exact ⟨logInv_publish h.image, logInv_publish h.cloud, fun _ => rfl, fun _ => rfl, h.cloudEntry⟩
  | imageTest =>
    simp only [System.step]
    split_ifs with hc
    · exact ⟨h.image, h.cloud, fun _ => hc.2, h.cloudLocked, h.cloudEntry⟩
    · exact h
  | imageTake =>
    simp only [System.step]
    split_ifs with hc
    · exact ⟨logInv_take _ _ (h.image.lt (h.imageLocked hc)) h.image.sorted, h.cloud,
        (fun hp => by cases hp), h.cloudLocked, h.cloudEntry⟩
    · exact h
  | cloudEntry =>
    simp only [System.step]
    split_ifs with hc
    · refine ⟨h.image, ?_, h.imageLocked, (fun hp => by cases hp), (fun hp => by cases hp)⟩
      have hnil := h.cloudEntry hc
      exact logInv_take _ _ (by rw [hnil]; simp) (by rw [hnil]; simp)
    · exact h
  | cloudTest =>
    simp only [System.step]
    split_ifs with hc
    · exact ⟨h.image, h.cloud, h.imageLocked, fun _ => hc.2, (fun hp => by cases hp)⟩
    · exact h
  | cloudTake =>
    simp only [System.step]
    split_ifs with hc
    · exact ⟨h.image, logInv_take _ _ (h.cloud.lt (h.cloudLocked hc)) h.cloud.sorted,
        h.imageLocked, (fun hp => by cases hp), (fun hp => by cases hp)⟩
    · exact h

/-- Every interleaving keeps the invariant. -/
theorem systemInv_run {s : System} (h : SystemInv s) (events : List Event) :
    SystemInv (s.run events) := by
  induction events generalizing s with
  | nil => exact h
  | cons e es ih => exact ih (systemInv_step h e)

/-- The invariant holds when the threads start. -/
theorem systemInv_init (r : Receiver) : SystemInv (System.init r) :=
  ⟨⟨by simp [System.init], by simp [System.init], by simp [System.init]⟩,
   ⟨by simp [System.init], by simp [System.init], by simp [System.init]⟩,
   (fun hp => by cases hp), (fun hp => by cases hp), fun _ => rfl⟩

/-- C6: in every interleaving of callbacks and consumer steps, started from any receiver
state, the publication numbers of the frames the image consumer obtained increase
strictly, and so do those of the cloud consumer, its unconditional take at loop entry
included: no frame is delivered twice to the same consumer and none out of order. -/
theorem consumer_frames_strictly_increasing (r : Receiver) (events : List Event) :
    (((System.init r).run events).imageLog.map Delivery.number).Pairwise (· < ·)
      ∧ (((System.init r).run events).cloudLog.map Delivery.number).Pairwise (· < ·) :=
  ⟨(systemInv_run (systemInv_init r) events).image.sorted, (systemInv_run (systemInv_init r) events).cloud.sorted⟩

/-- C5: when the image consumer takes a frame while `updateImage` is set (its test
`if(updateImage)` succeeds and it runs its critical section), it obtains the stored colour
and depth, `updateImage` becomes false, and `updateCloud` (whatever its value), the stored
frame, every other member and the cloud consumer are unchanged; symmetrically a take of the
cloud consumer (in its loop, or the unconditional one at loop entry) clears only
`updateCloud` and leaves `updateImage` (whatever its value), the stored frame and the image
consumer unchanged.  A consumer whose flag is not set obtains nothing and changes
nothing.  Nothing is assumed of the other consumer or of its flag. -/
theorem take_clears_only_own_flag (s : System) :
    (s.imagePc = ImagePc.test → s.recv.updateImage = true →
        (s.run [Event.imageTest, Event.imageTake]).imageLog
            = s.imageLog ++ [⟨s.published, s.recv.color, s.recv.depth⟩]
          ∧ (s.run [Event.imageTest, Event.imageTake]).recv
            = { s.recv with updateImage := false }
          ∧ (s.run [Event.imageTest, Event.imageTake]).recv.updateImage = false
          ∧ (s.run [Event.imageTest, Event.imageTake]).recv.updateCloud = s.recv.updateCloud
          ∧ (s.run [Event.imageTest, Event.imageTake]).recv.color = s.recv.color
          ∧ (s.run [Event.imageTest, Event.imageTake]).recv.depth = s.recv.depth
          ∧ (s.run [Event.imageTest, Event.imageTake]).cloudLog = s.cloudLog
          ∧ (s.run [Event.imageTest, Event.imageTake]).cloudPc = s.cloudPc
          ∧ (s.run [Event.imageTest, Event.imageTake]).published = s.published)
      ∧ (s.cloudPc = CloudPc.test → s.recv.updateCloud = true →
        (s.run [Event.cloudTest, Event.cloudTake]).cloudLog
            = s.cloudLog ++ [⟨s.published, s.recv.color, s.recv.depth⟩]
          ∧ (s.run [Event.cloudTest, Event.cloudTake]).recv
            = { s.recv with updateCloud := false }
          ∧ (s.run [Event.cloudTest, Event.cloudTake]).recv.updateCloud = false
          ∧ (s.run [Event.cloudTest, Event.cloudTake]).recv.updateImage = s.recv.updateImage
          ∧ (s.run [Event.cloudTest, Event.cloudTake]).recv.color = s.recv.color
          ∧ (s.run [Event.cloudTest, Event.cloudTake]).recv.depth = s.recv.depth
          ∧ (s.run [Event.cloudTest, Event.cloudTake]).imageLog = s.imageLog
          ∧ (s.run [Event.cloudTest, Event.cloudTake]).imagePc = s.imagePc
          ∧ (s.run [Event.cloudTest, Event.cloudTake]).published = s.published)
      ∧ (s.cloudPc = CloudPc.entry →
          (s.step Event.cloudEntry).cloudLog
              = s.cloudLog ++ [⟨s.published, s.recv.color, s.recv.depth⟩]
            ∧ (s.step Event.cloudEntry).recv = { s.recv with updateCloud := false }
            ∧ (s.step Event.cloudEntry).recv.updateImage = s.recv.updateImage
            ∧ (s.step Event.cloudEntry).imageLog = s.imageLog
            ∧ (s.step Event.cloudEntry).imagePc = s.imagePc)
      ∧ (s.imagePc = ImagePc.test → s.recv.updateImage = false →
          s.run [Event.imageTest, Event.imageTake] = s)
      ∧ (s.cloudPc = CloudPc.test → s.recv.updateCloud = false →
          s.run [Event.cloudTest, Event.cloudTake] = s)
      ∧ s.recv.imageViewerTake = ((s.recv.color, s.recv.depth), { s.recv with updateImage := false })
      ∧ s.recv.cloudViewerTake = ((s.recv.color, s.recv.depth), { s.recv with updateCloud := false })
      ∧ s.recv.imageViewerTake.2.updateCloud = s.recv.updateCloud
      ∧ s.recv.cloudViewerTake.2.updateImage = s.recv.updateImage := by
  refine ⟨?_, ?_, ?_, ?_, ?_, rfl, rfl, rfl, rfl⟩
  · intro hip hi
    simp [System.run, System.step, Receiver.imageViewerTake, hip, hi]
  · intro hcp hc
    simp [System.run, System.step, Receiver.cloudViewerTake, hcp, hc]
  · intro ht
    simp [System.step, Receiver.cloudViewerTake, ht]
  · intro ht hf
    simp [System.run, System.step, ht, hf]
  · intro ht hf
    simp [System.run, System.step, ht, hf]

/-- Witness for C5: right after a callback and the cloud consumer's entry take,
`updateImage` is set and `updateCloud` is clear; the image consumer then obtains frame
number 1 and `updateCloud` stays clear. -/
theorem take_clears_only_own_flag_witness :
    ((((System.init Receiver.new).step (Event.callback ⟨1, 1, [⟨1, 2, 3⟩]⟩ ⟨1, 1, [1500]⟩
          CameraMatrix.zeros CameraMatrix.zeros)).step Event.cloudEntry).run
        [Event.imageTest, Event.imageTake]).imageLog
        = [] ++ [⟨1, ⟨1, 1, [⟨1, 2, 3⟩]⟩, ⟨1, 1, [1500]⟩⟩]
      ∧ ((((System.init Receiver.new).step (Event.callback ⟨1, 1, [⟨1, 2, 3⟩]⟩ ⟨1, 1, [1500]⟩
          CameraMatrix.zeros CameraMatrix.zeros)).step Event.cloudEntry).run
        [Event.imageTest, Event.imageTake]).recv.updateCloud = false :=
  ⟨((take_clears_only_own_flag
      (((System.init Receiver.new).step (Event.callback ⟨1, 1, [⟨1, 2, 3⟩]⟩ ⟨1, 1, [1500]⟩
          CameraMatrix.zeros CameraMatrix.zeros)).step Event.cloudEntry)).1 rfl rfl).1,
    ((take_clears_only_own_flag
      (((System.init Receiver.new).step (Event.callback ⟨1, 1, [⟨1, 2, 3⟩]⟩ ⟨1, 1, [1500]⟩
          CameraMatrix.zeros CameraMatrix.zeros)).step Event.cloudEntry)).1 rfl rfl).2.2.2.1⟩

/-- The quadratic form of a symmetric positive semidefinite 2x2 matrix is nonnegative. -/
theorem quadForm_nonneg {a b d : ℚ} (ha : 0 ≤ a) (hd : 0 ≤ d) (hdet : b * b ≤ a * d)
    (x y : ℚ) : 0 ≤ a * x ^ 2 + 2 * b * x * y + d * y ^ 2 := by
  rcases ha.eq_or_lt with h0 | hpos
  · subst h0
    have hb : b = 0 := by nlinarith [sq_nonneg b]
    subst hb
    nlinarith [sq_nonneg y, mul_nonneg hd (sq_nonneg y)]
  · have h : 0 ≤ a * (a * x ^ 2 + 2 * b * x * y + d * y ^ 2) := by
      have e : a * (a * x ^ 2 + 2 * b * x * y + d * y ^ 2)
          = (a * x + b * y) ^ 2 + (a * d - b * b) * y ^ 2 := by ring
      rw [e]
      have := mul_nonneg (sub_nonneg.mpr hdet) (sq_nonneg y)
      nlinarith [sq_nonneg (a * x + b * y)]
    exact nonneg_of_mul_nonneg_right h hpos

/-- The predicted error covariance `A P Aᵀ + Q` of `kalman`, entry by entry. -/
theorem predict_errorCovPre (deltaT : ℚ) (KF : KalmanFilter) :
    (kalmanModel deltaT KF).predict.errorCovPre =
      { m00 := KF.errorCovPost.m00 + deltaT * KF.errorCovPost.m10
                + (KF.errorCovPost.m01 + deltaT * KF.errorCovPost.m11) * deltaT
                + deltaT ^ 4 / 4 * Qt
        m01 := KF.errorCovPost.m01 + deltaT * KF.errorCovPost.m11 + deltaT ^ 3 / 2 * Qt
        m10 := KF.errorCovPost.m10 + KF.errorCovPost.m11 * deltaT + deltaT ^ 3 / 2 * Qt
        m11 := KF.errorCovPost.m11 + deltaT ^ 2 * Qt } := by
  simp [kalmanModel, KalmanFilter.predict, Mat22.mul, Mat22.transpose, Mat22.add, Mat22.scale]

/-- The prediction keeps the error covariance symmetric positive semidefinite. -/
theorem predict_psd (deltaT : ℚ) (KF : KalmanFilter) (h : KF.errorCovPost.PosSemidef) :
    (kalmanModel deltaT KF).predict.errorCovPre.PosSemidef := by
  obtain ⟨hs, ha, hd, hdet⟩ := h
  rw [predict_errorCovPre]
  generalize KF.errorCovPost.m00 = a at *
  generalize KF.errorCovPost.m01 = b at *
  generalize KF.errorCovPost.m10 = c at *
  generalize KF.errorCovPost.m11 = d at *
  subst hs
  have hq : (0 : ℚ) ≤ Qt := by norm_num [Qt]
  have q1 := quadForm_nonneg ha hd hdet 1 deltaT
  have q2 := quadForm_nonneg ha hd hdet 1 (deltaT / 2)
  have t2 : 0 ≤ deltaT ^ 2 := sq_nonneg deltaT
  have t4 : 0 ≤ deltaT ^ 4 := by positivity
  refine ⟨by ring, ?_, ?_, ?_⟩
  · show 0 ≤ a + deltaT * b + (b + deltaT * d) * deltaT + deltaT ^ 4 / 4 * Qt
    have : 0 ≤ deltaT ^ 4 / 4 * Qt := by positivity
    nlinarith
  · show 0 ≤ d + deltaT ^ 2 * Qt
    have : 0 ≤ deltaT ^ 2 * Qt := by positivity
    linarith
  · show (b + deltaT * d + deltaT ^ 3 / 2 * Qt) * (b + d * deltaT + deltaT ^ 3 / 2 * Qt)
      ≤ (a + deltaT * b + (b + deltaT * d) * deltaT + deltaT ^ 4 / 4 * Qt)
        * (d + deltaT ^ 2 * Qt)
    have e : (a + deltaT * b + (b + deltaT * d) * deltaT + deltaT ^ 4 / 4 * Qt)
          * (d + deltaT ^ 2 * Qt)
        - (b + deltaT * d + deltaT ^ 3 / 2 * Qt) * (b + d * deltaT + deltaT ^ 3 / 2 * Qt)
        = (a * d - b * b)
          + Qt * deltaT ^ 2 * (a * 1 ^ 2 + 2 * b * 1 * (deltaT / 2) + d * (deltaT / 2) ^ 2) := by
      ring
    have : 0 ≤ Qt * deltaT ^ 2 * (a * 1 ^ 2 + 2 * b * 1 * (deltaT / 2) + d * (deltaT / 2) ^ 2) :=
      mul_nonneg (mul_nonneg hq t2) q2
    linarith

/-- For a positive time step the predicted position variance is positive. -/
theorem predict_variance_pos (deltaT : ℚ) (KF : KalmanFilter) (h : KF.errorCovPost.PosSemidef)
    (hdt : 0 < deltaT) : 0 < (kalmanModel deltaT KF).predict.errorCovPre.m00 := by
  obtain ⟨hs, ha, hd, hdet⟩ := h
  rw [predict_errorCovPre]
  generalize KF.errorCovPost.m00 = a at *
  generalize KF.errorCovPost.m01 = b at *
  generalize KF.errorCovPost.m10 = c at *
  generalize KF.errorCovPost.m11 = d at *
  subst hs
  have q1 := quadForm_nonneg ha hd hdet 1 deltaT
  have : 0 < deltaT ^ 4 / 4 * Qt := by
    have : (0 : ℚ) < Qt := by norm_num [Qt]
    positivity
  show 0 < a + deltaT * b + (b + deltaT * d) * deltaT + deltaT ^ 4 / 4 * Qt
  nlinarith

/-- The assignments of `kalman` and the prediction leave the measurement model alone. -/
theorem kalmanModel_measurement (deltaT : ℚ) (KF : KalmanFilter) :
    (kalmanModel deltaT KF).predict.measurementMatrix = KF.measurementMatrix
      ∧ (kalmanModel deltaT KF).predict.measurementNoiseCov = KF.measurementNoiseCov := by
  simp [kalmanModel, KalmanFilter.predict]

/-- The gain of the correction for a position-only measurement with noise `Rt`. -/
theorem correct_gain (KF : KalmanFilter) (z : ℚ) (hH : KF.measurementMatrix = ⟨1, 0⟩)
    (hR : KF.measurementNoiseCov = Rt) :
    (KF.correct z).gain =
      ⟨KF.errorCovPre.m00 / (KF.errorCovPre.m00 + Rt),
       KF.errorCovPre.m01 / (KF.errorCovPre.m00 + Rt)⟩ := by
  simp [KalmanFilter.correct, hH, hR, Mat12.mulMat, Mat12.mulTranspose]

/-- The corrected position for a position-only measurement with noise `Rt`. -/
theorem correct_statePost (KF : KalmanFilter) (z : ℚ) (hH : KF.measurementMatrix = ⟨1, 0⟩)
    (hR : KF.measurementNoiseCov = Rt) :
    (KF.correct z).statePost.x0 =
      KF.statePre.x0 + KF.errorCovPre.m00 / (KF.errorCovPre.m00 + Rt) * (z - KF.statePre.x0) := by
  simp [KalmanFilter.correct, hH, hR, Mat12.mulMat, Mat12.mulTranspose, Mat12.mulVec]

/-- The correction keeps the error covariance symmetric positive semidefinite. -/
theorem correct_psd (KF : KalmanFilter) (z : ℚ) (hH : KF.measurementMatrix = ⟨1, 0⟩)
    (hR : KF.measurementNoiseCov = Rt) (h : KF.errorCovPre.PosSemidef) :
    (KF.correct z).errorCovPost.PosSemidef := by
  obtain ⟨hs, ha, hd, hdet⟩ := h
  have hRt : (0 : ℚ) < Rt := by norm_num [Rt]
  have hpos : 0 < KF.errorCovPre.m00 + Rt := by linarith
  have hne : KF.errorCovPre.m00 + Rt ≠ 0 := ne_of_gt hpos
  have e : (KF.correct z).errorCovPost =
      { m00 := Rt * KF.errorCovPre.m00 / (KF.errorCovPre.m00 + Rt)
        m01 := Rt * KF.errorCovPre.m01 / (KF.errorCovPre.m00 + Rt)
        m10 := Rt * KF.errorCovPre.m10 / (KF.errorCovPre.m00 + Rt)
        m11 := (KF.errorCovPre.m00 * KF.errorCovPre.m11
                  - KF.errorCovPre.m01 * KF.errorCovPre.m10 + Rt * KF.errorCovPre.m11)
                / (KF.errorCovPre.m00 + Rt) } := by
    simp only [KalmanFilter.correct, hH, hR, Mat12.mulMat, Mat12.mulTranspose, Mat22.sub,
      Vec2.mulRow, Mat22.mk.injEq]
    refine ⟨?_, ?_, ?_, ?_⟩ <;> field_simp <;> (try rw [hs]) <;> ring
  rw [e]
  generalize KF.errorCovPre.m00 = a at *
  generalize KF.errorCovPre.m01 = b at *
  generalize KF.errorCovPre.m10 = c at *
  generalize KF.errorCovPre.m11 = d at *
  subst hs
  have hnum : 0 ≤ a * d - b * b + Rt * d := by nlinarith [mul_nonneg hRt.le hd]
  refine ⟨rfl, div_nonneg (mul_nonneg hRt.le ha) hpos.le, div_nonneg hnum hpos.le, ?_⟩
  show Rt * b / (a + Rt) * (Rt * b / (a + Rt)) ≤
    Rt * a / (a + Rt) * ((a * d - b * b + Rt * d) / (a + Rt))
  rw [div_mul_div_comm, div_mul_div_comm]
  apply div_le_div_of_nonneg_right _ (mul_pos hpos hpos).le
  have h1 : 0 ≤ Rt * a * (a * d - b * b) :=
    mul_nonneg (mul_nonneg hRt.le ha) (sub_nonneg.mpr hdet)
  have h2 : 0 ≤ Rt * Rt * (a * d - b * b) :=
    mul_nonneg (mul_nonneg hRt.le hRt.le) (sub_nonneg.mpr hdet)
  nlinarith

/-- A call of `kalman` keeps the invariant of the tracker. -/
theorem kalman_inv (deltaT z : ℚ) (KF : KalmanFilter) (h : TrackerInv KF) :
    TrackerInv (kalman deltaT z KF).1 := by
  have hm := kalmanModel_measurement deltaT KF
  have hH : (kalmanModel deltaT KF).predict.measurementMatrix = ⟨1, 0⟩ := by
    rw [hm.1, h.measurement]
  have hR : (kalmanModel deltaT KF).predict.measurementNoiseCov = Rt := by
    rw [hm.2, h.noise]
  refine ⟨?_, ?_, ?_⟩
  · show ((kalmanModel deltaT KF).predict.correct z).measurementMatrix = _
    simpa [KalmanFilter.correct] using hH
  · show ((kalmanModel deltaT KF).predict.correct z).measurementNoiseCov = _
    simpa [KalmanFilter.correct] using hR
  · exact correct_psd _ z hH hR (predict_psd deltaT KF h.psd)

/-- The set-up of `main` satisfies the invariant of the tracker. -/
theorem mainKF_inv : TrackerInv mainKF := by
  refine ⟨rfl, rfl, ?_⟩
  simp [Mat22.PosSemidef, mainKF, Mat22.identity]

/-- Every reachable filter state satisfies the invariant of the tracker. -/
theorem reachable_inv {KF : KalmanFilter} (h : Reachable KF) : TrackerInv KF := by
  induction h with
  | main => exact mainKF_inv
  | kalman deltaT z KF _ ih => exact kalman_inv deltaT z KF ih

/-- A finite result of a narrowing to `float` is a `float`: narrowing leaves it as it is. -/
theorem Arith.narrow_fin_idem (A : Arith) {x : FP} {v : ℚ}
    (h : x.narrow A.toSingle = FP.fin v) : A.toSingle v = FP.fin v := by
  cases x with
  | nan => cases h
  | inf s => cases h
  | fin q => exact A.toSingle_idem h

/-- The value `1 * a + 0 * b` in `float` arithmetic, for a `float` `a` and a finite `b`. -/
theorem Arith.dot32_one_zero (A : Arith) {a b : ℚ} (ha : A.toSingle a = FP.fin a) :
    A.dot32 (FP.fin 1) (FP.fin a) (FP.fin 0) (FP.fin b) = FP.fin a := by
  simp [Arith.dot32, Arith.add32, Arith.mul32, FP.mul, FP.add, FP.narrow, ha, toSingle_zero]

/-- The value `a * 1 + b * 0` in `float` arithmetic, for a `float` `a` and a finite `b`. -/
theorem Arith.dot32_one_zero_right (A : Arith) {a b : ℚ} (ha : A.toSingle a = FP.fin a) :
    A.dot32 (FP.fin a) (FP.fin 1) (FP.fin b) (FP.fin 0) = FP.fin a := by
  simp [Arith.dot32, Arith.add32, Arith.mul32, FP.mul, FP.add, FP.narrow, ha, toSingle_zero]

/-- The quotient of a non-negative `float` by the `float` sum of itself and a positive
number is a `float` between 0 and 1. -/
theorem gain_between (A : Arith) {P R : ℚ} (hP : A.toSingle P = FP.fin P) (hP0 : 0 ≤ P)
    (hR : 0 < R) (hRf : A.toSingle R = FP.fin R) :
    ∃ K : ℚ, A.div32 (FP.fin P) (A.add32 (FP.fin P) (FP.fin R)) = FP.fin K
      ∧ 0 ≤ K ∧ K ≤ 1 ∧ A.toSingle K = FP.fin K := by
  have h0 : A.toSingle 0 = FP.fin 0 := toSingle_zero A
  have h1 : A.toSingle 1 = FP.fin 1 := by cases A <;> decide!
  have hS1 : (A.toSingle P).le (A.toSingle (P + R)) = true := A.toSingle_mono (by linarith)
  have hS2 : (A.toSingle R).le (A.toSingle (P + R)) = true := A.toSingle_mono (by linarith)
  rw [hP] at hS1
  rw [hRf] at hS2
  simp only [Arith.add32, FP.add, FP.narrow]
  cases hS : A.toSingle (P + R) with
  | nan => rw [hS] at hS1; simp [FP.le] at hS1
  | inf s =>
    rw [hS] at hS1
    have : s = false := by simpa [FP.le] using hS1
    subst this
    exact ⟨0, by simp [Arith.div32, FP.div, FP.narrow, h0], le_rfl, by norm_num, h0⟩
  | fin S =>
    rw [hS] at hS1 hS2
    have hPS : P ≤ S := by simpa [FP.le] using hS1
    have hRS : R ≤ S := by simpa [FP.le] using hS2
    have hSpos : 0 < S := lt_of_lt_of_le hR hRS
    have hq0 : 0 ≤ P / S := div_nonneg hP0 hSpos.le
    have hq1 : P / S ≤ 1 := by rw [div_le_one hSpos]; exact hPS
    have m0 := A.toSingle_mono hq0
    have m1 := A.toSingle_mono hq1
    rw [h0] at m0
    rw [h1] at m1
    obtain ⟨K, hK, k0, k1⟩ := FP.fin_of_between m0 m1
    refine ⟨K, ?_, k0, k1, A.toSingle_idem hK⟩
    simp [Arith.div32, FP.div, FP.narrow, hSpos.ne', hK]

/-- The `float` value `pred + K * (z - pred)` with `0 <= K <= 1`, when the `float`
difference `z - pred` is finite: it lies between `pred` and the value for `K = 1`. -/
theorem correction_between (A : Arith) {pred K zq d : ℚ} (hpred : A.toSingle pred = FP.fin pred)
    (hK0 : 0 ≤ K) (hK1 : K ≤ 1) (hd : A.sub32 (FP.fin zq) (FP.fin pred) = FP.fin d) :
    (pred ≤ zq →
        (FP.fin pred).le (A.add32 (FP.fin pred) (A.mul32 (FP.fin K) (FP.fin d))) = true
          ∧ (A.add32 (FP.fin pred) (A.mul32 (FP.fin K) (FP.fin d))).le
              (A.add32 (FP.fin pred) (FP.fin d)) = true)
      ∧ (zq ≤ pred →
        (A.add32 (FP.fin pred) (FP.fin d)).le
              (A.add32 (FP.fin pred) (A.mul32 (FP.fin K) (FP.fin d))) = true
          ∧ (A.add32 (FP.fin pred) (A.mul32 (FP.fin K) (FP.fin d))).le (FP.fin pred) = true) := by
  have h0 : A.toSingle 0 = FP.fin 0 := toSingle_zero A
  have hdf : A.toSingle d = FP.fin d := A.narrow_fin_idem hd
  have hd' : A.toSingle (zq - pred) = FP.fin d := by
    simpa [Arith.sub32, FP.sub, FP.narrow] using hd
  simp only [Arith.add32, Arith.mul32, FP.mul, FP.add, FP.narrow]
  constructor
  · intro hle
    have hd0 : 0 ≤ d := by
      have := A.toSingle_mono (show (0 : ℚ) ≤ zq - pred by linarith)
      rw [h0, hd'] at this
      simpa [FP.le] using this
    have g0 := A.toSingle_mono (show (0 : ℚ) ≤ K * d from mul_nonneg hK0 hd0)
    have g1 := A.toSingle_mono (show K * d ≤ d by nlinarith)
    rw [h0] at g0
    rw [hdf] at g1
    obtain ⟨g, hg, gl, gu⟩ := FP.fin_of_between g0 g1
    rw [hg]
    simp only [FP.narrow, FP.add]
    have c0 := A.toSingle_mono (show pred ≤ pred + g by linarith)
    have c1 := A.toSingle_mono (show pred + g ≤ pred + d by linarith)
    rw [hpred] at c0
    exact ⟨c0, c1⟩
  · intro hle
    have hd0 : d ≤ 0 := by
      have := A.toSingle_mono (show zq - pred ≤ (0 : ℚ) by linarith)
      rw [h0, hd'] at this
      simpa [FP.le] using this
    have g0 := A.toSingle_mono (show K * d ≤ (0 : ℚ) by nlinarith)
    have g1 := A.toSingle_mono (show d ≤ K * d by nlinarith)
    rw [h0] at g0
    rw [hdf] at g1
    obtain ⟨g, hg, gl, gu⟩ := FP.fin_of_between g1 g0
    rw [hg]
    simp only [FP.narrow, FP.add]
    have c0 := A.toSingle_mono (show pred + g ≤ pred by linarith)
    have c1 := A.toSingle_mono (show pred + d ≤ pred + g by linarith)
    rw [hpred] at c0
    exact ⟨c1, c0⟩

/-- The assignments of `kalman`, the prediction and the correction leave the measurement
model alone. -/
theorem kalmanF_measurement (A : Arith) (deltaT z : FP) (KF : KalmanFilterF) :
    (kalmanF A deltaT z KF).1.measurementMatrix = KF.measurementMatrix
      ∧ (kalmanF A deltaT z KF).1.measurementNoiseCov = KF.measurementNoiseCov
      ∧ ((kalmanModelF A deltaT KF).predict A).measurementMatrix = KF.measurementMatrix
      ∧ ((kalmanModelF A deltaT KF).predict A).measurementNoiseCov = KF.measurementNoiseCov := by
  simp [kalmanF, kalmanModelF, KalmanFilterF.predict, KalmanFilterF.correct]

/-- Every filter state reachable in the machine arithmetic has the measurement model of
`main`: position only, noise `Rt`. -/
theorem reachableF_measurement {A : Arith} {KF : KalmanFilterF} (h : ReachableF A KF) :
    KF.measurementMatrix = ⟨FP.fin 1, FP.fin 0⟩ ∧ KF.measurementNoiseCov = FP.fin Rt := by
  induction h with
  | main => exact ⟨rfl, rfl⟩
  | kalman deltaT z KF _ ih =>
    have := kalmanF_measurement A deltaT z KF
    rw [this.1, this.2.1]
    exact ih

/-- In exact arithmetic the assignments of `kalman` in the machine model are those of the
model over the rationals. -/
theorem kalmanModelF_exact (deltaT : ℚ) (KF : KalmanFilter) :
    kalmanModelF Arith.exact (FP.fin deltaT) KF.toF = (kalmanModel deltaT KF).toF := by
  simp [kalmanModelF, kalmanModel, KalmanFilter.toF, Mat22.toF, Mat22.scale, Arith.single,
    Arith.div64, Arith.mul32, FP.pow, FP.narrow, FP.div, FP.mul, Arith.toDouble, Arith.toSingle]

/-- In exact arithmetic the prediction of the machine model is the one over the
rationals. -/
theorem predictF_exact (KF : KalmanFilter) :
    KF.toF.predict Arith.exact = KF.predict.toF := by
  simp [KalmanFilterF.predict, KalmanFilter.predict, KalmanFilter.toF, Mat22.toF, Vec2.toF,
    Mat22.mul, Mat22.transpose, Mat22.add, Mat22.mulVec, Arith.dot32, Arith.add32, Arith.mul32,
    FP.narrow, FP.add, FP.mul, Arith.toSingle]

/-- In exact arithmetic the correction of the machine model is the one over the rationals,
when the innovation variance is not zero. -/
theorem correctF_exact (KF : KalmanFilter) (z : ℚ)
    (h : (KF.measurementMatrix.mulMat KF.errorCovPre).mulTranspose KF.measurementMatrix
      + KF.measurementNoiseCov ≠ 0) :
    KF.toF.correct Arith.exact (FP.fin z) = (KF.correct z).toF := by
  simp only [Mat12.mulMat, Mat12.mulTranspose] at h
  simp [KalmanFilterF.correct, KalmanFilter.correct, KalmanFilter.toF, Mat22.toF, Vec2.toF,
    Mat12.toF, Mat12.mulMat, Mat12.mulTranspose, Mat12.mulVec, Mat22.sub, Vec2.mulRow,
    Arith.dot32, Arith.add32, Arith.mul32, Arith.sub32, Arith.div32,
    FP.narrow, FP.add, FP.mul, FP.sub, FP.div, Arith.toSingle, h]

/-- In exact arithmetic, from a state with the measurement model of `main` and a positive
semidefinite error covariance, `kalman` in the machine model is `kalman` over the
rationals. -/
theorem kalmanF_exact (deltaT z : ℚ) (KF : KalmanFilter) (h : TrackerInv KF) :
    kalmanF Arith.exact (FP.fin deltaT) (FP.fin z) KF.toF
      = ((kalman deltaT z KF).1.toF,
          ⟨FP.fin z, FP.fin (kalman deltaT z KF).2.rospred,
            FP.fin (kalman deltaT z KF).2.rosupd⟩) := by
  have hm := kalmanModel_measurement deltaT KF
  have hH : (kalmanModel deltaT KF).predict.measurementMatrix = ⟨1, 0⟩ := by
    rw [hm.1, h.measurement]
  have hR : (kalmanModel deltaT KF).predict.measurementNoiseCov = Rt := by
    rw [hm.2, h.noise]
  have hpsd := predict_psd deltaT KF h.psd
  have hne : ((kalmanModel deltaT KF).predict.measurementMatrix.mulMat
      (kalmanModel deltaT KF).predict.errorCovPre).mulTranspose
        (kalmanModel deltaT KF).predict.measurementMatrix
      + (kalmanModel deltaT KF).predict.measurementNoiseCov ≠ 0 := by
    rw [hH, hR]
    simp only [Mat12.mulMat, Mat12.mulTranspose]
    have := hpsd.2.1
    norm_num [Rt]
    linarith
  unfold kalmanF
  simp only
  rw [kalmanModelF_exact, predictF_exact, correctF_exact _ z hne]
  rfl

/-- C10, counterexample: from the prior of `main`, `kalman` with the `float` time step
`deltaT = 100` and observation 700, in single precision.  The predicted position variance
is `P = 37500006400`; the `float` sum `P + Rt` is `P` again, so the gain `P / (P + Rt)` is
exactly 1, not below 1, and the reported correction is the observation itself.  (Were the
variance `10001 + 1500 * 100 ^ 4 / 4` rounded only once, it would be `37500010496`, and
adding `Rt` would leave it unchanged as well.)  With `deltaT = 2 ^ 100` the variance
overflows to infinity and the gain and the correction are NaN. -/
theorem kalman_gain_one :
    (0 : ℚ) < 100 ∧ Arith.ieee.toSingle 100 = FP.fin 100
      ∧ (kalmanF Arith.ieee (FP.fin 100) (FP.fin 700) mainKFF).1.errorCovPre.m00
          = FP.fin 37500006400
      ∧ Arith.ieee.add32 (FP.fin 37500006400) (FP.fin Rt) = FP.fin 37500006400
      ∧ (kalmanF Arith.ieee (FP.fin 100) (FP.fin 700) mainKFF).1.gain.x0 = FP.fin 1
      ∧ (FP.fin 1).lt (FP.fin 1) = false
      ∧ (kalmanF Arith.ieee (FP.fin 100) (FP.fin 700) mainKFF).2.rospred = FP.fin 650
      ∧ (kalmanF Arith.ieee (FP.fin 100) (FP.fin 700) mainKFF).2.rosupd = FP.fin 700
      ∧ Arith.ieee.toSingle (10001 + 1500 * 100 ^ 4 / 4) = FP.fin 37500010496
      ∧ Arith.ieee.add32 (FP.fin 37500010496) (FP.fin Rt) = FP.fin 37500010496
      ∧ Arith.ieee.toSingle (2 ^ 100) = FP.fin (2 ^ 100)
      ∧ (kalmanF Arith.ieee (FP.fin (2 ^ 100)) (FP.fin 700) mainKFF).1.errorCovPre.m00
          = FP.inf false
      ∧ (kalmanF Arith.ieee (FP.fin (2 ^ 100)) (FP.fin 700) mainKFF).1.gain.x0 = FP.nan
      ∧ (kalmanF Arith.ieee (FP.fin (2 ^ 100)) (FP.fin 700) mainKFF).2.rosupd = FP.nan := by
  refine ⟨by norm_num, by decide!, by decide!, by decide!, by decide!, by decide!, by decide!,
    by decide!, by decide!, by decide!, by decide!, by decide!, by decide!, by decide!⟩

/-- The gain and the correction of `kalman` in exact arithmetic: for a reachable state and
`deltaT > 0` the gain is `P / (P + Rt)`, strictly between 0 and 1, and the correction
`pred + K * (z - pred)` lies between the prediction and the observation. -/
theorem kalman_gain_exact (deltaT z : ℚ) (KF : KalmanFilter) (hKF : Reachable KF)
    (hdt : 0 < deltaT) :
    (kalman deltaT z KF).1.gain.x0
        = (kalman deltaT z KF).1.errorCovPre.m00 / ((kalman deltaT z KF).1.errorCovPre.m00 + Rt)
      ∧ (kalman deltaT z KF).2.rosupd
          = (kalman deltaT z KF).2.rospred
            + (kalman deltaT z KF).1.gain.x0 * (z - (kalman deltaT z KF).2.rospred)
      ∧ 0 < (kalman deltaT z KF).1.gain.x0
      ∧ (kalman deltaT z KF).1.gain.x0 < 1
      ∧ min (kalman deltaT z KF).2.rospred z ≤ (kalman deltaT z KF).2.rosupd
      ∧ (kalman deltaT z KF).2.rosupd ≤ max (kalman deltaT z KF).2.rospred z := by
  have inv := reachable_inv hKF
  have hm := kalmanModel_measurement deltaT KF
  have hH : (kalmanModel deltaT KF).predict.measurementMatrix = ⟨1, 0⟩ := by
    rw [hm.1, inv.measurement]
  have hR : (kalmanModel deltaT KF).predict.measurementNoiseCov = Rt := by
    rw [hm.2, inv.noise]
  have hP := predict_variance_pos deltaT KF inv.psd hdt
  have hRt : (0 : ℚ) < Rt := by norm_num [Rt]
  have e1 : (kalman deltaT z KF).1.errorCovPre = (kalmanModel deltaT KF).predict.errorCovPre := by
    simp [kalman, KalmanFilter.correct]
  have e2 : (kalman deltaT z KF).1.gain = ((kalmanModel deltaT KF).predict.correct z).gain := rfl
  have e3 : (kalman deltaT z KF).2.rospred = (kalmanModel deltaT KF).predict.statePre.x0 := rfl
  have e4 : (kalman deltaT z KF).2.rosupd
      = ((kalmanModel deltaT KF).predict.correct z).statePost.x0 := rfl
  rw [e1, e2, e3, e4, correct_gain _ z hH hR, correct_statePost _ z hH hR]
  generalize (kalmanModel deltaT KF).predict.errorCovPre.m00 = P at *
  generalize (kalmanModel deltaT KF).predict.statePre.x0 = pred at *
  have hK0 : 0 < P / (P + Rt) := div_pos hP (by linarith)
  have hK1 : P / (P + Rt) < 1 := by rw [div_lt_one (by linarith)]; linarith
  refine ⟨rfl, rfl, hK0, hK1, ?_, ?_⟩
  · rcases le_total pred z with h | h
    · rw [min_eq_left h]
      nlinarith [mul_nonneg hK0.le (sub_nonneg.mpr h)]
    · rw [min_eq_right h]
      nlinarith [mul_nonneg (sub_nonneg.mpr hK1.le) (sub_nonneg.mpr h)]
  · rcases le_total pred z with h | h
    · rw [max_eq_right h]
      nlinarith [mul_nonneg (sub_nonneg.mpr hK1.le) (sub_nonneg.mpr h)]
    · rw [max_eq_left h]
      nlinarith [mul_nonneg hK0.le (sub_nonneg.mpr h)]

/-- C10, as amended: in the machine arithmetic (and in exact arithmetic), for every
`deltaT`, every finite observation `z` and every filter state reachable from the prior of
`main` for which the prediction is finite with a position variance `P >= 0`, the reported
prediction is `pred`, the gain is the `float` quotient `K = P / (P + Rt)` of `P` by the
`float` sum `P + Rt`, `Rt = 30`, with `0 <= K <= 1` (both bounds can be attained in single
precision), and the correction reported by `kalman` is the `float` value
`pred + K * (z - pred)`, every operation rounded; when the `float` difference `z - pred`
is finite the correction lies between `pred` and the value `pred + (z - pred)` for gain 1.
In exact arithmetic the machine model is the model over the rationals, and for
`deltaT > 0` and every reachable state `0 < K < 1` and the correction lies between the
prediction and the observation. -/
theorem kalman_correction_gain (A : Arith) (deltaT z : FP) (KF : KalmanFilterF)
    (P p01 p10 p11 pred vel zq : ℚ) (hKF : ReachableF A KF)
    (hP : (kalmanF A deltaT z KF).1.errorCovPre
      = ⟨FP.fin P, FP.fin p01, FP.fin p10, FP.fin p11⟩)
    (hx : (kalmanF A deltaT z KF).1.statePre = ⟨FP.fin pred, FP.fin vel⟩)
    (hz : z = FP.fin zq) (hP0 : 0 ≤ P) :
    Rt = 30
      ∧ (kalmanF A deltaT z KF).2.rospred = FP.fin pred
      ∧ (∃ K : ℚ, (kalmanF A deltaT z KF).1.gain.x0 = FP.fin K
          ∧ FP.fin K = A.div32 (FP.fin P) (A.add32 (FP.fin P) (FP.fin Rt))
          ∧ 0 ≤ K ∧ K ≤ 1
          ∧ (kalmanF A deltaT z KF).2.rosupd
              = A.add32 (FP.fin pred) (A.mul32 (FP.fin K) (A.sub32 (FP.fin zq) (FP.fin pred)))
          ∧ ∀ d : ℚ, A.sub32 (FP.fin zq) (FP.fin pred) = FP.fin d →
              (pred ≤ zq →
                (FP.fin pred).le (kalmanF A deltaT z KF).2.rosupd = true
                  ∧ (kalmanF A deltaT z KF).2.rosupd.le (A.add32 (FP.fin pred) (FP.fin d))
                      = true)
              ∧ (zq ≤ pred →
                (A.add32 (FP.fin pred) (FP.fin d)).le (kalmanF A deltaT z KF).2.rosupd = true
                  ∧ (kalmanF A deltaT z KF).2.rosupd.le (FP.fin pred) = true))
      ∧ (∀ (dt w : ℚ) (KQ : KalmanFilter), Reachable KQ → 0 < dt →
          kalmanF Arith.exact (FP.fin dt) (FP.fin w) KQ.toF
              = ((kalman dt w KQ).1.toF,
                  ⟨FP.fin w, FP.fin (kalman dt w KQ).2.rospred,
                    FP.fin (kalman dt w KQ).2.rosupd⟩)
            ∧ (kalman dt w KQ).1.gain.x0
                = (kalman dt w KQ).1.errorCovPre.m00 / ((kalman dt w KQ).1.errorCovPre.m00 + Rt)
            ∧ (kalman dt w KQ).2.rosupd
                = (kalman dt w KQ).2.rospred
                  + (kalman dt w KQ).1.gain.x0 * (w - (kalman dt w KQ).2.rospred)
            ∧ 0 < (kalman dt w KQ).1.gain.x0
            ∧ (kalman dt w KQ).1.gain.x0 < 1
            ∧ min (kalman dt w KQ).2.rospred w ≤ (kalman dt w KQ).2.rosupd
            ∧ (kalman dt w KQ).2.rosupd ≤ max (kalman dt w KQ).2.rospred w) := by
  obtain ⟨hH, hR⟩ := reachableF_measurement hKF
  have hm := kalmanF_measurement A deltaT z KF
  have hRt : A.toSingle Rt = FP.fin Rt := by cases A <;> decide!
  have hRpos : (0 : ℚ) < Rt := by norm_num [Rt]
  -- the prediction
  have eP : ((kalmanModelF A deltaT KF).predict A).errorCovPre
      = ⟨FP.fin P, FP.fin p01, FP.fin p10, FP.fin p11⟩ := hP
  have ex : ((kalmanModelF A deltaT KF).predict A).statePre = ⟨FP.fin pred, FP.fin vel⟩ := hx
  have eH : ((kalmanModelF A deltaT KF).predict A).measurementMatrix = ⟨FP.fin 1, FP.fin 0⟩ := by
    rw [hm.2.2.1, hH]
  have eR : ((kalmanModelF A deltaT KF).predict A).measurementNoiseCov = FP.fin Rt := by
    rw [hm.2.2.2, hR]
  -- the predicted entries are `float`s
  have fP : A.toSingle P = FP.fin P := by
    have h := congrArg Mat22F.m00 eP
    exact A.narrow_fin_idem h
  have f01 : A.toSingle p01 = FP.fin p01 := by
    have h := congrArg Mat22F.m01 eP
    exact A.narrow_fin_idem h
  have fpred : A.toSingle pred = FP.fin pred := by
    have h := congrArg Vec2F.x0 ex
    exact A.narrow_fin_idem h
  obtain ⟨K, hK, k0, k1, fK⟩ := gain_between A fP hP0 hRpos hRt
  have egain : (kalmanF A deltaT z KF).1.gain.x0 = FP.fin K := by
    show (((kalmanModelF A deltaT KF).predict A).correct A z).gain.x0 = FP.fin K
    simp only [KalmanFilterF.correct, eP, eH, eR, A.dot32_one_zero fP, A.dot32_one_zero f01,
      A.dot32_one_zero_right fP]
    exact hK
  have eupd : (kalmanF A deltaT z KF).2.rosupd
      = A.add32 (FP.fin pred) (A.mul32 (FP.fin K) (A.sub32 (FP.fin zq) (FP.fin pred))) := by
    show (((kalmanModelF A deltaT KF).predict A).correct A z).statePost.x0 = _
    simp only [KalmanFilterF.correct, eP, eH, eR, ex, hz, A.dot32_one_zero fP,
      A.dot32_one_zero f01, A.dot32_one_zero_right fP, A.dot32_one_zero fpred, hK]
  refine ⟨rfl, congrArg Vec2F.x0 ex, ⟨K, egain, hK.symm, k0, k1, eupd, ?_⟩, ?_⟩
  · intro d hd
    rw [eupd, hd]
    exact correction_between A fpred k0 k1 hd
  · intro dt w KQ hKQ hdt
    exact ⟨kalmanF_exact dt w KQ (reachable_inv hKQ), kalman_gain_exact dt w KQ hKQ hdt⟩

/-- Witness for C10: the prior of `main`, the `float` nearest to 0.1 as `deltaT`,
observation 700, in single precision. -/
theorem kalman_correction_gain_witness :
    ∃ K : ℚ, (kalmanF Arith.ieee (FP.fin (13421773 / 134217728)) (FP.fin 700) mainKFF).1.gain.x0
        = FP.fin K ∧ 0 ≤ K ∧ K ≤ 1 := by
  obtain ⟨K, h1, -, h3, h4, -⟩ := (kalman_correction_gain Arith.ieee
    (FP.fin (13421773 / 134217728)) (FP.fin 700) mainKFF
    (8787067 / 8388608) (14260635 / 16777216) (14260635 / 16777216) 16 650 0 700
    ReachableF.main (by decide!) (by decide!) rfl (by norm_num)).2.2.1
  exact ⟨K, h1, h3, h4⟩

/-! ## Claims on `talker` -/

/-- C11, counterexample: when every `open` succeeds, one call of `talker` performs four
writes on four pipes, not three: the observation goes to `/tmp/myrosfifo` and again to
`/tmp/rosobsfifo`. -/
theorem talker_writes_four_fifos :
    (talker ⟨fun _ => 0, fun _ => 3⟩ 1 2 3).2
        = [⟨Fifo.myrosfifo, 1, 4⟩, ⟨Fifo.rosobsfifo, 1, 4⟩, ⟨Fifo.rospredfifo, 2, 4⟩,
            ⟨Fifo.rosupdfifo, 3, 4⟩]
      ∧ (talker ⟨fun _ => 0, fun _ => 3⟩ 1 2 3).2.length ≠ 3 := by
  constructor <;> decide!

/-- C11, as amended: when every `open` succeeds, each call of `talker(rosobs, rospred,
rosupd)` performs exactly one 4-byte write on each of four pipes and no other write: the
observation on `/tmp/myrosfifo` and on `/tmp/rosobsfifo`, the prediction on
`/tmp/rospredfifo` and the correction on `/tmp/rosupdfifo`, in this order; the values
`kalman` passes are its observation, prediction and correction. -/
theorem talker_writes (os : OsEnv) (rosobs rospred rosupd : ℚ)
    (hopen : ∀ f, 0 ≤ os.openResult f) :
    (talker os rosobs rospred rosupd).2
        = [⟨Fifo.myrosfifo, rosobs, 4⟩, ⟨Fifo.rosobsfifo, rosobs, 4⟩,
            ⟨Fifo.rospredfifo, rospred, 4⟩, ⟨Fifo.rosupdfifo, rosupd, 4⟩]
      ∧ (∀ f : Fifo,
          (((talker os rosobs rospred rosupd).2).filter (fun w => decide (w.fifo = f))).length = 1)
      ∧ (∀ (deltaT measurement : ℚ) (KF : KalmanFilter),
          (kalmanTalker os deltaT measurement KF).2
            = [⟨Fifo.myrosfifo, (kalman deltaT measurement KF).2.rosobs, 4⟩,
                ⟨Fifo.rosobsfifo, (kalman deltaT measurement KF).2.rosobs, 4⟩,
                ⟨Fifo.rospredfifo, (kalman deltaT measurement KF).2.rospred, 4⟩,
                ⟨Fifo.rosupdfifo, (kalman deltaT measurement KF).2.rosupd, 4⟩]) := by
  have h : ∀ a b c : ℚ, (talker os a b c).2
      = [⟨Fifo.myrosfifo, a, 4⟩, ⟨Fifo.rosobsfifo, a, 4⟩, ⟨Fifo.rospredfifo, b, 4⟩,
          ⟨Fifo.rosupdfifo, c, 4⟩] := by
    intro a b c
    simp [talker, talkerSend, hopen, sizeofFloat]
  refine ⟨h _ _ _, ?_, fun deltaT measurement KF => ?_⟩
  · intro f
    rw [h]
    cases f <;> simp [List.filter]
  · simp only [kalmanTalker]
    rw [h]

/-- Witness for C11: every `open` returns descriptor 3. -/
theorem talker_writes_witness :
    (talker ⟨fun _ => 0, fun _ => 3⟩ 650 651 652).2
      = [⟨Fifo.myrosfifo, 650, 4⟩, ⟨Fifo.rosobsfifo, 650, 4⟩, ⟨Fifo.rospredfifo, 651, 4⟩,
          ⟨Fifo.rosupdfifo, 652, 4⟩] :=
  (talker_writes ⟨fun _ => 0, fun _ => 3⟩ 650 651 652 (fun _ => by show (0 : Int) ≤ 3; decide)).1

/-- C12, counterexample: when `mkfifo` and `open` fail for every path, `talker` still
returns 0, the value it returns on success, and nothing reaches a pipe. -/
theorem talker_reports_success_on_failure :
    talker ⟨fun _ => -1, fun _ => -1⟩ 650 651 652 = (0, []) := by
  decide!

/-- C12, as amended: `talker` returns 0 whatever `mkfifo` and `open` return, and the
result of `mkfifo` has no influence at all; a pipe whose `open` failed receives no write
and the other pipes are written as usual; `kalman` discards the result, and its filter
update is the same whatever the operating system answers, so the calling loop carries on
as after a success. -/
theorem talker_ignores_failures (os : OsEnv) (rosobs rospred rosupd : ℚ) :
    (talker os rosobs rospred rosupd).1 = 0
      ∧ (∀ mk : Fifo → Int,
          talker ⟨mk, os.openResult⟩ rosobs rospred rosupd = talker os rosobs rospred rosupd)
      ∧ (∀ w ∈ (talker os rosobs rospred rosupd).2, 0 ≤ os.openResult w.fifo)
      ∧ (∀ f : Fifo, 0 ≤ os.openResult f →
          ∃ w ∈ (talker os rosobs rospred rosupd).2, w.fifo = f)
      ∧ (∀ (deltaT measurement : ℚ) (KF : KalmanFilter),
          (kalmanTalker os deltaT measurement KF).1 = (kalman deltaT measurement KF).1) := by
  refine ⟨rfl, fun mk => rfl, ?_, ?_, fun _ _ _ => rfl⟩
  · intro w hw
    simp only [talker, talkerSend, List.mem_append] at hw
    rcases hw with ((hw | hw) | hw) | hw <;>
      · split_ifs at hw with h
        · simp only [List.mem_singleton] at hw
          rw [hw]
          exact h
        · simp at hw
  · intro f hf
    cases f
    · exact ⟨⟨Fifo.myrosfifo, rosobs, sizeofFloat⟩, by simp [talker, talkerSend, hf], rfl⟩
    · exact ⟨⟨Fifo.rosobsfifo, rosobs, sizeofFloat⟩, by simp [talker, talkerSend, hf], rfl⟩
    · exact ⟨⟨Fifo.rospredfifo, rospred, sizeofFloat⟩, by simp [talker, talkerSend, hf], rfl⟩
    · exact ⟨⟨Fifo.rosupdfifo, rosupd, sizeofFloat⟩, by simp [talker, talkerSend, hf], rfl⟩

/-! ## Claims on the face loop of `imageViewer` -/

/-- Inside a dense depth frame the read at an eye centre succeeds. -/
theorem depthAt_some (depth : Mat Nat) (hd : depth.data.length = depth.rows * depth.cols)
    (p : Point) (hp : 0 ≤ p.y ∧ 0 ≤ p.x ∧ p.y.toNat < depth.rows ∧ p.x.toNat < depth.cols) :
    ∃ v, depthAt depth p = some v := by
  obtain ⟨v, hv, -⟩ := mat_at_some depth hd hp.2.2.1 hp.2.2.2
  exact ⟨v % 65536, by simp [depthAt, hp.1, hp.2.1, hv]⟩

/-- The eye loop succeeds when the eye centres are inside the frame; without an eye it
leaves `rosdepth` as it was, otherwise `rosdepth` is the depth at the last eye centre. -/
theorem sampleEyes_some (depth : Mat Nat) (hd : depth.data.length = depth.rows * depth.cols)
    (eyes : List Point)
    (hp : ∀ p ∈ eyes, 0 ≤ p.y ∧ 0 ≤ p.x ∧ p.y.toNat < depth.rows ∧ p.x.toNat < depth.cols)
    (rosdepth : Nat) :
    ∃ v, sampleEyes depth eyes rosdepth = some v
      ∧ (eyes = [] → v = rosdepth)
      ∧ (∀ es p, eyes = es ++ [p] → depthAt depth p = some v) := by
  induction eyes using List.reverseRecOn with
  | nil => exact ⟨rosdepth, rfl, fun _ => rfl, fun es p h => by simp at h⟩
  | append_singleton es p ih =>
    obtain ⟨v0, h0, -, -⟩ := ih (fun q hq => hp q (List.mem_append_left _ hq))
    obtain ⟨v, hv⟩ := depthAt_some depth hd p (hp p (by simp))
    refine ⟨v, ?_, fun h => by simp at h, fun es' p' h => ?_⟩
    · simp only [sampleEyes] at h0 ⊢
      rw [List.foldlM_append, h0]
      simpa using hv
    · obtain ⟨-, hpp⟩ := List.append_inj' h rfl
      simp only [List.cons.injEq, and_true] at hpp
      rw [← hpp]
      exact hv

/-- The face loop from any accumulated state: it succeeds when the eye centres are inside
the frame, makes one call of `kalman` per face, and the `deltaT` of each call is computed
from the two clock readings of its face. -/
theorem faces_foldlM (depth : Mat Nat) (faces : List FaceDetection)
    (h : EyesInFrame depth faces) (acc : Tracker × List KalmanCall) :
    ∃ st calls, faces.foldlM (trackFace depth) acc = some (st, acc.2 ++ calls)
      ∧ calls.map KalmanCall.deltaT = faces.map (fun f => deltaTOf f.start f.finish)
      ∧ calls.length = faces.length := by
  induction faces generalizing acc with
  | nil => exact ⟨acc.1, [], by simp, rfl, rfl⟩
  | cons f fs ih =>
    obtain ⟨v, hv, -, -⟩ := sampleEyes_some depth h.1 f.eyes
      (fun p hp => h.2 f (List.mem_cons_self _ _) p hp) acc.1.rosdepth
    obtain ⟨st, calls, h1, h2, h3⟩ := ih ⟨h.1, fun g hg => h.2 g (List.mem_cons_of_mem _ hg)⟩
      ({ rosdepth := v, KF := (kalman (deltaTOf f.start f.finish) (v : ℚ) acc.1.KF).1 },
        acc.2 ++ [⟨deltaTOf f.start f.finish, (v : ℚ)⟩])
    refine ⟨st, ⟨deltaTOf f.start f.finish, (v : ℚ)⟩ :: calls, ?_, ?_, ?_⟩
    · rw [List.foldlM_cons]
      simp only [trackFace, hv, Option.bind_eq_bind, Option.some_bind]
      rw [h1]
      simp
    · simp [h2]
    · simp [h3]

/-- The face loop of one frame: it succeeds when the eye centres are inside the frame,
makes one call of `kalman` per face, and the `deltaT` of each call is computed from the two
clock readings of its face. -/
theorem imageViewerFaces_calls (depth : Mat Nat) (faces : List FaceDetection)
    (h : EyesInFrame depth faces) (st : Tracker) :
    ∃ st' calls, imageViewerFaces depth faces st = some (st', calls)
      ∧ calls.map KalmanCall.deltaT = faces.map (fun f => deltaTOf f.start f.finish)
      ∧ calls.length = faces.length := by
  obtain ⟨st', calls, h1, h2, h3⟩ := faces_foldlM depth faces h (st, [])
  exact ⟨st', calls, by simpa [imageViewerFaces] using h1, h2, h3⟩

/-- The truncated elapsed time is nonnegative for `start ≤ end` and positive exactly from
one millisecond on. -/
theorem deltaTOf_sign (start finish : Int) (h : start ≤ finish) :
    0 ≤ deltaTOf start finish ∧ (0 < deltaTOf start finish ↔ start + 1000000 ≤ finish) := by
  have h0 : 0 ≤ Int.tdiv (finish - start) 1000000 :=
    Int.tdiv_nonneg (by omega) (by decide)
  have key : 0 < Int.tdiv (finish - start) 1000000 ↔ start + 1000000 ≤ finish := by
    rw [Int.tdiv_eq_ediv (by omega : 0 ≤ finish - start) (by decide)]
    omega
  constructor
  · unfold deltaTOf
    have : (0 : ℚ) ≤ ((Int.tdiv (finish - start) 1000000 : Int) : ℚ) := by exact_mod_cast h0
    positivity
  · unfold deltaTOf
    rw [← key]
    constructor
    · intro hpos
      have : (0 : ℚ) < ((Int.tdiv (finish - start) 1000000 : Int) : ℚ) := by
        by_contra hn
        have hn' : ((Int.tdiv (finish - start) 1000000 : Int) : ℚ) ≤ 0 := not_lt.mp hn
        have : ((Int.tdiv (finish - start) 1000000 : Int) : ℚ) / 1000 ≤ 0 :=
          div_nonpos_of_nonpos_of_nonneg hn' (by norm_num)
        linarith
      exact_mod_cast this
    · intro hpos
      have : (0 : ℚ) < ((Int.tdiv (finish - start) 1000000 : Int) : ℚ) := by exact_mod_cast hpos
      positivity

/-- The face loops of successive frames from any accumulated calls: they succeed when the
eye centres are inside their frames, and the `deltaT` of each call is computed from the two
clock readings of its own face. -/
theorem frames_foldlM (frames : List (Mat Nat × List FaceDetection))
    (h : ∀ fr ∈ frames, EyesInFrame fr.1 fr.2) (acc : Tracker × List KalmanCall) :
    ∃ st calls,
      frames.foldlM
          (fun acc fr => (imageViewerFaces fr.1 fr.2 acc.1).map (fun r => (r.1, acc.2 ++ r.2)))
          acc = some (st, acc.2 ++ calls)
      ∧ calls.map KalmanCall.deltaT
          = (frames.map (fun fr => fr.2.map (fun f => deltaTOf f.start f.finish))).flatten := by
  induction frames generalizing acc with
  | nil => exact ⟨acc.1, [], by simp, rfl⟩
  | cons fr frs ih =>
    obtain ⟨st1, calls1, h1, h2, -⟩ :=
      imageViewerFaces_calls fr.1 fr.2 (h fr (List.mem_cons_self _ _)) acc.1
    obtain ⟨st, calls, g1, g2⟩ := ih (fun x hx => h x (List.mem_cons_of_mem _ hx))
      (st1, acc.2 ++ calls1)
    refine ⟨st, calls1 ++ calls, ?_, ?_⟩
    · rw [List.foldlM_cons, h1]
      simp only [Option.map_some', Option.bind_eq_bind, Option.some_bind]
      rw [g1, List.append_assoc]
    · simp [h2, g2]

/-- C13, counterexample: with the two clock readings equal, or less than a millisecond
apart, `imageViewer` passes `deltaT = 0` to `kalman`. -/
theorem kalman_deltaT_can_be_zero :
    (imageViewerFaces ⟨1, 1, [500]⟩ [⟨[], 5, 5⟩] ⟨0, mainKF⟩).map (fun r => r.2)
        = some [⟨0, 0⟩]
      ∧ (imageViewerFaces ⟨1, 1, [500]⟩ [⟨[⟨0, 0⟩], 0, 999999⟩] ⟨0, mainKF⟩).map (fun r => r.2)
        = some [⟨0, 500⟩] := by
  constructor <;> decide!

/-- C13, as amended: every `deltaT` that `imageViewer` passes to `kalman` is the time
between the two clock readings taken around the eye detection of the face, truncated to
whole milliseconds and divided by 1000; for readings with `end >= start` it is greater
than or equal to 0, and strictly greater than 0 exactly when the readings are at least one
millisecond apart. -/
theorem kalman_deltaT_nonneg (depth : Mat Nat) (faces : List FaceDetection) (st : Tracker)
    (h : EyesInFrame depth faces) (hclock : ∀ f ∈ faces, f.start ≤ f.finish) :
    ∃ st' calls, imageViewerFaces depth faces st = some (st', calls)
      ∧ calls.map KalmanCall.deltaT = faces.map (fun f => deltaTOf f.start f.finish)
      ∧ (∀ c ∈ calls, 0 ≤ c.deltaT)
      ∧ ((∀ f ∈ faces, f.start + 1000000 ≤ f.finish) → ∀ c ∈ calls, 0 < c.deltaT)
      ∧ (∀ start finish : Int, start ≤ finish →
          0 ≤ deltaTOf start finish
            ∧ (0 < deltaTOf start finish ↔ start + 1000000 ≤ finish)) := by
  obtain ⟨st', calls, h1, h2, -⟩ := imageViewerFaces_calls depth faces h st
  have hmem : ∀ c ∈ calls, ∃ f ∈ faces, c.deltaT = deltaTOf f.start f.finish := by
    intro c hc
    have : c.deltaT ∈ calls.map KalmanCall.deltaT := List.mem_map_of_mem _ hc
    rw [h2] at this
    obtain ⟨f, hf, e⟩ := List.mem_map.mp this
    exact ⟨f, hf, e.symm⟩
  refine ⟨st', calls, h1, h2, ?_, ?_, fun s e hse => deltaTOf_sign s e hse⟩
  · intro c hc
    obtain ⟨f, hf, e⟩ := hmem c hc
    rw [e]
    exact (deltaTOf_sign _ _ (hclock f hf)).1
  · intro hall c hc
    obtain ⟨f, hf, e⟩ := hmem c hc
    rw [e]
    exact (deltaTOf_sign _ _ (hclock f hf)).2.mpr (hall f hf)

/-- Witness for C13: one face whose eye detection took 2.5 ms gives `deltaT = 0.002`. -/
theorem kalman_deltaT_nonneg_witness :
    ∃ st' calls, imageViewerFaces ⟨1, 1, [500]⟩ [⟨[⟨0, 0⟩], 0, 2500000⟩] ⟨0, mainKF⟩
        = some (st', calls)
      ∧ calls.map KalmanCall.deltaT = [1 / 500] := by
  obtain ⟨st', calls, h1, h2, -⟩ := kalman_deltaT_nonneg ⟨1, 1, [500]⟩
    [⟨[⟨0, 0⟩], 0, 2500000⟩] ⟨0, mainKF⟩
    ⟨rfl, by decide⟩ (by decide)
  refine ⟨st', calls, h1, ?_⟩
  rw [h2]
  decide!

/-- C14, the code at the failing input: a face in which no eye is detected.  The call of
`kalman` stands after the loop over the eyes, so it is made for such a face too, with the
global `rosdepth` as the eye loop of an earlier face left it, or as it was initialised
(zero).  For every such face the measurement is the old `rosdepth`, whatever the depth
frame.  A first frame with a face and no eye feeds the filter the observation 0 and changes
its state; a frame with a face and no eye that follows a frame with an eye at depth 700
feeds it 700, a value that is not in that frame.  A frame without a face makes no call. -/
theorem kalman_called_without_eye :
    (∀ (depth : Mat Nat) (st : Tracker) (calls : List KalmanCall) (start finish : Int),
        trackFace depth (st, calls) ⟨[], start, finish⟩
          = some (⟨st.rosdepth, (kalman (deltaTOf start finish) st.rosdepth st.KF).1⟩,
              calls ++ [⟨deltaTOf start finish, st.rosdepth⟩]))
      ∧ (∀ (depth : Mat Nat) (st : Tracker), imageViewerFaces depth [] st = some (st, []))
      ∧ (imageViewerFaces ⟨1, 1, [500]⟩ [⟨[], 0, 5000000⟩] ⟨0, mainKF⟩).map (fun r => r.2)
          = some [⟨1 / 200, 0⟩]
      ∧ (imageViewerFaces ⟨1, 1, [500]⟩ [⟨[], 0, 5000000⟩] ⟨0, mainKF⟩).map
            (fun r => r.1.KF) ≠ some mainKF
      ∧ (imageViewerFrames
          [(⟨1, 1, [700]⟩, [⟨[⟨0, 0⟩], 0, 2000000⟩]), (⟨1, 1, [500]⟩, [⟨[], 0, 5000000⟩])]
          ⟨0, mainKF⟩).map (fun r => r.2)
        = some [⟨1 / 500, 700⟩, ⟨1 / 200, 700⟩]
      ∧ (imageViewerFaces ⟨1, 1, [700]⟩ [⟨[⟨0, 0⟩], 0, 2000000⟩] ⟨0, mainKF⟩).map
            (fun r => r.1.rosdepth) = some 700
      ∧ (imageViewerFaces ⟨1, 1, [500]⟩ [⟨[], 0, 5000000⟩]
            ⟨700, (kalman (1 / 500) 700 mainKF).1⟩).map (fun r => r.2)
          = some [⟨1 / 200, 700⟩]
      ∧ (imageViewerFaces ⟨1, 1, [500]⟩ [⟨[], 0, 5000000⟩]
            ⟨700, (kalman (1 / 500) 700 mainKF).1⟩).map (fun r => r.1.KF)
          ≠ some (kalman (1 / 500) 700 mainKF).1 := by
  refine ⟨fun depth st calls start finish => rfl, fun depth st => rfl, by decide!,
    by decide!, by decide!, by decide!, by decide!, by decide!⟩

/-- C15, counterexample: an update whose clock readings are 0 and 10 ms, a frame without
a detection, then an update whose readings are 1000 ms and 1003 ms.  The second `deltaT`
is 0.003, the duration of its own eye detection, while 0.993 s have passed since the
previous update. -/
theorem kalman_deltaT_not_since_previous :
    (imageViewerFrames
          [(⟨1, 1, [700]⟩, [⟨[], 0, 10000000⟩]), (⟨1, 1, [700]⟩, []),
            (⟨1, 1, [700]⟩, [⟨[], 1000000000, 1003000000⟩])]
          ⟨0, mainKF⟩).map (fun r => r.2.map KalmanCall.deltaT)
        = some [1 / 100, 3 / 1000]
      ∧ deltaTOf 10000000 1003000000 = 993 / 1000
      ∧ (3 / 1000 : ℚ) ≠ 993 / 1000 := by
  refine ⟨by decide!, by decide!, by decide!⟩

/-- C15, as amended: the `deltaT` passed to `kalman` for an observation equals the time
between the two clock readings taken before and after the eye detection of that face,
truncated to whole milliseconds and divided by 1000; the readings of other faces, the
frames without a detection and the previous update do not enter it. -/
theorem kalman_deltaT_per_face (frames : List (Mat Nat × List FaceDetection)) (st : Tracker)
    (h : ∀ fr ∈ frames, EyesInFrame fr.1 fr.2) :
    ∃ st' calls, imageViewerFrames frames st = some (st', calls)
      ∧ calls.map KalmanCall.deltaT
          = (frames.map (fun fr => fr.2.map (fun f => deltaTOf f.start f.finish))).flatten
      ∧ (∀ (depth : Mat Nat) (f : FaceDetection) (s : Tracker) (calls0 : List KalmanCall),
          EyesInFrame depth [f] →
          ∃ s' measurement, trackFace depth (s, calls0) f
              = some (s', calls0 ++ [⟨deltaTOf f.start f.finish, measurement⟩])) := by
  obtain ⟨st', calls, h1, h2⟩ := frames_foldlM frames h (st, [])
  refine ⟨st', calls, by simpa [imageViewerFrames] using h1, h2, ?_⟩
  intro depth f s calls0 hf
  obtain ⟨v, hv, -, -⟩ := sampleEyes_some depth hf.1 f.eyes
    (fun q hq => hf.2 f (List.mem_singleton.mpr rfl) q hq) s.rosdepth
  exact ⟨{ rosdepth := v, KF := (kalman (deltaTOf f.start f.finish) (v : ℚ) s.KF).1 }, (v : ℚ),
    by simp [trackFace, hv]⟩

/-- Witness for C15: two frames with one face each and a frame without a face between
them. -/
theorem kalman_deltaT_per_face_witness :
    ∃ st' calls, imageViewerFrames
          [(⟨1, 1, [700]⟩, [⟨[], 0, 10000000⟩]), (⟨1, 1, [700]⟩, []),
            (⟨1, 1, [700]⟩, [⟨[], 1000000000, 1003000000⟩])] ⟨0, mainKF⟩ = some (st', calls)
      ∧ calls.map KalmanCall.deltaT = [1 / 100, 3 / 1000] := by
  obtain ⟨st', calls, h1, h2, -⟩ := kalman_deltaT_per_face
    [(⟨1, 1, [700]⟩, [⟨[], 0, 10000000⟩]), (⟨1, 1, [700]⟩, []),
      (⟨1, 1, [700]⟩, [⟨[], 1000000000, 1003000000⟩])] ⟨0, mainKF⟩
    (by
      intro fr hfr
      simp only [List.mem_cons, List.mem_singleton, List.not_mem_nil, or_false] at hfr
      rcases hfr with rfl | rfl | rfl <;> exact ⟨rfl, by decide⟩)
  refine ⟨st', calls, h1, ?_⟩
  rw [h2]
  decide!

/-! ## Finite single-precision values -/

/-- Rounding a positive rational gives a finite value unless the rounded significand,
which is at most one above the truncated one, reaches beyond the largest exponent. -/
theorem roundPos_finite_or (p : Nat) (emin emax : Int) (n d : Nat) :
    (∃ v, roundPos p emin emax n d = FP.fin v)
      ∨ (0 ≤ max (floorLog2 n d) emin - ((p : Int) - 1)
          ∧ 2 ^ (emax + 1).toNat
              ≤ (n / (d * 2 ^ (max (floorLog2 n d) emin - ((p : Int) - 1)).toNat) + 1)
                  * 2 ^ (max (floorLog2 n d) emin - ((p : Int) - 1)).toNat) := by
  unfold roundPos
  simp only
  generalize max (floorLog2 n d) emin - ((p : Int) - 1) = k
  by_cases h0 : 0 ≤ k
  · simp only [h0, if_true]
    generalize hm1 :
      (if 2 * (n % (d * 2 ^ k.toNat)) < d * 2 ^ k.toNat then n / (d * 2 ^ k.toNat)
        else if d * 2 ^ k.toNat < 2 * (n % (d * 2 ^ k.toNat)) then n / (d * 2 ^ k.toNat) + 1
        else if n / (d * 2 ^ k.toNat) % 2 = 0 then n / (d * 2 ^ k.toNat)
        else n / (d * 2 ^ k.toNat) + 1) = m1
    have hle : m1 ≤ n / (d * 2 ^ k.toNat) + 1 := by
      rw [← hm1]
      split_ifs <;> omega
    by_cases hov : 2 ^ (emax + 1).toNat ≤ m1 * 2 ^ k.toNat
    · right
      exact ⟨trivial, le_trans hov (Nat.mul_le_mul_right _ hle)⟩
    · left
      simp only [hov, if_false]
      exact ⟨_, rfl⟩
  · left
    simp only [h0, if_false]
    exact ⟨_, rfl⟩

/-- Conversion of a 64-bit unsigned integer to `float` gives a finite value. -/
theorem toSingle_nat_finite (A : Arith) (n : Nat) (hn : n < 2 ^ 64) :
    ∃ v, A.toSingle (n : ℚ) = FP.fin v := by
  cases A with
  | exact => exact ⟨_, rfl⟩
  | ieee =>
    rcases Nat.eq_zero_or_pos n with h0 | hpos
    · subst h0
      exact ⟨0, by simp [Arith.toSingle, roundNE]⟩
    · have hq : (0 : ℚ) < (n : ℚ) := by exact_mod_cast hpos
      have hl := log2Fuel_le n n hpos
      have hl64 : log2Fuel n n < 64 := by
        by_contra hc
        have : 2 ^ 64 ≤ 2 ^ log2Fuel n n := Nat.pow_le_pow_right (by decide) (by omega)
        omega
      have hfl : floorLog2 n 1 ≤ 63 := by
        unfold floorLog2
        simp only [log2Fuel]
        split_ifs <;> simp <;> omega
      simp only [Arith.toSingle, roundNE, hq.ne', hq, if_true, if_false, Rat.num_natCast,
        Rat.den_natCast, Int.natAbs_ofNat]
      rcases roundPos_finite_or 24 (-126) 127 n 1 with h | ⟨hk, hov⟩
      · exact h
      · exfalso
        generalize hK : (max (floorLog2 n 1) (-126) - (((24 : Nat) : Int) - 1)).toNat = K at hov
        have hK40 : K ≤ 40 := by
          rw [← hK]
          omega
        have h2K : 2 ^ K ≤ 2 ^ 40 := Nat.pow_le_pow_right (by decide) hK40
        have hdiv : n / 2 ^ K * 2 ^ K ≤ n := Nat.div_mul_le_self n (2 ^ K)
        have h128 : (2 : Nat) ^ (127 + 1 : Int).toNat = 2 ^ 128 := by decide
        rw [h128] at hov
        simp only [Nat.one_mul, Nat.add_mul] at hov
        have : (2 : Nat) ^ 64 + 2 ^ 40 < 2 ^ 128 := by decide
        omega

/-! ## Claims on the entries of the lookup tables -/

/-- Entry `c` of `lookupX` and entry `r` of `lookupY` as `createLookup` computes them. -/
theorem createLookup_getElem (A : Arith) (cam : CameraMatrix) (width height : Nat) :
    (∀ c, c < width → (createLookup A cam width height).1[c]?
        = some (A.mul32 (A.sub32 (A.ofNat32 c) (A.single cam.k02))
            (A.single (A.div64 (FP.fin 1) cam.k00))))
      ∧ (∀ r, r < height → (createLookup A cam width height).2[r]?
        = some (A.mul32 (A.sub32 (A.ofNat32 r) (A.single cam.k12))
            (A.single (A.div64 (FP.fin 1) cam.k11)))) := by
  constructor
  · intro c hc
    simp [createLookup, List.getElem?_map, List.getElem?_range hc]
  · intro r hr
    simp [createLookup, List.getElem?_map, List.getElem?_range hr]

/-- An integer index minus itself, times a finite factor, is exactly zero in `float`
arithmetic. -/
theorem index_minus_itself (A : Arith) (n : Nat) (hn : n < 2 ^ 64) (fx : FP)
    (hfx : fx.isFinite = true) :
    A.mul32 (A.sub32 (A.ofNat32 n) (A.single (FP.fin (n : ℚ)))) fx = FP.fin 0 := by
  obtain ⟨v, hv⟩ := toSingle_nat_finite A n hn
  cases fx with
  | nan => cases hfx
  | inf s => cases hfx
  | fin q =>
    simp [Arith.mul32, Arith.sub32, Arith.ofNat32, Arith.single, FP.narrow, hv, FP.sub, FP.mul,
      toSingle_zero]

/-- C3, counterexample: for `fx = fy = 500`, `cx = 320`, `cy = 240` and a 640x480 frame the
entry of `lookupX` at column 0 is `-10737419 / 2 ^ 24` in single precision; it is not the
quotient `(0 - 320) / 500 = -16 / 25`, and not the `float` nearest to that quotient either,
which is `-5368709 / 2 ^ 23`: the code multiplies by the rounded reciprocal of `fx`.  With
`fx = 2 ^ -130` and `cx = 0` the entry at column 0 is NaN, while the quotient is 0. -/
theorem createLookup_not_quotient :
    (createLookup Arith.ieee ⟨FP.fin 500, FP.fin 0, FP.fin 320, FP.fin 0, FP.fin 500,
        FP.fin 240, FP.fin 0, FP.fin 0, FP.fin 1⟩ 640 480).1[0]?
        = some (FP.fin (-10737419 / 16777216))
      ∧ (-10737419 / 16777216 : ℚ) ≠ ((0 : ℚ) - 320) / 500
      ∧ Arith.ieee.toSingle (((0 : ℚ) - 320) / 500) = FP.fin (-5368709 / 8388608)
      ∧ (-10737419 / 16777216 : ℚ) ≠ -5368709 / 8388608
      ∧ (createLookup Arith.ieee ⟨FP.fin (1 / 2 ^ 130), FP.fin 0, FP.fin 0, FP.fin 0,
          FP.fin 1, FP.fin 0, FP.fin 0, FP.fin 0, FP.fin 1⟩ 1 1).1[0]? = some FP.nan
      ∧ (FP.fin (((0 : ℚ) - 0) / (1 / 2 ^ 130))) ≠ FP.nan := by
  refine ⟨?_, by norm_num, by decide!, by norm_num, by decide!, by simp⟩
  rw [(createLookup_getElem Arith.ieee _ 640 480).1 0 (by norm_num)]
  decide!

/-- C3, as amended: for every width, height and stored colour camera matrix, `createLookup`
produces a `lookupX` with exactly `width` entries and a `lookupY` with exactly `height`
entries.  Entry `c` of `lookupX` is the `float` product of the `float` difference
`c - cx` and the reciprocal `1 / fx`, computed in `double` and narrowed to `float`; entry
`r` of `lookupY` likewise from `cy` and `fy`; here `fx`, `fy`, `cx`, `cy` are the entries
(0,0), (1,1), (0,2), (1,2) of the matrix.  In exact arithmetic these are the quotients
`(c - cx) / fx` and `(r - cy) / fy` (a zero or non-finite entry of the matrix gives the
infinite or NaN entries of IEEE division).  In the machine arithmetic, for a focal length
between 1 and `2 ^ 100`, a principal point of magnitude up to `2 ^ 20` and an index up to
`2 ^ 20`, the entry is finite and differs from the quotient by at most
`2 ^ -22 * (|c - cx| + |cx|) / fx + 2 ^ -126`; for `fx = fy = 500`, `cx = 320`, `cy = 240`
and a 640x480 frame every entry is within the relative error `2 ^ -23` of the quotient. -/
theorem createLookup_tables (cameraMatrixColor : CameraMatrix) (width height : Nat) :
    (∀ A : Arith, (createLookup A cameraMatrixColor width height).1.length = width
        ∧ (createLookup A cameraMatrixColor width height).2.length = height)
      ∧ (∀ (A : Arith) (c : Nat), c < width →
          (createLookup A cameraMatrixColor width height).1[c]?
            = some (A.mul32 (A.sub32 (A.ofNat32 c) (A.single cameraMatrixColor.k02))
                (A.single (A.div64 (FP.fin 1) cameraMatrixColor.k00))))
      ∧ (∀ (A : Arith) (r : Nat), r < height →
          (createLookup A cameraMatrixColor width height).2[r]?
            = some (A.mul32 (A.sub32 (A.ofNat32 r) (A.single cameraMatrixColor.k12))
                (A.single (A.div64 (FP.fin 1) cameraMatrixColor.k11))))
      ∧ (createLookup Arith.exact cameraMatrixColor width height).1
          = (List.range width).map
              (fun c : Nat => ((FP.fin (c : ℚ)).sub cameraMatrixColor.k02).div cameraMatrixColor.k00)
      ∧ (createLookup Arith.exact cameraMatrixColor width height).2
          = (List.range height).map
              (fun r : Nat => ((FP.fin (r : ℚ)).sub cameraMatrixColor.k12).div cameraMatrixColor.k11)
      ∧ (∀ (A : Arith) (fx cx : ℚ) (c : Nat),
          cameraMatrixColor.k00 = FP.fin fx → 1 ≤ fx → fx ≤ 2 ^ 100 →
          cameraMatrixColor.k02 = FP.fin cx → |cx| ≤ 2 ^ 20 → c < width → c ≤ 2 ^ 20 →
          ∃ v : ℚ, (createLookup A cameraMatrixColor width height).1[c]? = some (FP.fin v)
            ∧ |v - ((c : ℚ) - cx) / fx|
                ≤ (|(c : ℚ) - cx| + |cx|) / fx / 2 ^ 22 + 1 / 2 ^ 126)
      ∧ (∀ (A : Arith) (fy cy : ℚ) (r : Nat),
          cameraMatrixColor.k11 = FP.fin fy → 1 ≤ fy → fy ≤ 2 ^ 100 →
          cameraMatrixColor.k12 = FP.fin cy → |cy| ≤ 2 ^ 20 → r < height → r ≤ 2 ^ 20 →
          ∃ v : ℚ, (createLookup A cameraMatrixColor width height).2[r]? = some (FP.fin v)
            ∧ |v - ((r : ℚ) - cy) / fy|
                ≤ (|(r : ℚ) - cy| + |cy|) / fy / 2 ^ 22 + 1 / 2 ^ 126)
      ∧ (∀ c : Nat, c < 640 → ∃ v : ℚ,
          (createLookup Arith.ieee ⟨FP.fin 500, FP.fin 0, FP.fin 320, FP.fin 0, FP.fin 500,
              FP.fin 240, FP.fin 0, FP.fin 0, FP.fin 1⟩ 640 480).1[c]? = some (FP.fin v)
            ∧ |v - ((c : ℚ) - 320) / 500| ≤ |((c : ℚ) - 320) / 500| / 2 ^ 23)
      ∧ (∀ r : Nat, r < 480 → ∃ v : ℚ,
          (createLookup Arith.ieee ⟨FP.fin 500, FP.fin 0, FP.fin 320, FP.fin 0, FP.fin 500,
              FP.fin 240, FP.fin 0, FP.fin 0, FP.fin 1⟩ 640 480).2[r]? = some (FP.fin v)
            ∧ |v - ((r : ℚ) - 240) / 500| ≤ |((r : ℚ) - 240) / 500| / 2 ^ 23) := by
  have hn : ∀ x : FP, x.narrow (Arith.toSingle Arith.exact) = x := by
    intro x; cases x <;> rfl
  have hd : ∀ x : FP, x.narrow (Arith.toDouble Arith.exact) = x := by
    intro x; cases x <;> rfl
  refine ⟨fun A => by simp [createLookup],
    fun A c hc => (createLookup_getElem A cameraMatrixColor width height).1 c hc,
    fun A r hr => (createLookup_getElem A cameraMatrixColor width height).2 r hr, ?_, ?_, ?_, ?_,
    ?_, ?_⟩
  · simp only [createLookup, Arith.mul32, Arith.sub32, Arith.single, Arith.div64,
      Arith.ofNat32, hn, hd, FP.mul_one_div]
    rfl
  · simp only [createLookup, Arith.mul32, Arith.sub32, Arith.single, Arith.div64,
      Arith.ofNat32, hn, hd, FP.mul_one_div]
    rfl
  · intro A fx cx c hfx h1 h2 hcx h3 hc hc2
    obtain ⟨v, hv, he⟩ := lookup_entry_error A cx fx h3 h1 h2 c hc2
    rw [(createLookup_getElem A cameraMatrixColor width height).1 c hc, hfx, hcx, hv]
    exact ⟨v, rfl, he⟩
  · intro A fy cy r hfy h1 h2 hcy h3 hr hr2
    obtain ⟨v, hv, he⟩ := lookup_entry_error A cy fy h3 h1 h2 r hr2
    rw [(createLookup_getElem A cameraMatrixColor width height).2 r hr, hfy, hcy, hv]
    exact ⟨v, rfl, he⟩
  · intro c hc
    obtain ⟨v, hv, he⟩ := lookup_entry_near 320 c (by norm_num) (by omega)
    rw [(createLookup_getElem Arith.ieee _ 640 480).1 c hc]
    exact ⟨v, by simpa using congrArg some hv, by simpa using he⟩
  · intro r hr
    obtain ⟨v, hv, he⟩ := lookup_entry_near 240 r (by norm_num) (by omega)
    rw [(createLookup_getElem Arith.ieee _ 640 480).2 r hr]
    exact ⟨v, by simpa using congrArg some hv, by simpa using he⟩

/-- C16, counterexample: with the non-zero focal length `fx = 2 ^ -130` and `cx = 0`, an
index inside a frame of width 1, the reciprocal `2 ^ 130` overflows to infinity when it is
narrowed to `float`, and the table entry at index 0 is `0 * inf`, NaN, not 0. -/
theorem createLookup_tiny_focal_length :
    (createLookup Arith.ieee
        ⟨FP.fin (1 / 2 ^ 130), FP.fin 0, FP.fin 0, FP.fin 0, FP.fin 1, FP.fin 0, FP.fin 0,
          FP.fin 0, FP.fin 1⟩ 1 1).1 = [FP.nan] := by
  decide!

/-- C16, as amended: for `fx = fy = 500`, `cx = 320`, `cy = 240` and a 640x480 frame,
`createLookup` yields `lookupX[320] = 0` and `lookupY[240] = 0`, in either arithmetic; more
generally, whenever the reciprocal of the focal length is finite as a `float` and `cx`
(resp. `cy`) is an integer index inside the frame, the table entry at that index is exactly
0.  In exact arithmetic the reciprocal of every non-zero finite focal length is finite. -/
theorem createLookup_zero_at_principal_point :
    (∀ A : Arith,
        (createLookup A ⟨FP.fin 500, FP.fin 0, FP.fin 320, FP.fin 0, FP.fin 500, FP.fin 240,
            FP.fin 0, FP.fin 0, FP.fin 1⟩ 640 480).1[320]? = some (FP.fin 0)
          ∧ (createLookup A ⟨FP.fin 500, FP.fin 0, FP.fin 320, FP.fin 0, FP.fin 500,
              FP.fin 240, FP.fin 0, FP.fin 0, FP.fin 1⟩ 640 480).2[240]? = some (FP.fin 0))
      ∧ (∀ (A : Arith) (cam : CameraMatrix) (width height c : Nat),
          c < width → c < 2 ^ 64 → cam.k02 = FP.fin (c : ℚ) →
          (A.single (A.div64 (FP.fin 1) cam.k00)).isFinite = true →
          (createLookup A cam width height).1[c]? = some (FP.fin 0))
      ∧ (∀ (A : Arith) (cam : CameraMatrix) (width height r : Nat),
          r < height → r < 2 ^ 64 → cam.k12 = FP.fin (r : ℚ) →
          (A.single (A.div64 (FP.fin 1) cam.k11)).isFinite = true →
          (createLookup A cam width height).2[r]? = some (FP.fin 0))
      ∧ (∀ f : ℚ, f ≠ 0 →
          (Arith.exact.single (Arith.exact.div64 (FP.fin 1) (FP.fin f))).isFinite = true) := by
  have gx : ∀ (A : Arith) (cam : CameraMatrix) (width height c : Nat),
      c < width → c < 2 ^ 64 → cam.k02 = FP.fin (c : ℚ) →
      (A.single (A.div64 (FP.fin 1) cam.k00)).isFinite = true →
      (createLookup A cam width height).1[c]? = some (FP.fin 0) := by
    intro A cam width height c hc h64 hcx hfx
    rw [(createLookup_getElem A cam width height).1 c hc, hcx,
      index_minus_itself A c h64 _ hfx]
  have gy : ∀ (A : Arith) (cam : CameraMatrix) (width height r : Nat),
      r < height → r < 2 ^ 64 → cam.k12 = FP.fin (r : ℚ) →
      (A.single (A.div64 (FP.fin 1) cam.k11)).isFinite = true →
      (createLookup A cam width height).2[r]? = some (FP.fin 0) := by
    intro A cam width height r hr h64 hcy hfy
    rw [(createLookup_getElem A cam width height).2 r hr, hcy,
      index_minus_itself A r h64 _ hfy]
  refine ⟨fun A => ⟨?_, ?_⟩, gx, gy, ?_⟩
  · exact gx A _ 640 480 320 (by decide) (by decide) (by norm_num) (by cases A <;> decide!)
  · exact gy A _ 640 480 240 (by decide) (by decide) (by norm_num) (by cases A <;> decide!)
  · intro f hf
    simp [Arith.single, Arith.div64, FP.div, hf, FP.narrow, Arith.toDouble, Arith.toSingle,
      FP.isFinite]

/-- C17, counterexample: with `fx = 1` and `cx = 2 ^ 30` the columns 0 and 1 get the same
entry `-2 ^ 30` in single precision, because `1 - 2 ^ 30` rounds to `-2 ^ 30`; the table is
not strictly increasing. -/
theorem createLookup_equal_entries :
    (createLookup Arith.ieee
        ⟨FP.fin 1, FP.fin 0, FP.fin 1073741824, FP.fin 0, FP.fin 1, FP.fin 0, FP.fin 0,
          FP.fin 0, FP.fin 1⟩ 2 1).1 = [FP.fin (-1073741824), FP.fin (-1073741824)]
      ∧ (FP.fin (-1073741824)).lt (FP.fin (-1073741824)) = false := by
  constructor <;> decide!

/-- C17, as amended: in the machine arithmetic (and in exact arithmetic), for every width
and every camera matrix with a focal length `fx` between `2 ^ -126` and `2 ^ 126` and a
principal point of magnitude up to `2 ^ 127`, the `lookupX` table of `createLookup` is
non-decreasing in the column index: `c1 < c2` implies `lookupX[c1] <= lookupX[c2]` (so no
entry is NaN); likewise `lookupY` in the row index.  In exact arithmetic the tables are
strictly increasing for every finite `fx > 0` and finite `cx`.  In the machine arithmetic
they are strictly increasing up to index `2 ^ 20` for a focal length between `2 ^ -100`
and `2 ^ 100` and a principal point of magnitude up to `2 ^ 20`, in particular for
`fx = fy = 500`, `cx = 320`, `cy = 240` on a 640x480 frame. -/
theorem createLookup_monotone :
    (∀ (A : Arith) (cam : CameraMatrix) (width height : Nat) (fx cx : ℚ),
        cam.k00 = FP.fin fx → 1 / 2 ^ 126 ≤ fx → fx ≤ 2 ^ 126 →
        cam.k02 = FP.fin cx → |cx| ≤ 2 ^ 127 →
        ∀ c1 c2, c1 < c2 → c2 < width →
          ∃ a b, (createLookup A cam width height).1[c1]? = some a
            ∧ (createLookup A cam width height).1[c2]? = some b
            ∧ a.le b = true)
      ∧ (∀ (A : Arith) (cam : CameraMatrix) (width height : Nat) (fy cy : ℚ),
        cam.k11 = FP.fin fy → 1 / 2 ^ 126 ≤ fy → fy ≤ 2 ^ 126 →
        cam.k12 = FP.fin cy → |cy| ≤ 2 ^ 127 →
        ∀ r1 r2, r1 < r2 → r2 < height →
          ∃ a b, (createLookup A cam width height).2[r1]? = some a
            ∧ (createLookup A cam width height).2[r2]? = some b
            ∧ a.le b = true)
      ∧ (∀ (cam : CameraMatrix) (width height : Nat) (fx cx : ℚ),
        cam.k00 = FP.fin fx → 0 < fx → cam.k02 = FP.fin cx →
        ∀ c1 c2, c1 < c2 → c2 < width →
          ∃ a b, (createLookup Arith.exact cam width height).1[c1]? = some a
            ∧ (createLookup Arith.exact cam width height).1[c2]? = some b
            ∧ a.lt b = true)
      ∧ (∀ (cam : CameraMatrix) (width height : Nat) (fy cy : ℚ),
        cam.k11 = FP.fin fy → 0 < fy → cam.k12 = FP.fin cy →
        ∀ r1 r2, r1 < r2 → r2 < height →
          ∃ a b, (createLookup Arith.exact cam width height).2[r1]? = some a
            ∧ (createLookup Arith.exact cam width height).2[r2]? = some b
            ∧ a.lt b = true)
      ∧ (∀ (A : Arith) (cam : CameraMatrix) (width height : Nat) (fx cx : ℚ),
        cam.k00 = FP.fin fx → 1 / 2 ^ 100 ≤ fx → fx ≤ 2 ^ 100 →
        cam.k02 = FP.fin cx → |cx| ≤ 2 ^ 20 →
        ∀ c1 c2, c1 < c2 → c2 < width → c2 ≤ 2 ^ 20 →
          ∃ a b, (createLookup A cam width height).1[c1]? = some a
            ∧ (createLookup A cam width height).1[c2]? = some b
            ∧ a.lt b = true)
      ∧ (∀ (A : Arith) (cam : CameraMatrix) (width height : Nat) (fy cy : ℚ),
        cam.k11 = FP.fin fy → 1 / 2 ^ 100 ≤ fy → fy ≤ 2 ^ 100 →
        cam.k12 = FP.fin cy → |cy| ≤ 2 ^ 20 →
        ∀ r1 r2, r1 < r2 → r2 < height → r2 ≤ 2 ^ 20 →
          ∃ a b, (createLookup A cam width height).2[r1]? = some a
            ∧ (createLookup A cam width height).2[r2]? = some b
            ∧ a.lt b = true)
      ∧ (∀ c1 c2, c1 < c2 → c2 < 640 →
          ∃ a b, (createLookup Arith.ieee ⟨FP.fin 500, FP.fin 0, FP.fin 320, FP.fin 0,
                FP.fin 500, FP.fin 240, FP.fin 0, FP.fin 0, FP.fin 1⟩ 640 480).1[c1]? = some a
            ∧ (createLookup Arith.ieee ⟨FP.fin 500, FP.fin 0, FP.fin 320, FP.fin 0,
                FP.fin 500, FP.fin 240, FP.fin 0, FP.fin 0, FP.fin 1⟩ 640 480).1[c2]? = some b
            ∧ a.lt b = true)
      ∧ (∀ r1 r2, r1 < r2 → r2 < 480 →
          ∃ a b, (createLookup Arith.ieee ⟨FP.fin 500, FP.fin 0, FP.fin 320, FP.fin 0,
                FP.fin 500, FP.fin 240, FP.fin 0, FP.fin 0, FP.fin 1⟩ 640 480).2[r1]? = some a
            ∧ (createLookup Arith.ieee ⟨FP.fin 500, FP.fin 0, FP.fin 320, FP.fin 0,
                FP.fin 500, FP.fin 240, FP.fin 0, FP.fin 0, FP.fin 1⟩ 640 480).2[r2]? = some b
            ∧ a.lt b = true) := by
  have key : ∀ (f x : ℚ) (n : Nat), 0 < f →
      Arith.exact.mul32 (Arith.exact.sub32 (Arith.exact.ofNat32 n) (Arith.exact.single (FP.fin x)))
          (Arith.exact.single (Arith.exact.div64 (FP.fin 1) (FP.fin f)))
        = FP.fin (((n : ℚ) - x) * (1 / f)) := by
    intro f x n hf
    simp [Arith.mul32, Arith.sub32, Arith.ofNat32, Arith.single, Arith.div64, FP.narrow,
      Arith.toSingle, Arith.toDouble, FP.sub, FP.mul, FP.div, hf.ne']
  have mono : ∀ (f x : ℚ) (n1 n2 : Nat), 0 < f → n1 < n2 →
      (FP.fin (((n1 : ℚ) - x) * (1 / f))).lt (FP.fin (((n2 : ℚ) - x) * (1 / f))) = true := by
    intro f x n1 n2 hf hn
    have h12 : (n1 : ℚ) < (n2 : ℚ) := by exact_mod_cast hn
    have hinv : 0 < 1 / f := by positivity
    simp only [FP.lt, decide_eq_true_eq]
    exact mul_lt_mul_of_pos_right (by linarith) hinv
  have strictX : ∀ (A : Arith) (cam : CameraMatrix) (width height : Nat) (fx cx : ℚ),
      cam.k00 = FP.fin fx → 1 / 2 ^ 100 ≤ fx → fx ≤ 2 ^ 100 →
      cam.k02 = FP.fin cx → |cx| ≤ 2 ^ 20 →
      ∀ c1 c2, c1 < c2 → c2 < width → c2 ≤ 2 ^ 20 →
        ∃ a b, (createLookup A cam width height).1[c1]? = some a
          ∧ (createLookup A cam width height).1[c2]? = some b
          ∧ a.lt b = true := by
    intro A cam width height fx cx hfx h1 h2 hcx h3 c1 c2 h12 hw hc
    obtain ⟨b, hb, b1, b2⟩ := lookup_reciprocal_range A fx h1 h2
    obtain ⟨c, hc', hcb⟩ := lookup_center_range A cx h3
    refine ⟨_, _, (createLookup_getElem A cam width height).1 c1 (by omega),
      (createLookup_getElem A cam width height).1 c2 hw, ?_⟩
    rw [hfx, hcx, hb, hc']
    exact lookup_entry_lt A c b hcb b1 b2 c1 c2 h12 hc
  have strictY : ∀ (A : Arith) (cam : CameraMatrix) (width height : Nat) (fy cy : ℚ),
      cam.k11 = FP.fin fy → 1 / 2 ^ 100 ≤ fy → fy ≤ 2 ^ 100 →
      cam.k12 = FP.fin cy → |cy| ≤ 2 ^ 20 →
      ∀ r1 r2, r1 < r2 → r2 < height → r2 ≤ 2 ^ 20 →
        ∃ a b, (createLookup A cam width height).2[r1]? = some a
          ∧ (createLookup A cam width height).2[r2]? = some b
          ∧ a.lt b = true := by
    intro A cam width height fy cy hfy h1 h2 hcy h3 r1 r2 h12 hw hc
    obtain ⟨b, hb, b1, b2⟩ := lookup_reciprocal_range A fy h1 h2
    obtain ⟨c, hc', hcb⟩ := lookup_center_range A cy h3
    refine ⟨_, _, (createLookup_getElem A cam width height).2 r1 (by omega),
      (createLookup_getElem A cam width height).2 r2 hw, ?_⟩
    rw [hfy, hcy, hb, hc']
    exact lookup_entry_lt A c b hcb b1 b2 r1 r2 h12 hc
  refine ⟨?_, ?_, ?_, ?_, strictX, strictY, ?_, ?_⟩
  · intro A cam width height fx cx hfx h1 h2 hcx h3 c1 c2 h12 hw
    obtain ⟨b, hb, hbpos⟩ := lookup_reciprocal_pos A fx h1 h2
    obtain ⟨c, hc⟩ := lookup_center_finite A cx h3
    refine ⟨_, _, (createLookup_getElem A cam width height).1 c1 (by omega),
      (createLookup_getElem A cam width height).1 c2 hw, ?_⟩
    rw [hfx, hcx, hb, hc]
    exact lookup_entry_mono A c b hbpos c1 c2 h12.le
  · intro A cam width height fy cy hfy h1 h2 hcy h3 r1 r2 h12 hw
    obtain ⟨b, hb, hbpos⟩ := lookup_reciprocal_pos A fy h1 h2
    obtain ⟨c, hc⟩ := lookup_center_finite A cy h3
    refine ⟨_, _, (createLookup_getElem A cam width height).2 r1 (by omega),
      (createLookup_getElem A cam width height).2 r2 hw, ?_⟩
    rw [hfy, hcy, hb, hc]
    exact lookup_entry_mono A c b hbpos r1 r2 h12.le
  · intro cam width height fx cx hfx hpos hcx c1 c2 h12 h2
    refine ⟨_, _, (createLookup_getElem Arith.exact cam width height).1 c1 (by omega),
      (createLookup_getElem Arith.exact cam width height).1 c2 h2, ?_⟩
    rw [hfx, hcx, key fx cx c1 hpos, key fx cx c2 hpos]
    exact mono fx cx c1 c2 hpos h12
  · intro cam width height fy cy hfy hpos hcy r1 r2 h12 h2
    refine ⟨_, _, (createLookup_getElem Arith.exact cam width height).2 r1 (by omega),
      (createLookup_getElem Arith.exact cam width height).2 r2 h2, ?_⟩
    rw [hfy, hcy, key fy cy r1 hpos, key fy cy r2 hpos]
    exact mono fy cy r1 r2 hpos h12
  · intro c1 c2 h12 h2
    exact strictX Arith.ieee _ 640 480 500 320 rfl (by norm_num) (by norm_num) rfl
      (by norm_num) c1 c2 h12 h2 (by omega)
  · intro r1 r2 h12 h2
    exact strictY Arith.ieee _ 640 480 500 240 rfl (by norm_num) (by norm_num) rfl
      (by norm_num) r1 r2 h12 h2 (by omega)

/-- C18: calling `createLookup` a second time with the same stored camera matrix, width
and height leaves the receiver, and so both tables, as the first call left them; the two
tables depend on nothing but the colour camera matrix, the width and the height, and no
other member of the receiver is changed. -/
theorem createLookup_idempotent (A : Arith) (s : Receiver) (width height : Nat) :
    (s.createLookup A width height).createLookup A width height = s.createLookup A width height
      ∧ ((s.createLookup A width height).createLookup A width height).lookupX
          = (s.createLookup A width height).lookupX
      ∧ ((s.createLookup A width height).createLookup A width height).lookupY
          = (s.createLookup A width height).lookupY
      ∧ (∀ s' : Receiver, s'.cameraMatrixColor = s.cameraMatrixColor →
          (s'.createLookup A width height).lookupX = (s.createLookup A width height).lookupX
            ∧ (s'.createLookup A width height).lookupY
                = (s.createLookup A width height).lookupY)
      ∧ (s.createLookup A width height).lookupX
          = (createLookup A s.cameraMatrixColor width height).1
      ∧ (s.createLookup A width height).lookupY
          = (createLookup A s.cameraMatrixColor width height).2
      ∧ (s.createLookup A width height)
          = { s with lookupX := (s.createLookup A width height).lookupX
                     lookupY := (s.createLookup A width height).lookupY } := by
  refine ⟨rfl, rfl, rfl, fun s' h => ?_, rfl, rfl, rfl⟩
  simp [Receiver.createLookup, h]

/-! ## Claims on start-up and on the lifetime of the lookup tables -/

/-- The statements of `start` after the wait change the cloud and the two tables only, and
size them by the stored colour frame. -/
theorem startSetup_fields (A : Arith) (blank : PointXYZRGBA) (s : Receiver) :
    (s.startSetup A blank).updateImage = s.updateImage
      ∧ (s.startSetup A blank).updateCloud = s.updateCloud
      ∧ (s.startSetup A blank).color = s.color
      ∧ (s.startSetup A blank).depth = s.depth
      ∧ (s.startSetup A blank).cameraMatrixColor = s.cameraMatrixColor
      ∧ (s.startSetup A blank).cameraMatrixDepth = s.cameraMatrixDepth
      ∧ (s.startSetup A blank).cloud.length = s.color.rows * s.color.cols
      ∧ (s.startSetup A blank).lookupX.length = s.color.cols
      ∧ (s.startSetup A blank).lookupY.length = s.color.rows := by
  simp [Receiver.startSetup, Receiver.createLookup, createLookup]

/-- When the wait of `start` is left for the consumer loop, both flags are set, the cloud
and tables are sized by the stored colour frame, and the stored frame and camera matrices
are those of a callback that occurred during the wait, unless both flags were set before
the wait began. -/
theorem startWait_entered (A : Arith) (blank : PointXYZRGBA) (events : List StartEvent) :
    ∀ (s r : Receiver), startWait A blank s events = StartResult.entered r →
      r.updateImage = true ∧ r.updateCloud = true
        ∧ r.cloud.length = r.color.rows * r.color.cols
        ∧ r.lookupX.length = r.color.cols ∧ r.lookupY.length = r.color.rows
        ∧ ((s.updateImage = true ∧ s.updateCloud = true ∧ r.color = s.color
              ∧ r.depth = s.depth ∧ r.cameraMatrixColor = s.cameraMatrixColor
              ∧ r.cameraMatrixDepth = s.cameraMatrixDepth)
            ∨ ∃ c d kc kd, StartEvent.callback c d kc kd ∈ events
                ∧ r.color = c ∧ r.depth = d
                ∧ r.cameraMatrixColor = kc ∧ r.cameraMatrixDepth = kd) := by
  induction events with
  | nil => intro s r h; simp [startWait] at h
  | cons e es ih =>
    intro s r h
    cases e with
    | callback c d kc kd =>
      simp only [startWait] at h
      obtain ⟨h1, h2, h3, h4, h5, h6⟩ := ih _ r h
      refine ⟨h1, h2, h3, h4, h5, Or.inr ?_⟩
      rcases h6 with ⟨-, -, e1, e2, e3, e4⟩ | ⟨c', d', kc', kd', hm, e1, e2, e3, e4⟩
      · exact ⟨c, d, kc, kd, List.mem_cons_self _ _, e1, e2, e3, e4⟩
      · exact ⟨c', d', kc', kd', List.mem_cons_of_mem _ hm, e1, e2, e3, e4⟩
    | test ok =>
      simp only [startWait] at h
      split_ifs at h with hf hok
      · cases h
        obtain ⟨f1, f2, f3, f4, f5, f6, f7, f8, f9⟩ := startSetup_fields A blank s
        refine ⟨by rw [f1]; exact hf.1, by rw [f2]; exact hf.2, by rw [f7, f3],
          by rw [f8, f3], by rw [f9, f3], Or.inl ⟨hf.1, hf.2, f3, f4, f5, f6⟩⟩
      · obtain ⟨h1, h2, h3, h4, h5, h6⟩ := ih s r h
        refine ⟨h1, h2, h3, h4, h5, ?_⟩
        rcases h6 with h6 | ⟨c', d', kc', kd', hm, e⟩
        · exact Or.inl h6
        · exact Or.inr ⟨c', d', kc', kd', List.mem_cons_of_mem _ hm, e⟩

/-- When `start` returns from its wait, the liveness check has failed, and the cloud and
the lookup tables are as they were before the wait. -/
theorem startWait_returned (A : Arith) (blank : PointXYZRGBA) (events : List StartEvent) :
    ∀ (s r : Receiver), startWait A blank s events = StartResult.returned r →
      StartEvent.test false ∈ events
        ∧ r.cloud = s.cloud ∧ r.lookupX = s.lookupX ∧ r.lookupY = s.lookupY := by
  induction events with
  | nil => intro s r h; simp [startWait] at h
  | cons e es ih =>
    intro s r h
    cases e with
    | callback c d kc kd =>
      simp only [startWait] at h
      obtain ⟨h1, h2, h3, h4⟩ := ih _ r h
      exact ⟨List.mem_cons_of_mem _ h1, h2, h3, h4⟩
    | test ok =>
      simp only [startWait] at h
      split_ifs at h with hf hok
      · obtain ⟨h1, h2, h3, h4⟩ := ih s r h
        exact ⟨List.mem_cons_of_mem _ h1, h2, h3, h4⟩
      · cases h
        have : ok = false := by simpa using hok
        subst this
        exact ⟨List.mem_cons_self _ _, rfl, rfl, rfl⟩

/-- C20: started with both flags clear, `start` leaves its start-up wait and enters a
consumer loop only in a state where `updateImage` and `updateCloud` are both true and the
stored frame and camera matrices are those of a callback that occurred during the wait
(a callback followed by a test of the loop condition does enter); if the liveness check
`ros::ok()` fails while the flags are not both set, `start` returns and the cloud and the
lookup tables are untouched (unallocated and unbuilt), no consumer loop being entered. -/
theorem start_enters_after_callback (A : Arith) (blank : PointXYZRGBA) (mode : Mode)
    (s : Receiver) (events : List StartEvent)
    (hi : s.updateImage = false) (hc : s.updateCloud = false) :
    (∀ r, start A blank mode s events = StartResult.entered r →
        r.updateImage = true ∧ r.updateCloud = true
          ∧ r.cloud.length = r.color.rows * r.color.cols
          ∧ r.lookupX.length = r.color.cols ∧ r.lookupY.length = r.color.rows
          ∧ ∃ c d kc kd, StartEvent.callback c d kc kd ∈ events
              ∧ r.color = c ∧ r.depth = d
              ∧ r.cameraMatrixColor = kc ∧ r.cameraMatrixDepth = kd)
      ∧ (∀ r, start A blank mode s events = StartResult.returned r →
          StartEvent.test false ∈ events
            ∧ r.cloud = s.cloud ∧ r.lookupX = s.lookupX ∧ r.lookupY = s.lookupY)
      ∧ (∀ (n : Nat) (rest : List StartEvent),
          start A blank mode s (List.replicate n (StartEvent.test true)
              ++ StartEvent.test false :: rest)
            = StartResult.returned (s.startBegin mode))
      ∧ (∀ (n : Nat) (c : Mat Vec3b) (d : Mat Nat) (kc kd : CameraMatrix) (ok : Bool)
          (rest : List StartEvent),
          start A blank mode s (List.replicate n (StartEvent.test true)
              ++ StartEvent.callback c d kc kd :: StartEvent.test ok :: rest)
            = StartResult.entered (((s.startBegin mode).callback c d kc kd).startSetup A blank)) := by
  have hb1 : (s.startBegin mode).updateImage = false := by simp [Receiver.startBegin, hi]
  have hb2 : (s.startBegin mode).updateCloud = false := by simp [Receiver.startBegin, hc]
  have hrep : ∀ (n : Nat) (tail : List StartEvent),
      startWait A blank (s.startBegin mode) (List.replicate n (StartEvent.test true) ++ tail)
        = startWait A blank (s.startBegin mode) tail := by
    intro n tail
    induction n with
    | zero => rfl
    | succ n ih =>
      rw [List.replicate_succ, List.cons_append]
      simp only [startWait, hb1, Bool.false_eq_true, false_and, if_false, if_true]
      exact ih
  refine ⟨fun r h => ?_, fun r h => ?_, fun n rest => ?_, fun n c d kc kd ok rest => ?_⟩
  · obtain ⟨h1, h2, h3, h4, h5, h6⟩ := startWait_entered A blank events _ r h
    refine ⟨h1, h2, h3, h4, h5, ?_⟩
    rcases h6 with ⟨hf, -⟩ | h6
    · rw [hb1] at hf
      cases hf
    · exact h6
  · obtain ⟨h1, h2, h3, h4⟩ := startWait_returned A blank events _ r h
    exact ⟨h1, h2, h3, h4⟩
  · unfold start
    rw [hrep]
    simp [startWait, hb1]
  · unfold start
    rw [hrep]
    simp [startWait, Receiver.callback]

/-- Witness for C20: the receiver as constructed, one callback with a 1x1 frame, one test
of the loop condition. -/
theorem start_enters_after_callback_witness :
    start Arith.ieee badPoint Mode.CLOUD Receiver.new
        [StartEvent.callback ⟨1, 1, [⟨1, 2, 3⟩]⟩ ⟨1, 1, [1500]⟩ CameraMatrix.zeros
          CameraMatrix.zeros, StartEvent.test true]
      = StartResult.entered
          (((Receiver.new.startBegin Mode.CLOUD).callback ⟨1, 1, [⟨1, 2, 3⟩]⟩ ⟨1, 1, [1500]⟩
            CameraMatrix.zeros CameraMatrix.zeros).startSetup Arith.ieee badPoint) :=
  (start_enters_after_callback Arith.ieee badPoint Mode.CLOUD Receiver.new [] rfl rfl).2.2.2
    0 ⟨1, 1, [⟨1, 2, 3⟩]⟩ ⟨1, 1, [1500]⟩ CameraMatrix.zeros CameraMatrix.zeros true []

/-- No step of the system changes the lookup tables. -/
theorem step_lookup (t : System) (e : Event) :
    (t.step e).recv.lookupX = t.recv.lookupX ∧ (t.step e).recv.lookupY = t.recv.lookupY := by
  cases e <;> simp only [System.step] <;> (try split_ifs) <;>
    simp [Receiver.callback, Receiver.imageViewerTake, Receiver.cloudViewerTake]

/-- In every interleaving the lookup tables stay what they were when the consumer loop was
entered, and every call of `createCloud` made by `cloudViewer` used them. -/
theorem pipeline_run_tables (events : List Event) :
    ∀ p : Pipeline,
      (∀ call ∈ p.cloudCalls,
          call.lookupX = p.sys.recv.lookupX ∧ call.lookupY = p.sys.recv.lookupY) →
      (p.run events).sys.recv.lookupX = p.sys.recv.lookupX
        ∧ (p.run events).sys.recv.lookupY = p.sys.recv.lookupY
        ∧ ∀ call ∈ (p.run events).cloudCalls,
            call.lookupX = p.sys.recv.lookupX ∧ call.lookupY = p.sys.recv.lookupY := by
  induction events with
  | nil => intro p h; exact ⟨rfl, rfl, h⟩
  | cons e es ih =>
    intro p h
    have hs := step_lookup p.sys e
    have hstep : ∀ call ∈ (p.step e).cloudCalls,
        call.lookupX = (p.step e).sys.recv.lookupX
          ∧ call.lookupY = (p.step e).sys.recv.lookupY := by
      intro call hcall
      show call.lookupX = (p.sys.step e).recv.lookupX ∧ call.lookupY = (p.sys.step e).recv.lookupY
      rw [hs.1, hs.2]
      simp only [Pipeline.step] at hcall
      split_ifs at hcall
      · rcases List.mem_append.mp hcall with hc | hc
        · exact h call hc
        · simp only [List.mem_singleton] at hc
          rw [hc]
          exact ⟨rfl, rfl⟩
      · exact h call hcall
    obtain ⟨h1, h2, h3⟩ := ih (p.step e) hstep
    have e1 : (p.step e).sys.recv.lookupX = p.sys.recv.lookupX := hs.1
    have e2 : (p.step e).sys.recv.lookupY = p.sys.recv.lookupY := hs.2
    refine ⟨?_, ?_, ?_⟩
    · show ((p.step e).run es).sys.recv.lookupX = _
      rw [h1, e1]
    · show ((p.step e).run es).sys.recv.lookupY = _
      rw [h2, e2]
    · intro call hcall
      have := h3 call hcall
      rw [e1, e2] at this
      exact this

/-- C19, counterexample: `start` builds the tables for a first frame of 2x2 pixels; the
entry take of `cloudViewer` calls `createCloud` on that frame; then a frame of 1 row and 3
columns is published and taken.  The second call of `createCloud` runs with the tables of
2 and 2 entries on a depth frame with 3 columns and 1 row: the tables were not rebuilt, and
`createCloud` reads `lookupX` outside its bounds at column 2. -/
theorem lookup_tables_not_rebuilt :
    start Arith.ieee badPoint Mode.CLOUD Receiver.new
        [StartEvent.callback ⟨2, 2, [⟨1, 2, 3⟩, ⟨1, 2, 3⟩, ⟨1, 2, 3⟩, ⟨1, 2, 3⟩]⟩
          ⟨2, 2, [1500, 1500, 1500, 1500]⟩ CameraMatrix.zeros CameraMatrix.zeros,
          StartEvent.test true]
      = StartResult.entered
          (((Receiver.new.startBegin Mode.CLOUD).callback
            ⟨2, 2, [⟨1, 2, 3⟩, ⟨1, 2, 3⟩, ⟨1, 2, 3⟩, ⟨1, 2, 3⟩]⟩
            ⟨2, 2, [1500, 1500, 1500, 1500]⟩ CameraMatrix.zeros
            CameraMatrix.zeros).startSetup Arith.ieee badPoint)
      ∧ (((Pipeline.init
            (((Receiver.new.startBegin Mode.CLOUD).callback
              ⟨2, 2, [⟨1, 2, 3⟩, ⟨1, 2, 3⟩, ⟨1, 2, 3⟩, ⟨1, 2, 3⟩]⟩
              ⟨2, 2, [1500, 1500, 1500, 1500]⟩ CameraMatrix.zeros
              CameraMatrix.zeros).startSetup Arith.ieee badPoint)).run
            [Event.cloudEntry,
              Event.callback ⟨1, 3, [⟨1, 2, 3⟩, ⟨1, 2, 3⟩, ⟨1, 2, 3⟩]⟩ ⟨1, 3, [1500, 1500, 1500]⟩
                CameraMatrix.zeros CameraMatrix.zeros,
              Event.cloudTest, Event.cloudTake]).cloudCalls.map
          (fun call => (call.lookupX.length, call.lookupY.length, call.depth.cols,
            call.depth.rows)))
        = [(2, 2, 2, 2), (2, 2, 3, 1)]
      ∧ createCloud Arith.ieee
          (((Receiver.new.startBegin Mode.CLOUD).callback
            ⟨2, 2, [⟨1, 2, 3⟩, ⟨1, 2, 3⟩, ⟨1, 2, 3⟩, ⟨1, 2, 3⟩]⟩
            ⟨2, 2, [1500, 1500, 1500, 1500]⟩ CameraMatrix.zeros
            CameraMatrix.zeros).startSetup Arith.ieee badPoint).lookupX
          (((Receiver.new.startBegin Mode.CLOUD).callback
            ⟨2, 2, [⟨1, 2, 3⟩, ⟨1, 2, 3⟩, ⟨1, 2, 3⟩, ⟨1, 2, 3⟩]⟩
            ⟨2, 2, [1500, 1500, 1500, 1500]⟩ CameraMatrix.zeros
            CameraMatrix.zeros).startSetup Arith.ieee badPoint).lookupY
          ⟨1, 3, [1500, 1500, 1500]⟩ ⟨1, 3, [⟨1, 2, 3⟩, ⟨1, 2, 3⟩, ⟨1, 2, 3⟩]⟩
          (((Receiver.new.startBegin Mode.CLOUD).callback
            ⟨2, 2, [⟨1, 2, 3⟩, ⟨1, 2, 3⟩, ⟨1, 2, 3⟩, ⟨1, 2, 3⟩]⟩
            ⟨2, 2, [1500, 1500, 1500, 1500]⟩ CameraMatrix.zeros
            CameraMatrix.zeros).startSetup Arith.ieee badPoint).cloud
        = none := by
  refine ⟨by decide!, by decide!, by decide!⟩

/-- C19, as amended: the lookup tables are built once, by `start`, for the columns and rows
of the colour frame stored at that time, and no step of the callback or of the consumers
rebuilds them; so every call of `createCloud` made by `cloudViewer` runs with those tables,
and `lookupX` has as many entries as the depth frame of the call has columns (`lookupY` as
it has rows) exactly when that depth frame has the columns (rows) of the colour frame for
which `start` built the tables. -/
theorem lookup_tables_built_once (A : Arith) (blank : PointXYZRGBA) (s : Receiver)
    (events : List Event) :
    (s.startSetup A blank).lookupX.length = s.color.cols
      ∧ (s.startSetup A blank).lookupY.length = s.color.rows
      ∧ ((Pipeline.init (s.startSetup A blank)).run events).sys.recv.lookupX
          = (s.startSetup A blank).lookupX
      ∧ ((Pipeline.init (s.startSetup A blank)).run events).sys.recv.lookupY
          = (s.startSetup A blank).lookupY
      ∧ ∀ call ∈ ((Pipeline.init (s.startSetup A blank)).run events).cloudCalls,
          call.lookupX = (s.startSetup A blank).lookupX
            ∧ call.lookupY = (s.startSetup A blank).lookupY
            ∧ (call.lookupX.length = call.depth.cols ↔ call.depth.cols = s.color.cols)
            ∧ (call.lookupY.length = call.depth.rows ↔ call.depth.rows = s.color.rows) := by
  obtain ⟨-, -, -, -, -, -, -, f8, f9⟩ := startSetup_fields A blank s
  obtain ⟨h1, h2, h3⟩ := pipeline_run_tables events (Pipeline.init (s.startSetup A blank))
    (by intro call hcall; simp [Pipeline.init] at hcall)
  refine ⟨f8, f9, h1, h2, fun call hcall => ?_⟩
  obtain ⟨e1, e2⟩ := h3 call hcall
  have e1' : call.lookupX = (s.startSetup A blank).lookupX := e1
  have e2' : call.lookupY = (s.startSetup A blank).lookupY := e2
  refine ⟨e1', e2', ?_, ?_⟩
  · rw [e1', f8]
    exact eq_comm
  · rw [e2', f9]
    exact eq_comm

/-! ## Claims on `run`, `stop` and the saved files -/

/-- The steps of the frame hand-off leave mode and frame counter alone. -/
theorem step_mode_frame (t : System) (e : Event) :
    (t.step e).recv.mode = t.recv.mode ∧ (t.step e).recv.frame = t.recv.frame := by
  cases e <;> simp only [System.step] <;> (try split_ifs) <;>
    simp [Receiver.callback, Receiver.imageViewerTake, Receiver.cloudViewerTake]

/-- No step of a session changes the mode. -/
theorem session_step_mode (p : Session) (e : LoopEvent) :
    (p.step e).sys.recv.mode = p.sys.recv.mode := by
  cases e with
  | frame e => exact (step_mode_frame p.sys e).1
  | quitKey => rfl
  | imageSaveKey =>
    simp only [Session.step]
    split_ifs <;> rfl
  | cloudSaveKey => rfl
  | cloudSave =>
    simp only [Session.step]
    split_ifs <;> rfl

/-- The consumer loops never change the mode. -/
theorem session_run_mode (events : List LoopEvent) (p : Session) :
    (p.run events).sys.recv.mode = p.sys.recv.mode := by
  induction events generalizing p with
  | nil => rfl
  | cons e es ih =>
    show ((p.step e).run es).sys.recv.mode = _
    rw [ih, session_step_mode]

/-- The start-up wait never changes the mode. -/
theorem startWait_mode (A : Arith) (blank : PointXYZRGBA) (events : List StartEvent)
    (s : Receiver) :
    (∀ r, startWait A blank s events = StartResult.returned r → r.mode = s.mode)
      ∧ (∀ r, startWait A blank s events = StartResult.entered r → r.mode = s.mode) := by
  induction events generalizing s with
  | nil => exact ⟨fun r h => (by simp [startWait] at h), fun r h => (by simp [startWait] at h)⟩
  | cons e es ih =>
    cases e with
    | callback color depth ci cd =>
      simp only [startWait]
      exact ih _
    | test rosOk =>
      simp only [startWait]
      split_ifs with h1 h2
      · exact ⟨fun r h => (by cases h), fun r h => (by cases h; rfl)⟩
      · exact ih s
      · exact ⟨fun r h => (by cases h; rfl), fun r h => (by cases h)⟩

/-- C21, the code at the failing input: mode `BOTH`, `ros::ok()` false at the first test of
the start-up wait.  `start` returns without launching the image-viewer thread, and `stop`,
which finds `mode == BOTH`, calls `join` on the thread object that was never started.  In
general `stop` sets `running` to false and calls `join` exactly when the mode is `BOTH`,
while `start` launches the thread exactly when the mode is `BOTH` and the start-up wait was
passed; the two agree except after an early return in mode `BOTH`. -/
theorem stop_joins_unstarted_thread :
    run Arith.ieee badPoint Mode.BOTH Receiver.new [StartEvent.test false] []
        = RunResult.stopped { Receiver.new with mode := Mode.BOTH, running := false } false
            Join.notJoinable
      ∧ ∀ (A : Arith) (blank : PointXYZRGBA) (mode : Mode) (s : Receiver)
          (events : List StartEvent) (loop : List LoopEvent) (r : Receiver) (started : Bool)
          (join : Join),
          run A blank mode s events loop = RunResult.stopped r started join →
            r.running = false
              ∧ (started = true ↔
                  mode = Mode.BOTH ∧ ∃ s1, start A blank mode s events = StartResult.entered s1)
              ∧ (join ≠ Join.notCalled ↔ mode = Mode.BOTH)
              ∧ (join = Join.joined ↔ started = true)
              ∧ (join = Join.notJoinable ↔
                  mode = Mode.BOTH ∧ ∃ s1, start A blank mode s events = StartResult.returned s1) := by
  refine ⟨by decide, ?_⟩
  intro A blank mode s events loop r started join h
  have hm := startWait_mode A blank events (s.startBegin mode)
  unfold run at h
  cases hs : start A blank mode s events with
  | waiting s1 => simp [hs] at h
  | returned s1 =>
    have hmode : s1.mode = mode := hm.1 s1 hs
    simp only [hs, RunResult.stopped.injEq] at h
    obtain ⟨h1, h2, h3⟩ := h
    subst h1 h2 h3
    cases mode <;> simp [Receiver.stop, hmode]
  | entered s1 =>
    have hmode : s1.mode = mode := hm.2 s1 hs
    have hl := session_run_mode loop (Session.init s1)
    simp only [hs, RunResult.stopped.injEq] at h
    obtain ⟨h1, h2, h3⟩ := h
    subst h1 h2 h3
    have hl2 : (Session.run (Session.init s1) loop).sys.recv.mode = mode := by
      rw [hl]; exact hmode
    cases mode <;> simp [Receiver.stop, hl2]

/-- The character printed for a decimal digit is a digit character with that value. -/
theorem digitChar_spec (d : Nat) (hd : d < 10) :
    (Nat.digitChar d).isDigit = true ∧ (Nat.digitChar d).toNat - 48 = d := by
  interval_cases d <;> exact ⟨by decide, by decide⟩

/-- Reading digits with a carried value. -/
theorem decimal_foldl (cs : List Char) (acc : Nat) :
    cs.foldl (fun acc c => acc * 10 + (c.toNat - 48)) acc
      = acc * 10 ^ cs.length + decimalValue cs := by
  induction cs generalizing acc with
  | nil => simp [decimalValue]
  | cons c cs ih =>
    simp only [List.foldl_cons, List.length_cons, decimalValue]
    rw [ih, ih (0 * 10 + (c.toNat - 48))]
    ring

/-- The value of a digit string with one more leading character. -/
theorem decimalValue_cons (c : Char) (cs : List Char) :
    decimalValue (c :: cs) = (c.toNat - 48) * 10 ^ cs.length + decimalValue cs := by
  simp only [decimalValue, List.foldl_cons]
  rw [decimal_foldl]
  simp [decimalValue]

/-- The digits `Nat.toDigits` produces denote the number. -/
theorem toDigitsCore_value (fuel n : Nat) (ds : List Char) (h : n < fuel) :
    decimalValue (Nat.toDigitsCore 10 fuel n ds) = n * 10 ^ ds.length + decimalValue ds := by
  induction fuel generalizing n ds with
  | zero => omega
  | succ fuel ih =>
    have hd := digitChar_spec (n % 10) (Nat.mod_lt n (by decide))
    simp only [Nat.toDigitsCore]
    split_ifs with h0
    · rw [decimalValue_cons, hd.2]
      have : n % 10 = n := by omega
      rw [this]
    · rw [ih (n / 10) _ (by omega), decimalValue_cons, hd.2, List.length_cons, pow_succ]
      have e : n = 10 * (n / 10) + n % 10 := (Nat.div_add_mod n 10).symm
      generalize n / 10 = q at e ⊢
      generalize n % 10 = m at e ⊢
      subst e
      ring

/-- The characters `Nat.toDigits` produces are digits. -/
theorem toDigitsCore_isDigit (fuel n : Nat) (ds : List Char)
    (h : ∀ c ∈ ds, c.isDigit = true) :
    ∀ c ∈ Nat.toDigitsCore 10 fuel n ds, c.isDigit = true := by
  induction fuel generalizing n ds with
  | zero => exact h
  | succ fuel ih =>
    have hd := digitChar_spec (n % 10) (Nat.mod_lt n (by decide))
    have h2 : ∀ c ∈ Nat.digitChar (n % 10) :: ds, c.isDigit = true := by
      intro c hc
      rcases List.mem_cons.mp hc with rfl | hc
      · exact hd.1
      · exact h c hc
    simp only [Nat.toDigitsCore]
    split_ifs with h0
    · exact h2
    · exact ih _ _ h2

/-- Leading zeros do not change the number denoted. -/
theorem decimalValue_zeros (m : Nat) (cs : List Char) :
    decimalValue (List.replicate m '0' ++ cs) = decimalValue cs := by
  induction m with
  | zero => rfl
  | succ m ih =>
    rw [List.replicate_succ, List.cons_append, decimalValue_cons, ih]
    have : ('0' : Char).toNat - 48 = 0 := by decide
    rw [this]; simp

/-- The padded counter is a string of at least four digits that denotes the counter. -/
theorem setw4_spec (frame : Nat) :
    decimalValue (setw4 frame).data = frame
      ∧ (∀ c ∈ (setw4 frame).data, c.isDigit = true)
      ∧ 4 ≤ (setw4 frame).length := by
  have hdata : (setw4 frame).data
      = List.replicate (4 - (Nat.toDigits 10 frame).length) '0' ++ Nat.toDigits 10 frame := rfl
  refine ⟨?_, ?_, ?_⟩
  · rw [hdata, decimalValue_zeros]
    have := toDigitsCore_value (frame + 1) frame [] (by omega)
    simpa [decimalValue] using this
  · rw [hdata]
    intro c hc
    rcases List.mem_append.mp hc with hc | hc
    · rw [List.eq_of_mem_replicate hc]; decide
    · exact toDigitsCore_isDigit (frame + 1) frame [] (by simp) c hc
  · show 4 ≤ (setw4 frame).data.length
    rw [hdata, List.length_append, List.length_replicate]
    omega

/-- Reading while a test holds stops at the first element that fails it. -/
theorem takeWhile_append_stop {α : Type} (p : α → Bool) (ds : List α) (x : α) (rest : List α)
    (hds : ∀ c ∈ ds, p c = true) (hx : p x = false) :
    (ds ++ x :: rest).takeWhile p = ds := by
  induction ds with
  | nil => simp [List.takeWhile, hx]
  | cons d ds ih =>
    have hd : p d = true := hds d (List.mem_cons_self d ds)
    rw [List.cons_append, List.takeWhile_cons, hd]
    simp only [if_true]
    rw [ih (fun c hc => hds c (List.mem_cons_of_mem d hc))]

/-- The counter can be read back from each of the four file names. -/
theorem frameOfName_saveNames (frame : Nat) :
    ∀ name ∈ saveNames frame, frameOfName name = frame := by
  have key : ∀ rest : List Char,
      frameOfName (baseName frame ++ String.mk ('_' :: rest)) = frame := by
    intro rest
    have hdata : (baseName frame ++ String.mk ('_' :: rest)).data
        = '.' :: '/' :: ((setw4 frame).data ++ '_' :: rest) := by
      simp [baseName, String.data_append]
    unfold frameOfName
    rw [hdata]
    simp only [List.drop_succ_cons, List.drop_zero]
    rw [takeWhile_append_stop _ _ _ _ (setw4_spec frame).2.1 (by decide)]
    exact (setw4_spec frame).1
  intro name hname
  simp only [saveNames, List.mem_cons, List.mem_singleton, List.not_mem_nil, or_false] at hname
  rcases hname with rfl | rfl | rfl | rfl
  · exact key "cloud.pcd".data
  · exact key "color.jpg".data
  · exact key "depth.png".data
  · exact key "depth_colored.png".data

/-- A call of `saveCloudAndImages` keeps the invariant of the session. -/
theorem sessionInv_save {p : Session} (h : SessionInv p) : SessionInv p.save := by
  constructor
  · show (p.sys.recv.frame + 1) % sizeRange
        = (p.files ++ [saveNames p.sys.recv.frame]).length % sizeRange
    rw [h.counter, List.length_append, List.length_singleton, Nat.mod_add_mod]
  · intro i hi
    show (p.files ++ [saveNames p.sys.recv.frame])[i]? = _
    simp only [Session.save, List.length_append, List.length_singleton] at hi
    by_cases hlt : i < p.files.length
    · rw [List.getElem?_append_left hlt]
      exact h.names i hlt
    · have hi2 : i = p.files.length := by omega
      subst hi2
      rw [List.getElem?_append_right (le_refl _), h.counter]
      simp

/-- Every step of a session keeps its invariant. -/
theorem sessionInv_step {p : Session} (h : SessionInv p) (e : LoopEvent) :
    SessionInv (p.step e) := by
  cases e with
  | frame e =>
    exact ⟨by rw [show (p.step (LoopEvent.frame e)).sys.recv.frame
        = (p.sys.step e).recv.frame from rfl, (step_mode_frame p.sys e).2]; exact h.counter,
      h.names⟩
  | quitKey => exact ⟨h.counter, h.names⟩
  | imageSaveKey =>
    simp only [Session.step]
    split_ifs
    · exact sessionInv_save h
    · exact ⟨h.counter, h.names⟩
  | cloudSaveKey => exact ⟨h.counter, h.names⟩
  | cloudSave =>
    simp only [Session.step]
    split_ifs
    · have hc : SessionInv
          { p with sys := { p.sys with recv := { p.sys.recv with save := false } } } :=
        ⟨h.counter, h.names⟩
      exact sessionInv_save hc
    · exact h

/-- Every run of a session keeps its invariant. -/
theorem sessionInv_run (events : List LoopEvent) {p : Session} (h : SessionInv p) :
    SessionInv (p.run events) := by
  induction events generalizing p with
  | nil => exact h
  | cons e es ih => exact ih (sessionInv_step h e)

/-- In mode `IMAGE` every save key read by `imageViewer` is a call of
`saveCloudAndImages`. -/
theorem imageSaveKeys_files (n : Nat) (p : Session) (hm : p.sys.recv.mode = Mode.IMAGE) :
    (p.run (List.replicate n LoopEvent.imageSaveKey)).files.length = p.files.length + n := by
  induction n generalizing p with
  | zero => rfl
  | succ n ih =>
    have hstep : p.step LoopEvent.imageSaveKey = p.save := by
      simp [Session.step, hm]
    show ((p.step LoopEvent.imageSaveKey).run (List.replicate n LoopEvent.imageSaveKey)).files.length
      = _
    rw [hstep, ih p.save (by simpa [Session.save, Receiver.saveCloudAndImages] using hm)]
    simp [Session.save]
    omega

/-- C22, counterexample: in mode `IMAGE`, after `2 ^ 64` saves the `size_t` counter is back
at 0, so the call number `2 ^ 64` writes `./0000_cloud.pcd`, `./0000_color.jpg`,
`./0000_depth.png` and `./0000_depth_colored.png`, the very names of call number 0, and not
names made from `18446744073709551616`. -/
theorem saveCloudAndImages_counter_wraps :
    (Session.run (Session.init { Receiver.new with mode := Mode.IMAGE })
        (List.replicate (2 ^ 64 + 1) LoopEvent.imageSaveKey)).files[2 ^ 64]?
        = some ["./0000_cloud.pcd", "./0000_color.jpg", "./0000_depth.png",
            "./0000_depth_colored.png"]
      ∧ (Session.run (Session.init { Receiver.new with mode := Mode.IMAGE })
          (List.replicate (2 ^ 64 + 1) LoopEvent.imageSaveKey)).files[0]?
        = some ["./0000_cloud.pcd", "./0000_color.jpg", "./0000_depth.png",
            "./0000_depth_colored.png"]
      ∧ ({ Receiver.new with frame := 2 ^ 64 - 1 } : Receiver).saveCloudAndImages.1.frame = 0 := by
  have h0 : SessionInv (Session.init { Receiver.new with mode := Mode.IMAGE }) :=
    ⟨rfl, fun i hi => by simp [Session.init] at hi⟩
  have inv := sessionInv_run (List.replicate (2 ^ 64 + 1) LoopEvent.imageSaveKey) h0
  have hlen := imageSaveKeys_files (2 ^ 64 + 1)
    (Session.init { Receiver.new with mode := Mode.IMAGE }) rfl
  have hl : (Session.init { Receiver.new with mode := Mode.IMAGE }).files.length = 0 := rfl
  rw [hl, Nat.zero_add] at hlen
  have e1 : (2 : Nat) ^ 64 % sizeRange = 0 := by decide
  have e2 : 0 % sizeRange = 0 := by decide
  have e3 : saveNames 0 = ["./0000_cloud.pcd", "./0000_color.jpg", "./0000_depth.png",
      "./0000_depth_colored.png"] := by decide
  refine ⟨?_, ?_, by decide⟩
  · rw [inv.names (2 ^ 64) (by rw [hlen]; exact Nat.lt_succ_self _), e1, e3]
  · rw [inv.names 0 (by rw [hlen]; exact Nat.succ_pos _), e2, e3]

/-- C22, as amended: for `k < 2 ^ 64`, the range of the `size_t` counter, the `k`-th call
of `saveCloudAndImages` since construction (`k = 0, 1, 2, ...`) writes four files named
`"./"`, then `k` zero-padded to at least four digits, then `"_cloud.pcd"`, `"_color.jpg"`,
`"_depth.png"` and `"_depth_colored.png"`; each call increases the frame counter by exactly
one (as long as the result is in range); and no file name of the `k`-th save is a file name
of another save `j < 2 ^ 64`.  The calls may be interleaved in any way with callbacks, frame
copies and key presses. -/
theorem saveCloudAndImages_names (r : Receiver) (hr : r.frame = 0) (events : List LoopEvent)
    (k : Nat) (hk : k < sizeRange) (hsaved : k < (Session.run (Session.init r) events).files.length) :
    (Session.run (Session.init r) events).files[k]?
        = some ["./" ++ setw4 k ++ "_cloud.pcd", "./" ++ setw4 k ++ "_color.jpg",
                "./" ++ setw4 k ++ "_depth.png", "./" ++ setw4 k ++ "_depth_colored.png"]
      ∧ (setw4 k).data
          = List.replicate (4 - (Nat.repr k).length) '0' ++ (Nat.repr k).data
      ∧ 4 ≤ (setw4 k).length
      ∧ (∀ s : Receiver, s.frame + 1 < sizeRange →
          s.saveCloudAndImages.1.frame = s.frame + 1)
      ∧ (Session.run (Session.init r) events).sys.recv.frame
          = (Session.run (Session.init r) events).files.length % sizeRange
      ∧ ∀ (j : Nat) (names : List String), j < sizeRange → j ≠ k →
          (Session.run (Session.init r) events).files[j]? = some names →
          ∀ name ∈ names, name ∉ saveNames k := by
  have h0 : SessionInv (Session.init r) := ⟨hr, fun i hi => by simp [Session.init] at hi⟩
  have inv := sessionInv_run events h0
  refine ⟨?_, rfl, (setw4_spec k).2.2, ?_, inv.counter, ?_⟩
  · rw [inv.names k hsaved, Nat.mod_eq_of_lt hk]
    rfl
  · intro s hs
    show (s.frame + 1) % sizeRange = s.frame + 1
    exact Nat.mod_eq_of_lt hs
  · intro j names hj hjk hnames name hname hmem
    have hjl : j < (Session.run (Session.init r) events).files.length := by
      by_contra hge
      rw [List.getElem?_eq_none (by omega)] at hnames
      cases hnames
    rw [inv.names j hjl, Nat.mod_eq_of_lt hj] at hnames
    cases hnames
    have e1 := frameOfName_saveNames j name hname
    have e2 := frameOfName_saveNames k name hmem
    omega

/-- Witness for C22: two saves in mode `CLOUD`; the second writes the files of counter 1. -/
theorem saveCloudAndImages_names_witness :
    (Session.run (Session.init Receiver.new)
        [LoopEvent.cloudSaveKey, LoopEvent.cloudSave, LoopEvent.cloudSaveKey,
          LoopEvent.cloudSave]).files[1]?
      = some ["./0001_cloud.pcd", "./0001_color.jpg", "./0001_depth.png",
          "./0001_depth_colored.png"] :=
  (saveCloudAndImages_names Receiver.new rfl
    [LoopEvent.cloudSaveKey, LoopEvent.cloudSave, LoopEvent.cloudSaveKey, LoopEvent.cloudSave]
    1 (by decide) (by decide)).1.trans (by decide)

/-! ## Claims on the command line of `main` -/

/-- One argument: a help flag ends the loop; any other argument sets the namespace unless
it is a keyword, and sets the topics if it is a resolution keyword. -/
theorem parseArg_spec (k : K2Definitions) (o : MainLocals) (a : String) :
    (a ∈ ["-h", "--help", "-?", "--?"] → parseArg k o a = none)
      ∧ (a ∉ ["-h", "--help", "-?", "--?"] →
          ∃ o1, parseArg k o a = some o1
            ∧ o1.ns = (if a ∈ ["qhd", "hd", "sd", "ir", "approx", "compressed", "image", "cloud",
                  "both"] then o.ns else a)
            ∧ (o1.topicColor, o1.topicDepth)
                = (if a ∈ ["qhd", "hd", "sd", "ir"] then baseTopics k a
                    else (o.topicColor, o.topicDepth))) := by
  constructor
  · intro h
    simp only [List.mem_cons, List.mem_singleton, List.not_mem_nil, or_false] at h
    simp [parseArg, h]
  · intro h
    simp only [List.mem_cons, List.mem_singleton, List.not_mem_nil, or_false, not_or] at h
    obtain ⟨h1, h2, h3, h4⟩ := h
    unfold parseArg
    simp only [h1, h2, h3, h4, or_self, if_false]
    by_cases q1 : a = "qhd"
    · subst q1; simp [baseTopics]
    by_cases q2 : a = "hd"
    · subst q2; simp [baseTopics]
    by_cases q3 : a = "ir"
    · subst q3; simp [baseTopics]
    by_cases q4 : a = "sd"
    · subst q4; simp [baseTopics]
    by_cases q5 : a = "approx"
    · subst q5; simp
    by_cases q6 : a = "compressed"
    · subst q6; simp
    by_cases q7 : a = "image"
    · subst q7; simp
    by_cases q8 : a = "cloud"
    · subst q8; simp
    by_cases q9 : a = "both"
    · subst q9; simp
    simp [q1, q2, q3, q4, q5, q6, q7, q8, q9]

/-- The last element selected by `p`, with a default, one element further to the left. -/
theorem getLast_filter_cons {α β : Type} (p : α → Bool) (f : α → β) (a : α) (l : List α)
    (d : β) :
    (((a :: l).filter p).getLast?.map f).getD d
      = (((l.filter p).getLast?).map f).getD (if p a = true then f a else d) := by
  by_cases h : p a = true
  · rw [List.filter_cons_of_pos h, List.getLast?_cons, if_pos h]
    cases (l.filter p).getLast? <;> rfl
  · rw [List.filter_cons_of_neg h, if_neg h]

/-- The loop over the arguments when no help flag occurs: the namespace is the last
argument that is not a keyword, the topics are those of the last resolution keyword. -/
theorem parseArgs_spec (k : K2Definitions) (args : List String) (o : MainLocals)
    (hhelp : ∀ a ∈ args, a ∉ ["-h", "--help", "-?", "--?"]) :
    ∃ o1, parseArgs k o args = some o1
      ∧ o1.ns = (((args.filter (fun a => decide (a ∉ ["qhd", "hd", "sd", "ir", "approx",
            "compressed", "image", "cloud", "both"]))).getLast?).map id).getD o.ns
      ∧ (o1.topicColor, o1.topicDepth)
          = (((args.filter (fun a => decide (a ∈ ["qhd", "hd", "sd", "ir"]))).getLast?).map
              (baseTopics k)).getD (o.topicColor, o.topicDepth) := by
  induction args generalizing o with
  | nil => exact ⟨o, rfl, rfl, rfl⟩
  | cons a rest ih =>
    obtain ⟨o1, e1, e2, e3⟩ := (parseArg_spec k o a).2 (hhelp a (List.mem_cons_self a rest))
    obtain ⟨o2, f1, f2, f3⟩ := ih o1 (fun b hb => hhelp b (List.mem_cons_of_mem a hb))
    refine ⟨o2, ?_, ?_, ?_⟩
    · simp only [parseArgs, e1]
      exact f1
    · rw [f2, getLast_filter_cons, e2]
      by_cases hk : a ∈ ["qhd", "hd", "sd", "ir", "approx", "compressed", "image", "cloud",
          "both"]
      · simp only [hk, if_true, not_true_eq_false, decide_False, Bool.false_eq_true, if_false]
      · simp only [hk, if_false, not_false_eq_true, decide_True, if_true, id]
    · rw [f3, getLast_filter_cons, e3]
      by_cases hk : a ∈ ["qhd", "hd", "sd", "ir"]
      · simp only [hk, if_true, decide_True]
      · simp only [hk, if_false, decide_False, Bool.false_eq_true]

/-- The loop over the arguments ends with the usage exactly when a help flag occurs. -/
theorem parseArgs_none (k : K2Definitions) (args : List String) (o : MainLocals) :
    parseArgs k o args = none ↔ ∃ a ∈ args, a ∈ ["-h", "--help", "-?", "--?"] := by
  induction args generalizing o with
  | nil => simp [parseArgs]
  | cons a rest ih =>
    by_cases h : a ∈ ["-h", "--help", "-?", "--?"]
    · have := (parseArg_spec k o a).1 h
      simp only [parseArgs, this, true_iff]
      exact ⟨a, List.mem_cons_self a rest, h⟩
    · obtain ⟨o1, e1, -⟩ := (parseArg_spec k o a).2 h
      simp only [parseArgs, e1, ih o1, List.mem_cons, exists_eq_or_imp]
      constructor
      · intro hh; exact Or.inr hh
      · rintro (hh | hh)
        · exact absurd (by simpa using hh) h
        · exact hh

/-- C23: for every argument list without a help flag (`-h`, `--help`, `-?`, `--?`), in a run
of `main` that gets to its arguments (ROS is up and, in `viewer.cpp`, a CUDA device is
present), the namespace is the last argument that is not one of the keywords `qhd`, `hd`,
`sd`, `ir`, `approx`, `compressed`, `image`, `cloud`, `both`, or the default namespace when
there is none; the colour and depth topics with which the `Receiver` is constructed are
`"/"`, the namespace and the base topic of the last resolution keyword (`qhd` when there is
none). -/
theorem main_namespace_topics (k : K2Definitions) (env : MainEnv) (path : String)
    (args : List String) (hros : env.rosOk = true) (hcuda : env.cudaDevices ≠ 0)
    (hhelp : ∀ a ∈ args, a ∉ ["-h", "--help", "-?", "--?"]) :
    ∃ (ns : String) (r : ReceiverArgs),
      ns = ((args.filter (fun a => decide (a ∉ ["qhd", "hd", "sd", "ir", "approx",
              "compressed", "image", "cloud", "both"]))).getLast?).getD k.K2_DEFAULT_NS
        ∧ main k env path args = { exitCode := 0, usage := none, receiver := some r }
        ∧ ViewerPointer.main k env path args
            = { exitCode := 0, usage := none, receiver := some r }
        ∧ r.topicColor = "/" ++ ns
            ++ (baseTopics k (((args.filter (fun a => decide (a ∈ ["qhd", "hd", "sd",
                  "ir"]))).getLast?).getD "qhd")).1
        ∧ r.topicDepth = "/" ++ ns
            ++ (baseTopics k (((args.filter (fun a => decide (a ∈ ["qhd", "hd", "sd",
                  "ir"]))).getLast?).getD "qhd")).2 := by
  obtain ⟨o, e1, e2, e3⟩ := parseArgs_spec k args (MainLocals.initial k) hhelp
  have hns : o.ns = ((args.filter (fun a => decide (a ∉ ["qhd", "hd", "sd", "ir", "approx",
      "compressed", "image", "cloud", "both"]))).getLast?).getD k.K2_DEFAULT_NS := by
    rw [e2]
    cases (args.filter (fun a => decide (a ∉ ["qhd", "hd", "sd", "ir", "approx",
      "compressed", "image", "cloud", "both"]))).getLast? <;> rfl
  have htop : (o.topicColor, o.topicDepth)
      = baseTopics k (((args.filter (fun a => decide (a ∈ ["qhd", "hd", "sd",
          "ir"]))).getLast?).getD "qhd") := by
    rw [e3]
    cases (args.filter (fun a => decide (a ∈ ["qhd", "hd", "sd", "ir"]))).getLast? <;> rfl
  refine ⟨o.ns, ⟨"/" ++ o.ns ++ o.topicColor, "/" ++ o.ns ++ o.topicDepth, o.useExact,
    o.useCompressed, o.mode⟩, hns, ?_, ?_, ?_, ?_⟩
  · simp [main, mainArgs, hros, hcuda, e1]
  · simp [ViewerPointer.main, mainArgs, hros, e1]
  · show "/" ++ o.ns ++ o.topicColor = _
    rw [← htop]
  · show "/" ++ o.ns ++ o.topicDepth = _
    rw [← htop]

/-- Witness for C23: `viewer hd myns sd other` selects the namespace `other` and the `sd`
topics. -/
theorem main_namespace_topics_witness :
    ∃ (ns : String) (r : ReceiverArgs),
      ns = "other"
        ∧ main ⟨"kinect2", "/hd", "/qhd", "/sd", "_rect", "/image_color", "/image_depth",
            "/image_ir"⟩ ⟨true, 1⟩ "viewer" ["hd", "myns", "sd", "other"]
            = { exitCode := 0, usage := none, receiver := some r }
        ∧ r.topicColor = "/other/sd/image_color_rect"
        ∧ r.topicDepth = "/other/sd/image_depth_rect" := by
  obtain ⟨ns, r, h1, h2, -, h4, h5⟩ := main_namespace_topics
    ⟨"kinect2", "/hd", "/qhd", "/sd", "_rect", "/image_color", "/image_depth", "/image_ir"⟩
    ⟨true, 1⟩ "viewer" ["hd", "myns", "sd", "other"] rfl (by decide) (by decide)
  have e : ns = "other" := by rw [h1]; decide
  refine ⟨ns, r, e, h2, ?_, ?_⟩
  · rw [h4, e]; decide
  · rw [h5, e]; decide

/-- C24, counterexample: with `-h` as the only argument and no CUDA device, `main` of
`viewer.cpp` returns 0 without printing the usage; so does either `main` when `ros::ok()`
fails after `ros::init`. -/
theorem main_help_without_cuda :
    (main ⟨"kinect2", "/hd", "/qhd", "/sd", "_rect", "/image_color", "/image_depth",
        "/image_ir"⟩ ⟨true, 0⟩ "viewer" ["-h"])
        = { exitCode := 0, usage := none, receiver := none }
      ∧ (main ⟨"kinect2", "/hd", "/qhd", "/sd", "_rect", "/image_color", "/image_depth",
          "/image_ir"⟩ ⟨false, 1⟩ "viewer" ["-h"])
          = { exitCode := 0, usage := none, receiver := none }
      ∧ (ViewerPointer.main ⟨"kinect2", "/hd", "/qhd", "/sd", "_rect", "/image_color",
          "/image_depth", "/image_ir"⟩ ⟨false, 1⟩ "viewer" ["-h"])
          = { exitCode := 0, usage := none, receiver := none } := by
  refine ⟨by decide, by decide, by decide⟩

/-- C24, as amended: for every argument list containing `-h` or `--help`, whatever the
other arguments and the environment, `main` returns 0 without constructing or running the
`Receiver`; it prints the usage text (for `argv[0]`) exactly when `ros::ok()` holds after
`ros::init` and, in `viewer.cpp`, the CUDA device count is not 0; otherwise it has returned
before it looks at the arguments and prints nothing. -/
theorem main_help (k : K2Definitions) (env : MainEnv) (path : String) (args : List String)
    (h : "-h" ∈ args ∨ "--help" ∈ args) :
    (main k env path args).exitCode = 0
      ∧ (main k env path args).receiver = none
      ∧ (ViewerPointer.main k env path args).exitCode = 0
      ∧ (ViewerPointer.main k env path args).receiver = none
      ∧ (env.rosOk = true → env.cudaDevices ≠ 0 → (main k env path args).usage = some path)
      ∧ (env.rosOk = true → (ViewerPointer.main k env path args).usage = some path)
      ∧ (env.rosOk = false ∨ env.cudaDevices = 0 → (main k env path args).usage = none)
      ∧ (env.rosOk = false → (ViewerPointer.main k env path args).usage = none) := by
  have hp : parseArgs k (MainLocals.initial k) args = none := by
    rw [parseArgs_none]
    rcases h with h | h
    · exact ⟨"-h", h, by decide⟩
    · exact ⟨"--help", h, by decide⟩
  have hm : mainArgs k path args = { exitCode := 0, usage := some path, receiver := none } := by
    simp [mainArgs, hp]
  refine ⟨?_, ?_, ?_, ?_, ?_, ?_, ?_, ?_⟩
  · unfold main; split_ifs <;> simp [hm]
  · unfold main; split_ifs <;> simp [hm]
  · unfold ViewerPointer.main; split_ifs <;> simp [hm]
  · unfold ViewerPointer.main; split_ifs <;> simp [hm]
  · intro h1 h2; simp [main, h1, h2, hm]
  · intro h1; simp [ViewerPointer.main, h1, hm]
  · rintro (h1 | h1)
    · simp [main, h1]
    · unfold main; split_ifs <;> simp_all
  · intro h1; simp [ViewerPointer.main, h1]

/-- Witness for C24: `viewer sd --help` with ROS up and one CUDA device prints the usage. -/
theorem main_help_witness :
    ("-h" ∈ ["sd", "--help"] ∨ "--help" ∈ ["sd", "--help"])
      ∧ (main ⟨"kinect2", "/hd", "/qhd", "/sd", "_rect", "/image_color", "/image_depth",
          "/image_ir"⟩ ⟨true, 1⟩ "viewer" ["sd", "--help"]).usage = some "viewer" :=
  ⟨by decide, (main_help ⟨"kinect2", "/hd", "/qhd", "/sd", "_rect", "/image_color",
    "/image_depth", "/image_ir"⟩ ⟨true, 1⟩ "viewer" ["sd", "--help"] (by decide)).2.2.2.2.1 rfl
    (by decide)⟩

/-! ## Claims on the depth threshold, the filter covariance and the cloud indices -/

/-- C26, the code at the failing input: a depth pixel of raw value 1 (1 mm).  Its `float`
depth value `1 / 1000.0f` is `8589935 / 2 ^ 33`, which is above the `double` constant `0.001`
it is compared with, so `createCloud` writes a valid point (`z` that value, the colour of the
pixel, alpha 255) and not the invalid one it writes for raw depth 0; the smallest raw depth
with a valid point is 1 mm, not 2 mm.  Were both sides the exact `1 / 1000`, the pixel would
be invalid. -/
theorem createCloud_one_millimetre_valid :
    createCloud Arith.ieee [FP.fin 1] [FP.fin 1] ⟨1, 1, [1]⟩ ⟨1, 1, [⟨10, 20, 30⟩]⟩ [badPoint]
        = some [⟨FP.fin (8589935 / 8589934592), FP.fin (8589935 / 8589934592),
                  FP.fin (8589935 / 8589934592), 30, 20, 10, 255⟩]
      ∧ createCloud Arith.ieee [FP.fin 1] [FP.fin 1] ⟨1, 1, [0]⟩ ⟨1, 1, [⟨10, 20, 30⟩]⟩
          [badPoint] = some [badPoint]
      ∧ (depthValue Arith.ieee 1).le (depthThreshold Arith.ieee) = false
      ∧ (depthThreshold Arith.ieee).lt (depthValue Arith.ieee 1) = true
      ∧ invalidDepth Arith.ieee 1 = false
      ∧ invalidDepth Arith.ieee 0 = true
      ∧ invalidDepth Arith.exact 1 = true := by
  refine ⟨by decide!, by decide!, by decide!, by decide!, by decide!, by decide!, by decide!⟩

/-- The filter after a sequence of calls of `kalman` is a reachable filter state. -/
theorem kalmanCalls_reachable (calls : List KalmanCall) : Reachable (kalmanCalls calls) := by
  induction calls using List.reverseRecOn with
  | nil => exact Reachable.main
  | append_singleton cs c ih =>
    simp only [kalmanCalls, List.foldl_append, List.foldl_cons, List.foldl_nil]
    exact Reachable.kalman c.deltaT c.measurement _ ih

/-- C27: from the identity error covariance set in `main`, after any finite sequence of
calls of `kalman` with arbitrary `deltaT` and observations the a-posteriori error covariance
is symmetric and positive semidefinite (exact arithmetic); in any further call the gain is
the quotient by the innovation variance `H P' Hᵀ + R`, which is the predicted position
variance plus `Rt` and so at least `Rt = 30 > 0`: the correction never divides by zero. -/
theorem kalman_covariance_psd (calls : List KalmanCall) (deltaT z : ℚ) :
    mainKF.errorCovPost = Mat22.identity 1
      ∧ (kalmanCalls calls).errorCovPost.m01 = (kalmanCalls calls).errorCovPost.m10
      ∧ (kalmanCalls calls).errorCovPost.PosSemidef
      ∧ (∀ x y : ℚ, 0 ≤ (kalmanCalls calls).errorCovPost.m00 * x ^ 2
            + 2 * (kalmanCalls calls).errorCovPost.m01 * x * y
            + (kalmanCalls calls).errorCovPost.m11 * y ^ 2)
      ∧ (kalman deltaT z (kalmanCalls calls)).1.gain
          = ⟨(kalmanModel deltaT (kalmanCalls calls)).predict.errorCovPre.m00
                / (kalmanModel deltaT (kalmanCalls calls)).predict.innovationCov,
             (kalmanModel deltaT (kalmanCalls calls)).predict.errorCovPre.m01
                / (kalmanModel deltaT (kalmanCalls calls)).predict.innovationCov⟩
      ∧ (kalmanModel deltaT (kalmanCalls calls)).predict.innovationCov
          = (kalmanModel deltaT (kalmanCalls calls)).predict.errorCovPre.m00 + Rt
      ∧ Rt = 30
      ∧ Rt ≤ (kalmanModel deltaT (kalmanCalls calls)).predict.innovationCov
      ∧ (kalmanModel deltaT (kalmanCalls calls)).predict.innovationCov ≠ 0 := by
  have inv := reachable_inv (kalmanCalls_reachable calls)
  have hm := kalmanModel_measurement deltaT (kalmanCalls calls)
  have hH : (kalmanModel deltaT (kalmanCalls calls)).predict.measurementMatrix = ⟨1, 0⟩ := by
    rw [hm.1, inv.measurement]
  have hR : (kalmanModel deltaT (kalmanCalls calls)).predict.measurementNoiseCov = Rt := by
    rw [hm.2, inv.noise]
  have hpre := predict_psd deltaT (kalmanCalls calls) inv.psd
  have hcov : (kalmanModel deltaT (kalmanCalls calls)).predict.innovationCov
      = (kalmanModel deltaT (kalmanCalls calls)).predict.errorCovPre.m00 + Rt := by
    simp [KalmanFilter.innovationCov, hH, hR, Mat12.mulMat, Mat12.mulTranspose]
  have hRt : (0 : ℚ) < Rt := by norm_num [Rt]
  have hge : Rt ≤ (kalmanModel deltaT (kalmanCalls calls)).predict.innovationCov := by
    rw [hcov]
    linarith [hpre.2.1]
  refine ⟨rfl, inv.psd.1, inv.psd, fun x y => ?_, ?_, hcov, rfl, hge, ?_⟩
  · obtain ⟨hs, ha, hd, hdet⟩ := inv.psd
    exact quadForm_nonneg ha hd (by rw [hs] at hdet ⊢; exact hdet) x y
  · show ((kalmanModel deltaT (kalmanCalls calls)).predict.correct z).gain = _
    rw [correct_gain _ z hH hR, hcov]
  · exact ne_of_gt (lt_of_lt_of_le hRt hge)

/-- A property kept by every successful step of a loop holds of the result of the loop. -/
theorem foldlM_option_invariant {σ α : Type} (P : σ → Prop) (f : σ → α → Option σ)
    (hf : ∀ s a t, P s → f s a = some t → P t) (l : List α) (s t : σ) (hs : P s)
    (h : l.foldlM f s = some t) : P t := by
  induction l generalizing s with
  | nil =>
    simp only [List.foldlM_nil, Option.pure_def, Option.some.injEq] at h
    exact h ▸ hs
  | cons a l ih =>
    rw [List.foldlM_cons] at h
    cases hfa : f s a with
    | none => simp [hfa] at h
    | some u =>
      rw [hfa] at h
      exact ih u (hf s a u hs hfa) h

/-- A row of `createCloud` keeps the number of points of the cloud. -/
theorem createCloudRow_length (A : Arith) (lookupX lookupY : List FP) (depth : Mat Nat)
    (color : Mat Vec3b) (points out : List PointXYZRGBA) (r : Nat)
    (h : createCloudRow A lookupX lookupY depth color points r = some out) :
    out.length = points.length := by
  unfold createCloudRow at h
  cases hy : lookupY[r]? with
  | none => simp [hy] at h
  | some y =>
    simp only [hy, Option.bind_eq_bind, Option.some_bind] at h
    refine foldlM_option_invariant (fun pts => pts.length = points.length) _ ?_ _ points out rfl h
    intro s c t hs hst
    cases hp : cloudPoint A lookupX y depth color r c with
    | none => simp [hp] at hst
    | some p =>
      simp only [hp, Option.bind_eq_bind, Option.some_bind] at hst
      split_ifs at hst
      simp only [Option.some.injEq] at hst
      rw [← hst, List.length_set, hs]

/-- The rows of `createCloud` in `viewerPointer.cpp` keep the number of points. -/
theorem pointer_rows_length (A : Arith) (lookupX lookupY : List FP) (depth : Mat Nat)
    (color : Mat Vec3b) (points : List PointXYZRGBA) (rows : List Nat)
    (st : List PointXYZRGBA × List FP)
    (h : rows.foldlM (ViewerPointer.createCloudRow A lookupX lookupY depth color) (points, [])
      = some st) : st.1.length = points.length := by
  refine foldlM_option_invariant (fun s => s.1.length = points.length) _ ?_ _ _ st rfl h
  intro s r t hs hst
  unfold ViewerPointer.createCloudRow at hst
  cases hrow : createCloudRow A lookupX lookupY depth color s.1 r with
  | none => simp [hrow] at hst
  | some pts =>
    simp only [hrow, Option.bind_eq_bind, Option.some_bind] at hst
    cases hp : pts[r * depth.cols + depth.cols]? with
    | none => simp [hp] at hst
    | some p =>
      simp only [hp, Option.some_bind, Option.some.injEq] at hst
      rw [← hst]
      show pts.length = points.length
      rw [createCloudRow_length A lookupX lookupY depth color s.1 pts r hrow, hs]

/-- In `viewerPointer.cpp` the read of `itP->z` after the last row is outside a cloud of
`rows * cols` points, whatever the frame. -/
theorem pointer_createCloud_none (A : Arith) (lookupX lookupY : List FP) (depth : Mat Nat)
    (color : Mat Vec3b) (points : List PointXYZRGBA)
    (hlen : points.length ≤ depth.rows * depth.cols) (hrows : 0 < depth.rows) :
    ViewerPointer.createCloud A lookupX lookupY depth color points = none := by
  obtain ⟨k, hk⟩ : ∃ k, depth.rows = k + 1 := ⟨depth.rows - 1, by omega⟩
  unfold ViewerPointer.createCloud
  rw [hk, List.range_succ, List.foldlM_append]
  cases hpre : (List.range k).foldlM
      (ViewerPointer.createCloudRow A lookupX lookupY depth color) (points, []) with
  | none => rfl
  | some st =>
    have hst := pointer_rows_length A lookupX lookupY depth color points _ st hpre
    simp only [Option.bind_eq_bind, Option.some_bind, List.foldlM_cons, List.foldlM_nil]
    unfold ViewerPointer.createCloudRow
    cases hrow : createCloudRow A lookupX lookupY depth color st.1 k with
    | none => simp
    | some pts =>
      have hl := createCloudRow_length A lookupX lookupY depth color st.1 pts k hrow
      have hge : pts.length ≤ k * depth.cols + depth.cols := by
        rw [hl, hst]
        calc points.length ≤ depth.rows * depth.cols := hlen
          _ = k * depth.cols + depth.cols := by rw [hk]; ring
      simp [List.getElem?_eq_none hge]

/-- Every point index below `rows * cols` is the row-major index of a pixel. -/
theorem cloud_index_surj {rows cols i : Nat} (hi : i < rows * cols) :
    ∃ r c, r < rows ∧ c < cols ∧ i = r * cols + c := by
  have hpos : 0 < cols := by
    rcases Nat.eq_zero_or_pos cols with h | h
    · subst h; simp at hi
    · exact h
  refine ⟨i / cols, i % cols, ?_, Nat.mod_lt _ hpos, ?_⟩
  · exact Nat.div_lt_of_lt_mul (by rwa [Nat.mul_comm] at hi)
  · rw [Nat.mul_comm]; exact (Nat.div_add_mod i cols).symm

/-- In `viewer.cpp`, for buffers of matching dimensions `createCloud` returns (no access is
out of range), every one of the `rows * cols` points of the result is the point computed
for its pixel, and the result is the same whatever the cloud held before. -/
theorem createCloud_overwrites (A : Arith) (lookupX lookupY : List FP) (depth : Mat Nat)
    (color : Mat Vec3b) (points : List PointXYZRGBA)
    (h : MatchingDims lookupX lookupY depth color points) :
    ∃ out, createCloud A lookupX lookupY depth color points = some out
      ∧ out.length = depth.rows * depth.cols
      ∧ ∀ previous : List PointXYZRGBA, previous.length = depth.rows * depth.cols →
          createCloud A lookupX lookupY depth color previous = some out := by
  obtain ⟨out, h1, h2, h3⟩ := createCloud_matching A lookupX lookupY depth color points h
  refine ⟨out, h1, h2, fun previous hp => ?_⟩
  have h' : MatchingDims lookupX lookupY depth color previous :=
    ⟨h.depth_size, h.color_rows, h.color_cols, h.color_size, h.lookupX_size, h.lookupY_size, hp⟩
  obtain ⟨out', g1, g2, g3⟩ := createCloud_matching A lookupX lookupY depth color previous h'
  rw [g1]
  congr 1
  apply List.ext_getElem?
  intro i
  by_cases hi : i < depth.rows * depth.cols
  · obtain ⟨r, c, hr, hc, rfl⟩ := cloud_index_surj hi
    obtain ⟨raw, itX, y, px, e1, e2, e3, e4, e5⟩ := h3 r c hr hc
    obtain ⟨raw', itX', y', px', f1, f2, f3, f4, f5⟩ := g3 r c hr hc
    rw [e1] at f1; rw [e2] at f2; rw [e3] at f3; rw [e4] at f4
    cases f1; cases f2; cases f3; cases f4
    rw [e5, f5]
  · rw [List.getElem?_eq_none (by omega), List.getElem?_eq_none (by omega)]

/-- C28, the code at the failing input: on a 1x1 frame with matching colour frame, tables
and a cloud of one point, `createCloud` of `viewer.cpp` returns the cloud, while
`createCloud` of `viewerPointer.cpp` reads the point of index 1, outside the cloud; the
same happens for every frame with at least one row, since after the last row `itP` stands
at index `rows * cols`. -/
theorem createCloud_pointer_reads_past_cloud :
    ViewerPointer.createCloud Arith.ieee [FP.fin 1] [FP.fin 1] ⟨1, 1, [1500]⟩
        ⟨1, 1, [⟨10, 20, 30⟩]⟩ [badPoint] = none
      ∧ (createCloud Arith.ieee [FP.fin 1] [FP.fin 1] ⟨1, 1, [1500]⟩ ⟨1, 1, [⟨10, 20, 30⟩]⟩
          [badPoint]).isSome = true
      ∧ (createCloudRow Arith.ieee [FP.fin 1] [FP.fin 1] ⟨1, 1, [1500]⟩ ⟨1, 1, [⟨10, 20, 30⟩]⟩
            [badPoint] 0).map (fun pts => (pts.length, pts[0 * 1 + 1]?)) = some (1, none)
      ∧ ∀ (A : Arith) (lookupX lookupY : List FP) (depth : Mat Nat) (color : Mat Vec3b)
          (points : List PointXYZRGBA), MatchingDims lookupX lookupY depth color points →
          0 < depth.rows →
          ViewerPointer.createCloud A lookupX lookupY depth color points = none
            ∧ (createCloud A lookupX lookupY depth color points).isSome = true := by
  refine ⟨by decide!, by decide!, by decide!, ?_⟩
  intro A lookupX lookupY depth color points h hrows
  refine ⟨pointer_createCloud_none A lookupX lookupY depth color points
    (le_of_eq h.points_size) hrows, ?_⟩
  obtain ⟨out, h1, -⟩ := createCloud_matching A lookupX lookupY depth color points h
  rw [h1]
  rfl

/-! ## Claims on the lock -/

/-- The machine satisfies its invariant when the threads start. -/
theorem machineInv_init (frames : Nat → FrameSet) (r : Receiver) :
    MachineInv frames r (Machine.init r) where
  producer := by simp [Machine.init, ProducerPc.locked]
  image := by simp [Machine.init, Stage.locked]
  cloud := by simp [Machine.init, Stage.locked]
  stored := fun _ => rfl
  half := by simp [Machine.init]
  imageCopy := by simp [Machine.init]
  cloudCopy := by simp [Machine.init]
  imageHeld := fun _ => rfl
  cloudHeld := fun _ => rfl
  imageLog := by simp [Machine.init]
  cloudLog := by simp [Machine.init]
  allocated := by simp [Machine.init, depthBuffers]
  bound := by simp [Machine.init]
  cloudBound := by simp [Machine.init]
  seen := by simp [Machine.init]

/-- A statement of `callback` keeps the invariant. -/
theorem machineInv_producer (frames : Nat → FrameSet) (r : Receiver) (s : Machine)
    (h : MachineInv frames r s) : MachineInv frames r (s.producerStep (frames s.published)) := by
  unfold Machine.producerStep
  cases hpc : s.producerPc
  · exact { h with
      producer := by simpa [hpc, ProducerPc.locked] using h.producer
      stored := fun _ => h.stored (by simp [hpc])
      half := by simp
      allocated := by simpa [hpc] using h.allocated
      bound := ⟨h.bound.1, fun _ => h.bound.2 (by simp [hpc, ProducerPc.locked])⟩ }
  · exact { h with
      producer := by simpa [hpc, ProducerPc.locked] using h.producer
      stored := fun _ => h.stored (by simp [hpc])
      half := by simp
      allocated := by simpa [hpc] using h.allocated
      bound := ⟨h.bound.1, fun _ => h.bound.2 (by simp [hpc, ProducerPc.locked])⟩ }
  · exact { h with
      producer := by simpa [hpc, ProducerPc.locked] using h.producer
      stored := fun _ => h.stored (by simp [hpc])
      half := by simp
      allocated := by
        have := h.allocated
        simp only [hpc, or_true, if_true, Nat.add_zero] at this
        simp [this, depthBuffers, List.range_succ]
      bound := ⟨h.bound.1, fun _ => h.bound.2 (by simp [hpc, ProducerPc.locked])⟩
      seen := h.seen }
  · split_ifs with hl
    · exact { h with
        producer := by simp [ProducerPc.locked]
        image := by simpa [hl] using h.image
        cloud := by simpa [hl] using h.cloud
        stored := fun _ => h.stored (by simp [hpc])
        half := by simp
        allocated := by simpa [hpc] using h.allocated
        bound := ⟨h.bound.1, by simp [ProducerPc.locked]⟩ }
    · exact h
  · have hl : s.lock = some Thread.producer := h.producer.mpr (by simp [hpc, ProducerPc.locked])
    have hi : s.imagePc.locked = false := by
      cases hb : s.imagePc.locked
      · rfl
      · have := h.image.mpr hb
        rw [hl] at this; cases this
    have hc : s.cloudPc.locked = false := by
      cases hb : s.cloudPc.locked
      · rfl
      · have := h.cloud.mpr hb
        rw [hl] at this; cases this
    exact { h with
      producer := by simpa [ProducerPc.locked] using hl
      stored := by simp
      half := by simp
      imageCopy := fun hp => by rw [hp] at hi; cases hi
      cloudCopy := fun hp => by rw [hp] at hc; cases hc
      allocated := by simpa [hpc] using h.allocated
      bound := ⟨h.bound.1, by simp [ProducerPc.locked]⟩ }
  · have hl : s.lock = some Thread.producer := h.producer.mpr (by simp [hpc, ProducerPc.locked])
    exact { h with
      producer := by simpa [ProducerPc.locked] using hl
      stored := fun _ => h.half hpc
      half := by simp
      allocated := by simpa [hpc] using h.allocated
      bound := ⟨le_refl _, by simp [ProducerPc.locked]⟩
      cloudBound := le_trans h.cloudBound h.bound.1 }
  · exact { h with
      producer := by simpa [hpc, ProducerPc.locked] using h.producer
      stored := fun _ => h.stored (by simp [hpc])
      half := by simp
      allocated := by simpa [hpc] using h.allocated
      bound := ⟨h.bound.1, by simp [ProducerPc.locked]⟩ }
  · exact { h with
      producer := by simpa [hpc, ProducerPc.locked] using h.producer
      stored := fun _ => h.stored (by simp [hpc])
      half := by simp
      allocated := by simpa [hpc] using h.allocated
      bound := ⟨h.bound.1, by simp [ProducerPc.locked]⟩ }
  · have hl : s.lock = some Thread.producer := h.producer.mpr (by simp [hpc, ProducerPc.locked])
    exact { h with
      producer := by simp [ProducerPc.locked]
      image := by
        constructor
        · intro hc; cases hc
        · intro hi
          have := h.image.mpr hi
          rw [hl] at this; cases this
      cloud := by
        constructor
        · intro hc; cases hc
        · intro hi
          have := h.cloud.mpr hi
          rw [hl] at this; cases this
      stored := fun _ => h.stored (by simp [hpc])
      half := by simp
      allocated := by
        have := h.allocated
        simp only [hpc] at this
        simpa using this
      bound := ⟨by have := h.bound.1; simp only; omega, fun _ => h.bound.1⟩ }

/-- A statement of `imageViewer` keeps the invariant. -/
theorem machineInv_image (frames : Nat → FrameSet) (r : Receiver) (s : Machine)
    (ink : Option (Mat Vec3b)) (h : MachineInv frames r s) :
    MachineInv frames r (s.imageStep ink) := by
  unfold Machine.imageStep
  cases hpc : s.imagePc
  · dsimp only
    split_ifs with hu
    · exact { h with image := by simpa [hpc, Stage.locked] using h.image
                     imageCopy := by simp
                     imageHeld := fun _ => h.imageHeld (by simp [hpc]) }
    · exact h
  · dsimp only
    split_ifs with hl
    · exact { h with
        producer := by simpa [hl] using h.producer
        image := by simp [Stage.locked]
        cloud := by simpa [hl] using h.cloud
        imageCopy := by simp
        imageHeld := fun _ => h.imageHeld (by simp [hpc]) }
    · exact h
  · exact { h with image := by simpa [hpc, Stage.locked] using h.image
                   imageCopy := fun _ => rfl
                   imageHeld := by simp }
  · have hl : s.lock = some Thread.image := h.image.mpr (by simp [hpc, Stage.locked])
    have hp : s.producerPc ≠ ProducerPc.writeDepth := by
      intro hp
      have := h.producer.mpr (by simp [hp, ProducerPc.locked])
      rw [hl] at this; cases this
    have hcd : s.imageColor = s.depth := (h.imageCopy hpc).trans (h.stored hp)
    exact { h with
      image := by simpa [hpc, Stage.locked] using h.image
      imageCopy := by simp
      imageHeld := fun _ => hcd
      imageLog := by
        intro p hp
        simp only [List.mem_append, List.mem_singleton] at hp
        rcases hp with hp | hp
        · exact h.imageLog p hp
        · rw [hp]; exact hcd }
  · exact { h with image := by simpa [hpc, Stage.locked] using h.image
                   imageCopy := by simp
                   imageHeld := fun _ => h.imageHeld (by simp [hpc]) }
  · have hl : s.lock = some Thread.image := h.image.mpr (by simp [hpc, Stage.locked])
    exact { h with
      producer := by
        constructor
        · intro hc; cases hc
        · intro hi
          have := h.producer.mpr hi
          rw [hl] at this; cases this
      image := by simp [Stage.locked]
      cloud := by
        constructor
        · intro hc; cases hc
        · intro hi
          have := h.cloud.mpr hi
          rw [hl] at this; cases this
      imageCopy := by simp
      imageHeld := fun _ => h.imageHeld (by simp [hpc]) }
  · cases ink with
    | some pixels =>
      exact { h with image := by simpa [hpc, Stage.locked] using h.image
                     imageCopy := by simp [hpc]
                     imageHeld := fun _ => h.imageHeld (by simp [hpc]) }
    | none =>
      exact { h with image := by simpa [hpc, Stage.locked] using h.image
                     imageCopy := by simp
                     imageHeld := fun _ => h.imageHeld (by simp [hpc]) }

/-- Buffer `k` of the depth buffers allocated so far: the image of the receiver for
`k = 0`, the depth image of frame set `k - 1` otherwise. -/
theorem depthBuffers_getElem (frames : Nat → FrameSet) (r : Receiver) (n k : Nat)
    (hk : k ≤ n) :
    (k = 0 ∧ (depthBuffers frames r n)[k]? = some r.depth)
      ∨ ∃ m, k = m + 1 ∧ (depthBuffers frames r n)[k]? = some (frames m).depth := by
  cases k with
  | zero => exact Or.inl ⟨rfl, by simp [depthBuffers]⟩
  | succ m =>
    refine Or.inr ⟨m, rfl, ?_⟩
    have hm : m < n := hk
    simp [depthBuffers, List.getElem?_map, List.getElem?_range hm]

/-- A statement of `cloudViewer` keeps the invariant. -/
theorem machineInv_cloud (frames : Nat → FrameSet) (r : Receiver) (s : Machine)
    (h : MachineInv frames r s) : MachineInv frames r s.cloudStep := by
  unfold Machine.cloudStep
  cases hpc : s.cloudPc
  · dsimp only
    split_ifs with hu
    · exact { h with cloud := by simpa [hpc, Stage.locked] using h.cloud
                     cloudCopy := by simp
                     cloudHeld := fun _ => h.cloudHeld (by simp [hpc]) }
    · exact h
  · dsimp only
    split_ifs with hl
    · exact { h with
        producer := by simpa [hl] using h.producer
        image := by simpa [hl] using h.image
        cloud := by simp [Stage.locked]
        cloudCopy := by simp
        cloudHeld := fun _ => h.cloudHeld (by simp [hpc]) }
    · exact h
  · exact { h with cloud := by simpa [hpc, Stage.locked] using h.cloud
                   cloudCopy := fun _ => rfl
                   cloudHeld := by simp }
  · have hl : s.lock = some Thread.cloud := h.cloud.mpr (by simp [hpc, Stage.locked])
    have hp : s.producerPc ≠ ProducerPc.writeDepth := by
      intro hp
      have := h.producer.mpr (by simp [hp, ProducerPc.locked])
      rw [hl] at this; cases this
    have hcd : s.cloudColor = s.depth := (h.cloudCopy hpc).trans (h.stored hp)
    exact { h with
      cloud := by simpa [hpc, Stage.locked] using h.cloud
      cloudCopy := by simp
      cloudHeld := fun _ => hcd
      cloudBound := le_refl _
      cloudLog := by
        intro p hp
        simp only [List.mem_append, List.mem_singleton] at hp
        rcases hp with hp | hp
        · exact h.cloudLog p hp
        · rw [hp]; exact hcd }
  · exact { h with cloud := by simpa [hpc, Stage.locked] using h.cloud
                   cloudCopy := by simp
                   cloudHeld := fun _ => h.cloudHeld (by simp [hpc]) }
  · have hl : s.lock = some Thread.cloud := h.cloud.mpr (by simp [hpc, Stage.locked])
    exact { h with
      producer := by
        constructor
        · intro hc; cases hc
        · intro hi
          have := h.producer.mpr hi
          rw [hl] at this; cases this
      image := by
        constructor
        · intro hc; cases hc
        · intro hi
          have := h.image.mpr hi
          rw [hl] at this; cases this
      cloud := by simp [Stage.locked]
      cloudCopy := by simp
      cloudHeld := fun _ => h.cloudHeld (by simp [hpc]) }
  · have hle : s.cloudDepth ≤ s.published + (if s.producerPc = ProducerPc.cameraColor
        ∨ s.producerPc = ProducerPc.cameraDepth ∨ s.producerPc = ProducerPc.readImages
        then 0 else 1) := by
      have hb := h.bound
      have hc := h.cloudBound
      split_ifs with hp
      · have : s.producerPc.locked = false := by
          rcases hp with hp | hp | hp <;> simp [hp, ProducerPc.locked]
        have := hb.2 this
        omega
      · omega
    exact { h with
      cloud := by simpa [hpc, Stage.locked] using h.cloud
      cloudCopy := by simp
      cloudHeld := fun _ => h.cloudHeld (by simp [hpc])
      seen := by
        intro e he
        simp only [List.mem_append, List.mem_singleton] at he
        rcases he with he | he
        · exact h.seen e he
        · rw [he]
          refine ⟨h.cloudHeld (by simp [hpc]), ?_⟩
          have := depthBuffers_getElem frames r _ s.cloudDepth hle
          rw [← h.allocated] at this
          rw [h.cloudHeld (by simp [hpc])]
          exact this }

/-- A step of the schedule keeps the invariant. -/
theorem machineInv_step (frames : Nat → FrameSet) (r : Receiver) (s : Machine) (m : Move)
    (h : MachineInv frames r s) : MachineInv frames r (s.step frames m) := by
  cases m with
  | producer => exact machineInv_producer frames r s h
  | image ink => exact machineInv_image frames r s ink h
  | cloud => exact machineInv_cloud frames r s h

/-- Every interleaving keeps the invariant. -/
theorem machineInv_run (frames : Nat → FrameSet) (r : Receiver) (schedule : List Move)
    (s : Machine) (h : MachineInv frames r s) :
    MachineInv frames r (s.run frames schedule) := by
  induction schedule generalizing s with
  | nil => exact h
  | cons m rest ih => exact ih (s.step frames m) (machineInv_step frames r s m h)

/-- C25, counterexample: when the threads start, the mutex is free, the next statement of
`imageViewer` is the test `if(updateImage)`, a read of a dirty flag, and the next statement
of `callback` is `readCameraInfo(cameraInfoColor, cameraMatrixColor)`, a write of a camera
matrix; neither thread holds the mutex.  So it is not the case that every producer write
and every consumer read of the shared frame state is made with the mutex held.  And in the
interleaving in which `callback` stores a frame, `cloudViewer` and then `imageViewer` copy
its headers and `imageViewer` draws before `createCloud` runs, the drawing is a write to the
colour pixels with the mutex free, and `createCloud` reads the pixels drawn over, not the
ones `callback` stored. -/
theorem flag_test_without_lock :
    (Machine.init Receiver.new).lock = none
      ∧ (Machine.init Receiver.new).access Thread.image = [⟨Var.updateImage, false⟩]
      ∧ (Machine.init Receiver.new).access Thread.producer
          = [⟨Var.cameraMatrixColor, true⟩]
      ∧ (¬ ∀ (frames : Nat → FrameSet) (r : Receiver) (schedule : List Move) (t : Thread)
          (a : Access), a ∈ ((Machine.init r).run frames schedule).access t →
          (t = Thread.producer ∧ a.write = true) ∨ (t ≠ Thread.producer ∧ a.write = false) →
          ((Machine.init r).run frames schedule).lock = some t)
      ∧ ((Machine.init Receiver.new).run
            (fun _ => ⟨⟨1, 1, [⟨1, 2, 3⟩]⟩, ⟨1, 1, [1500]⟩, CameraMatrix.zeros,
              CameraMatrix.zeros⟩)
            (List.replicate 9 Move.producer ++ List.replicate 5 Move.cloud
              ++ List.replicate 6 (Move.image none))).lock = none
      ∧ ((Machine.init Receiver.new).run
            (fun _ => ⟨⟨1, 1, [⟨1, 2, 3⟩]⟩, ⟨1, 1, [1500]⟩, CameraMatrix.zeros,
              CameraMatrix.zeros⟩)
            (List.replicate 9 Move.producer ++ List.replicate 5 Move.cloud
              ++ List.replicate 6 (Move.image none))).access Thread.image
          = [⟨Var.colorPixels, true⟩, ⟨Var.colorPixels, false⟩, ⟨Var.depthPixels, false⟩]
      ∧ ((Machine.init Receiver.new).run
            (fun _ => ⟨⟨1, 1, [⟨1, 2, 3⟩]⟩, ⟨1, 1, [1500]⟩, CameraMatrix.zeros,
              CameraMatrix.zeros⟩)
            (List.replicate 9 Move.producer ++ List.replicate 5 Move.cloud
              ++ List.replicate 6 (Move.image none))).access Thread.cloud
          = [⟨Var.colorPixels, false⟩, ⟨Var.depthPixels, false⟩]
      ∧ ((Machine.init Receiver.new).run
            (fun _ => ⟨⟨1, 1, [⟨1, 2, 3⟩]⟩, ⟨1, 1, [1500]⟩, CameraMatrix.zeros,
              CameraMatrix.zeros⟩)
            (List.replicate 9 Move.producer ++ List.replicate 5 Move.cloud
              ++ List.replicate 6 (Move.image none)
              ++ [Move.image (some ⟨1, 1, [⟨0, 255, 0⟩]⟩), Move.cloud])).cloudSeen
          = [(1, 1, some ⟨1, 1, [⟨0, 255, 0⟩]⟩, some ⟨1, 1, [1500]⟩)]
      ∧ ((Machine.init Receiver.new).run
            (fun _ => ⟨⟨1, 1, [⟨1, 2, 3⟩]⟩, ⟨1, 1, [1500]⟩, CameraMatrix.zeros,
              CameraMatrix.zeros⟩)
            (List.replicate 9 Move.producer ++ List.replicate 5 Move.cloud
              ++ List.replicate 6 (Move.image none) ++ [Move.cloud])).cloudSeen
          = [(1, 1, some ⟨1, 1, [⟨1, 2, 3⟩]⟩, some ⟨1, 1, [1500]⟩)] := by
  refine ⟨rfl, rfl, rfl, fun h => ?_, by decide, by decide, by decide, by decide, by decide⟩
  have := h (fun _ => ⟨⟨0, 0, []⟩, ⟨0, 0, []⟩, CameraMatrix.zeros, CameraMatrix.zeros⟩)
    Receiver.new [] Thread.image ⟨Var.updateImage, false⟩ (List.mem_singleton.mpr rfl)
    (Or.inr ⟨fun hc => (by cases hc), rfl⟩)
  cases this

/-- C25, as amended: in every interleaving of the statements of `callback`, `imageViewer`
and `cloudViewer`, every write and every read of the members `color` and `depth` (the image
headers) and every write of a dirty flag is made by a thread that holds the mutex; the two
headers a consumer copies always name the buffers of one single call of `callback` (or the
pair the receiver held from the start), never the colour of one call with the depth of
another; the depth buffers are never written after their allocation, and the depth pixels
`createCloud` reads are those of the call of `callback` whose headers `cloudViewer`
copied. -/
theorem frame_copies_under_lock (frames : Nat → FrameSet) (r : Receiver)
    (schedule : List Move) :
    (∀ t : Thread, ((Machine.init r).run frames schedule).Guarded
        [⟨Var.color, true⟩, ⟨Var.color, false⟩, ⟨Var.depth, true⟩, ⟨Var.depth, false⟩,
          ⟨Var.updateImage, true⟩, ⟨Var.updateCloud, true⟩] t)
      ∧ (∀ p ∈ ((Machine.init r).run frames schedule).imageLog, p.1 = p.2)
      ∧ (∀ p ∈ ((Machine.init r).run frames schedule).cloudLog, p.1 = p.2)
      ∧ (∀ t : Thread, ∀ a ∈ ((Machine.init r).run frames schedule).access t,
          a.var = Var.depthPixels → a.write = false)
      ∧ (∃ n, ((Machine.init r).run frames schedule).depthPixels = depthBuffers frames r n)
      ∧ (∀ e ∈ ((Machine.init r).run frames schedule).cloudSeen, e.1 = e.2.1
          ∧ ((e.1 = 0 ∧ e.2.2.2 = some r.depth)
              ∨ ∃ n, e.1 = n + 1 ∧ e.2.2.2 = some (frames n).depth)) := by
  have inv := machineInv_run frames r schedule _ (machineInv_init frames r)
  refine ⟨fun t a ha hmem => ?_, inv.imageLog, inv.cloudLog, fun t a ha hv => ?_,
    ⟨_, inv.allocated⟩, inv.seen⟩
  · generalize (Machine.init r).run frames schedule = s at inv ha
    cases t
    · refine inv.producer.mpr ?_
      unfold Machine.access at ha
      cases hpc : s.producerPc <;> simp [hpc] at ha <;>
        first | rfl | (subst ha; simp at hmem)
    · refine inv.image.mpr ?_
      unfold Machine.access at ha
      cases hpc : s.imagePc <;> simp [hpc] at ha <;>
        first | rfl | (subst ha; simp at hmem) | (rcases ha with ha | ha | ha <;> subst ha <;> simp at hmem)
    · refine inv.cloud.mpr ?_
      unfold Machine.access at ha
      cases hpc : s.cloudPc <;> simp [hpc] at ha <;>
        first | rfl | (subst ha; simp at hmem) | (rcases ha with ha | ha <;> subst ha <;> simp at hmem)
  · generalize (Machine.init r).run frames schedule = s at ha
    cases t
    · unfold Machine.access at ha
      cases hpc : s.producerPc <;> simp [hpc] at ha <;> subst ha <;> simp at hv
    · unfold Machine.access at ha
      cases hpc : s.imagePc <;> simp [hpc] at ha <;>
        first | (subst ha; simp at hv) | (rcases ha with ha | ha | ha <;> subst ha <;> simp at hv ⊢)
    · unfold Machine.access at ha
      cases hpc : s.cloudPc <;> simp [hpc] at ha <;>
        first | (subst ha; simp at hv) | (rcases ha with ha | ha <;> subst ha <;> simp at hv ⊢)

end Kinect2Viewer
